import Mathlib

/-!
# CBVH++ : BVH import and skeletal-animation queries

A shallow embedding of `src/bvh_Importer.cpp`, `src/animation.cpp` and
`src/animation.h`, followed by theorems about it.

Conventions of the embedding

* `float` values are elements of an ordered field `α` (exact arithmetic).
* The C library routines the code calls but does not define
  (`atof`, `atoi`, `cos`, `sin`, `M_PI`) are the fields of a `Lib` record that
  every function using them takes as an argument.
* glm is included by `animation.h` and is not among the sources; its types are
  embedded as glm defines them.  In particular the member `length()` of a `vec3`
  is the number of components of the vector, 3, and not its magnitude.
* glm matrices are stored by columns: `m[c][r]` is component `r` of column `c`.
* A `std::string` of a token is a Lean `String`; the raw file contents given to
  `tokenize` are a list of `char` values, kept as signed integers because the
  code tests their sign.
* Reading `tokens[i]`, a `vector` element or a `vec3` component out of range is
  undefined behaviour in the source; the embedding stops with
  `Outcome.outOfRange`.  A `while` loop that may not terminate is run with
  fuel and stops with `Outcome.timeout` when the fuel is used up.
* A pointer result that may be `NULL` is an `Option`.
* The two brace tokens of the format are written as the string escapes
  `\x7b` (opening brace) and `\x7d` (closing brace).
-/

namespace CBVH

/-! ## Outcomes of running a piece of the program -/

/-- Result of running a piece of the program: a value, an out-of-range read
(undefined behaviour in C++), a floating-point division by zero, or fuel
exhausted inside a `while` loop. -/
inductive Outcome (β : Type) where
  | ok (v : β) : Outcome β
  | outOfRange : Outcome β
  | divByZero : Outcome β
  | timeout : Outcome β
deriving DecidableEq, Repr

namespace Outcome

/-- Sequencing: continue with the value of a normal outcome. -/
def bind {β γ : Type} : Outcome β → (β → Outcome γ) → Outcome γ
  | ok v, f => f v
  | outOfRange, _ => outOfRange
  | divByZero, _ => divByZero
  | timeout, _ => timeout

/-- An optional value read from a container; `none` is an out-of-range read. -/
def ofOption {β : Type} : Option β → Outcome β
  | some v => ok v
  | none => outOfRange

instance : Monad Outcome where
  pure := ok
  bind := bind

end Outcome

/-! ## glm vectors and matrices -/

/-- The glm type `vec3`. -/
structure Vec3 (α : Type) where
  x : α
  y : α
  z : α
deriving DecidableEq, Repr

/-- The glm type `vec4`. -/
structure Vec4 (α : Type) where
  x : α
  y : α
  z : α
  w : α
deriving DecidableEq, Repr

/-- The glm type `mat3`, stored as its three columns: `m[c]` is `m.c0`, `m.c1`, `m.c2`. -/
structure Mat3 (α : Type) where
  c0 : Vec3 α
  c1 : Vec3 α
  c2 : Vec3 α
deriving DecidableEq, Repr

/-- The glm type `mat4`, stored as its four columns. -/
structure Mat4 (α : Type) where
  c0 : Vec4 α
  c1 : Vec4 α
  c2 : Vec4 α
  c3 : Vec4 α
deriving DecidableEq, Repr

section Algebra

variable {α : Type} [LinearOrderedField α]

namespace Vec3

/-- Componentwise sum, glm `vec3 + vec3`. -/
def add (a b : Vec3 α) : Vec3 α := ⟨a.x + b.x, a.y + b.y, a.z + b.z⟩

/-- Componentwise negation, glm unary minus. -/
def neg (a : Vec3 α) : Vec3 α := ⟨-a.x, -a.y, -a.z⟩

/-- Product with a scalar, glm `vec3 * float`. -/
def scale (a : Vec3 α) (s : α) : Vec3 α := ⟨a.x * s, a.y * s, a.z * s⟩

/-- Assignment `v[i] = a` to a component; an index outside `0..2` is out of range. -/
def setComponent (v : Vec3 α) (i : Int) (a : α) : Outcome (Vec3 α) :=
  if i = 0 then .ok { v with x := a }
  else if i = 1 then .ok { v with y := a }
  else if i = 2 then .ok { v with z := a }
  else .outOfRange

/-- The member `length()` of a glm `vec3`: the number of components of the vector,
which is 3 whatever the vector holds.  (The magnitude of a vector is the free
function `glm::length(v)`.) -/
def length (_v : Vec3 α) : Nat := 3

end Vec3

namespace Vec4

/-- Componentwise sum, glm `vec4 + vec4`. -/
def add (a b : Vec4 α) : Vec4 α := ⟨a.x + b.x, a.y + b.y, a.z + b.z, a.w + b.w⟩

/-- Product with a scalar, glm `vec4 * float`: all four components are scaled. -/
def scale (a : Vec4 α) (s : α) : Vec4 α := ⟨a.x * s, a.y * s, a.z * s, a.w * s⟩

/-- Conversion `vec3(vec4)`: the fourth component is dropped. -/
def xyz (a : Vec4 α) : Vec3 α := ⟨a.x, a.y, a.z⟩

/-- Constructor `vec4(vec3, w)`. -/
def ofVec3 (v : Vec3 α) (w : α) : Vec4 α := ⟨v.x, v.y, v.z, w⟩

end Vec4

namespace Mat3

/-- Constructor `mat3(1)`: the identity matrix. -/
def one : Mat3 α := ⟨⟨1, 0, 0⟩, ⟨0, 1, 0⟩, ⟨0, 0, 1⟩⟩

/-- Constructor `mat3(x0, y0, z0, x1, y1, z1, x2, y2, z2)`: glm fills the matrix
column by column, so the first three scalars are column 0. -/
def ofScalars (x0 y0 z0 x1 y1 z1 x2 y2 z2 : α) : Mat3 α :=
  ⟨⟨x0, y0, z0⟩, ⟨x1, y1, z1⟩, ⟨x2, y2, z2⟩⟩

/-- Product `mat3 * vec3`: the combination of the columns with the components of `v`. -/
def mulVec (m : Mat3 α) (v : Vec3 α) : Vec3 α :=
  ⟨m.c0.x * v.x + m.c1.x * v.y + m.c2.x * v.z,
   m.c0.y * v.x + m.c1.y * v.y + m.c2.y * v.z,
   m.c0.z * v.x + m.c1.z * v.y + m.c2.z * v.z⟩

/-- Product `mat3 * mat3`: column `j` of the product is `a * b[j]`. -/
def mul (a b : Mat3 α) : Mat3 α := ⟨a.mulVec b.c0, a.mulVec b.c1, a.mulVec b.c2⟩

/-- The transposed matrix. -/
def transpose (m : Mat3 α) : Mat3 α :=
  ⟨⟨m.c0.x, m.c1.x, m.c2.x⟩, ⟨m.c0.y, m.c1.y, m.c2.y⟩, ⟨m.c0.z, m.c1.z, m.c2.z⟩⟩

end Mat3

namespace Mat4

/-- Constructor `mat4(1)`: the identity matrix. -/
def one : Mat4 α := ⟨⟨1, 0, 0, 0⟩, ⟨0, 1, 0, 0⟩, ⟨0, 0, 1, 0⟩, ⟨0, 0, 0, 1⟩⟩

/-- Product `mat4 * vec4`. -/
def mulVec (m : Mat4 α) (v : Vec4 α) : Vec4 α :=
  ⟨m.c0.x * v.x + m.c1.x * v.y + m.c2.x * v.z + m.c3.x * v.w,
   m.c0.y * v.x + m.c1.y * v.y + m.c2.y * v.z + m.c3.y * v.w,
   m.c0.z * v.x + m.c1.z * v.y + m.c2.z * v.z + m.c3.z * v.w,
   m.c0.w * v.x + m.c1.w * v.y + m.c2.w * v.z + m.c3.w * v.w⟩

/-- Product `mat4 * mat4`: column `j` of the product is `a * b[j]`. -/
def mul (a b : Mat4 α) : Mat4 α :=
  ⟨a.mulVec b.c0, a.mulVec b.c1, a.mulVec b.c2, a.mulVec b.c3⟩

end Mat4

/-! ## `Transform` (animation.h, animation.cpp) -/

/-- Class `Transform`: its only member is the 4x4 matrix `m_transformMatrix`. -/
structure Transform (α : Type) where
  m_transformMatrix : Mat4 α
deriving DecidableEq, Repr

namespace Transform

/-- Constructor `Transform()`: the identity matrix. -/
def identity : Transform α := ⟨Mat4.one⟩

/-- Constructor `Transform(mat3 rotation, vec3 origin)`. -/
def ofRotationOrigin (rotation : Mat3 α) (origin : Vec3 α) : Transform α :=
  ⟨⟨⟨rotation.c0.x, rotation.c0.y, rotation.c0.z, 0⟩,
    ⟨rotation.c1.x, rotation.c1.y, rotation.c1.z, 0⟩,
    ⟨rotation.c2.x, rotation.c2.y, rotation.c2.z, 0⟩,
    ⟨origin.x, origin.y, origin.z, 1⟩⟩⟩

/-- Member `operator*(const Transform&)`: the product of the two matrices. -/
def mul (a b : Transform α) : Transform α :=
  ⟨a.m_transformMatrix.mul b.m_transformMatrix⟩

/-- Member `operator*(const vec4&)`. -/
def mulVec4 (t : Transform α) (v : Vec4 α) : Vec4 α := t.m_transformMatrix.mulVec v

/-- Member `Rotate`: `vec3(*this * vec4(direction, 0))`. -/
def Rotate (t : Transform α) (direction : Vec3 α) : Vec3 α :=
  (t.mulVec4 (Vec4.ofVec3 direction 0)).xyz

/-- Member `TransformPoint`: `vec3(*this * vec4(point, 1))`. -/
def TransformPoint (t : Transform α) (point : Vec3 α) : Vec3 α :=
  (t.mulVec4 (Vec4.ofVec3 point 1)).xyz

/-- Member `GetOrigin`: `m_transformMatrix * vec4(0, 0, 0, 1)` converted to `vec3`. -/
def GetOrigin (t : Transform α) : Vec3 α :=
  (t.m_transformMatrix.mulVec ⟨0, 0, 0, 1⟩).xyz

/-- Member `SetOrigin`: the rotation columns are kept (their fourth component
is reset to 0) and the fourth column becomes `(origin, 1)`. -/
def SetOrigin (t : Transform α) (origin : Vec3 α) : Transform α :=
  let m := t.m_transformMatrix
  ⟨⟨⟨m.c0.x, m.c0.y, m.c0.z, 0⟩,
    ⟨m.c1.x, m.c1.y, m.c1.z, 0⟩,
    ⟨m.c2.x, m.c2.y, m.c2.z, 0⟩,
    ⟨origin.x, origin.y, origin.z, 1⟩⟩⟩

/-- Member `SetRotation`. -/
def SetRotation (t : Transform α) (rotation : Mat3 α) : Transform α :=
  let m := t.m_transformMatrix
  ⟨⟨⟨rotation.c0.x, rotation.c0.y, rotation.c0.z, 0⟩,
    ⟨rotation.c1.x, rotation.c1.y, rotation.c1.z, 0⟩,
    ⟨rotation.c2.x, rotation.c2.y, rotation.c2.z, 0⟩,
    ⟨m.c3.x, m.c3.y, m.c3.z, 1⟩⟩⟩

/-- Member `GetRotation`: the upper-left 3x3 block. -/
def GetRotation (t : Transform α) : Mat3 α :=
  let m := t.m_transformMatrix
  ⟨⟨m.c0.x, m.c0.y, m.c0.z⟩, ⟨m.c1.x, m.c1.y, m.c1.z⟩, ⟨m.c2.x, m.c2.y, m.c2.z⟩⟩

/-- Member `GetInverse` (animation.cpp, the definition with a body that returns):
the columns of `inverseRotation` are the rows of the rotation block, `origin` is
the fourth column, and the result is `Transform(inverseRotation, -origin)`. -/
def GetInverse (t : Transform α) : Transform α :=
  let m := t.m_transformMatrix
  let inverseRotation : Mat3 α :=
    ⟨⟨m.c0.x, m.c1.x, m.c2.x⟩, ⟨m.c0.y, m.c1.y, m.c2.y⟩, ⟨m.c0.z, m.c1.z, m.c2.z⟩⟩
  let origin : Vec3 α := ⟨m.c3.x, m.c3.y, m.c3.z⟩
  ofRotationOrigin inverseRotation origin.neg

end Transform

end Algebra

/-! ## The tokenizer (bvh_Importer.cpp) -/

/-- The separator test of `tokenize` on one `char`, given as its signed value:
NUL, LF, space, CR, TAB, or a negative value. -/
def isSeparator (c : Int) : Bool :=
  c == 0 || c == 10 || c == 32 || c == 13 || c == 9 || decide (c < 0)

/-- The `for` loop of `tokenize` over the characters still to be read; `tokens`
is the output vector and `token` the run being accumulated.  When the
characters are used up the loop ends: `token` is not looked at again. -/
def tokenizeLoop : List Int → List (List Int) → List Int → List (List Int)
  | [], tokens, _ => tokens
  | c :: rest, tokens, token =>
    if isSeparator c then
      tokenizeLoop rest (if token.length > 0 then tokens ++ [token] else tokens) []
    else
      tokenizeLoop rest tokens (token ++ [c])

/-- Function `tokenize(tokens, str)`: returns the final contents of `tokens`. -/
def tokenize (tokens : List (List Int)) (str : List Int) : List (List Int) :=
  tokenizeLoop str tokens []

/-- The tokenizer as the specification words it: all maximal non-empty runs of
characters that are not separators, in order. -/
def maximalRuns (str : List Int) : List (List Int) :=
  (str.splitOnP isSeparator).filter (fun run => run ≠ [])

/-! ## Library routines and containers -/

/-- The routines of the C library that the code calls and does not define:
`atof`, `atoi`, `cos`, `sin`, and the constant `M_PI`. -/
structure Lib (α : Type) where
  atof : String → α
  atoi : String → Int
  cos : α → α
  sin : α → α
  pi : α

/-- A `std::unordered_map<string, β>`, kept as its lookup function. -/
def UMap (β : Type) : Type := String → Option β

namespace UMap

/-- The empty map. -/
def empty {β : Type} : UMap β := fun _ => none

/-- Lookup `find(key)`: `none` stands for `end()`. -/
def find {β : Type} (m : UMap β) (key : String) : Option β := m key

/-- Assignment `m[key] = value`. -/
def insert {β : Type} (m : UMap β) (key : String) (value : β) : UMap β :=
  fun k => if k = key then some value else m k

/-- Member `emplace(key, value)` guarded by `find(key) == end()`: the first
value stored under a key is kept. -/
def emplaceIfAbsent {β : Type} (m : UMap β) (key : String) (value : β) : UMap β :=
  match m.find key with
  | none => m.insert key value
  | some _ => m

/-- Read access `m[key]` on a map of vectors: a missing key yields the empty vector. -/
def getVector {β : Type} (m : UMap (List β)) (key : String) : List β :=
  (m.find key).getD []

end UMap

/-- Read `tokens[i]`; an index at or beyond `tokens.size()` is out of range. -/
def tokenAt (tokens : List String) (i : Nat) : Outcome String :=
  Outcome.ofOption tokens[i]?

/-- Floating-point division `a / b`.  The behaviour of a division by zero is
undefined in C++ (IEEE arithmetic gives an infinity or a NaN, no number); the
embedding stops with `divByZero`. -/
def fdiv {α : Type} [LinearOrderedField α] (a b : α) : Outcome α :=
  if b = 0 then .divByZero else .ok (a / b)

/-! ## The skeleton tree (animation.h) -/

/-- Class `SkeletonJoint`, with the arguments of its constructor in their order:
name, child joints, local offset. -/
inductive SkeletonJoint (α : Type) where
  | mk (m_name : String) (m_childJoints : List (SkeletonJoint α)) (m_localOffset : Vec3 α) :
      SkeletonJoint α

namespace SkeletonJoint

/-- Member `GetName`. -/
def GetName {α : Type} : SkeletonJoint α → String
  | mk name _ _ => name

/-- Member `GetDirectChildren`. -/
def GetDirectChildren {α : Type} : SkeletonJoint α → List (SkeletonJoint α)
  | mk _ children _ => children

/-- Member `GetLocalOffset`. -/
def GetLocalOffset {α : Type} : SkeletonJoint α → Vec3 α
  | mk _ _ offset => offset

end SkeletonJoint

/-- The two optional outputs of `SkeletonJoint::QuerySkeleton`; `none` is a null pointer. -/
structure SkeletonOutputs (α : Type) where
  jointPointersByNames : Option (UMap (SkeletonJoint α))
  bonesByJointNames : Option (List (String × String))

mutual
/-- Member `SkeletonJoint::QuerySkeleton`. -/
def SkeletonJoint.QuerySkeleton {α : Type} : SkeletonJoint α → SkeletonOutputs α → SkeletonOutputs α
  | .mk m_name m_childJoints m_localOffset, out =>
    let out1 : SkeletonOutputs α :=
      { out with
        jointPointersByNames := out.jointPointersByNames.map
          (fun m => m.emplaceIfAbsent m_name (.mk m_name m_childJoints m_localOffset)) }
    SkeletonJoint.QuerySkeletonChildren m_name m_childJoints out1
/-- The loop `for (auto child : m_childJoints)` of `QuerySkeleton`. -/
def SkeletonJoint.QuerySkeletonChildren {α : Type} :
    String → List (SkeletonJoint α) → SkeletonOutputs α → SkeletonOutputs α
  | _, [], out => out
  | m_name, child :: rest, out =>
    let out1 : SkeletonOutputs α :=
      { out with
        bonesByJointNames := out.bonesByJointNames.map
          (fun bones => bones ++ [(m_name, child.GetName)]) }
    SkeletonJoint.QuerySkeletonChildren m_name rest (child.QuerySkeleton out1)
end

/-! ## The importer (bvh_Importer.cpp) -/

/-- Function `ChannelOrderToInt`. -/
def ChannelOrderToInt (str : String) : Int :=
  if str = "Xrotation" then 0
  else if str = "Yrotation" then 1
  else if str = "Zrotation" then 2
  else if str = "Xposition" then 0
  else if str = "Yposition" then 1
  else if str = "Zposition" then 2
  else -1

section Importer

variable {α : Type} [LinearOrderedField α]

/-- Function `GetRotationMatrix`: the angle is first multiplied by `M_PI / 180.0`;
the nine scalars of each `mat3` are given in the order of the source, which glm
reads column by column. -/
def GetRotationMatrix (lib : Lib α) (axis : Int) (angle : α) : Mat3 α :=
  let angle := angle * (lib.pi / 180)
  if axis = 0 then
    Mat3.ofScalars
      1 0 0
      0 (lib.cos angle) (-(lib.sin angle))
      0 (lib.sin angle) (lib.cos angle)
  else if axis = 1 then
    Mat3.ofScalars
      (lib.cos angle) 0 (lib.sin angle)
      0 1 0
      (-(lib.sin angle)) 0 (lib.cos angle)
  else if axis = 2 then
    Mat3.ofScalars
      (lib.cos angle) (-(lib.sin angle)) 0
      (lib.sin angle) (lib.cos angle) 0
      (-0) 0 1
  else
    Mat3.one

/-- The table `jointChannelsOrderings`. -/
abbrev ChannelOrderings : Type := UMap (List Int)

/-- What a call of `ParseJoint` leaves behind when it returns: the returned
pointer (`none` for `NULL`) together with the value written to `*endToken`,
and the channel-ordering table, which is updated through a reference also when
the call returns `NULL`. -/
abbrev ParseResult (α : Type) : Type := Option (SkeletonJoint α × Nat) × ChannelOrderings

/-- The three `atof` reads of `tokens[startToken + 4..6]` that build a local offset. -/
def readOffset (lib : Lib α) (tokens : List String) (startToken : Nat) : Outcome (Vec3 α) := do
  let tx ← tokenAt tokens (startToken + 4)
  let ty ← tokenAt tokens (startToken + 5)
  let tz ← tokenAt tokens (startToken + 6)
  pure ⟨lib.atof tx, lib.atof ty, lib.atof tz⟩

mutual
/-- Function `ParseJoint`.  The fuel bounds the iterations of its `while` loop
and the depth of the recursion. -/
def ParseJoint (lib : Lib α) (tokens : List String) :
    Nat → Nat → ChannelOrderings → Outcome (ParseResult α)
  | 0, _, _ => .timeout
  | fuel + 1, startToken, jointChannelsOrderings => do
    let t2 ← tokenAt tokens (startToken + 2)
    if t2 ≠ "\x7b" then pure (none, jointChannelsOrderings) else
    let t3 ← tokenAt tokens (startToken + 3)
    if t3 ≠ "OFFSET" then pure (none, jointChannelsOrderings) else
    let jointName ← tokenAt tokens (startToken + 1)
    let jointLocalOffset ← readOffset lib tokens startToken
    let t7 ← tokenAt tokens (startToken + 7)
    if t7 ≠ "CHANNELS" then pure (none, jointChannelsOrderings) else
    let t8 ← tokenAt tokens (startToken + 8)
    if t8 = "3" then do
      let c0 ← tokenAt tokens (startToken + 9)
      let c1 ← tokenAt tokens (startToken + 10)
      let c2 ← tokenAt tokens (startToken + 11)
      ParseJointLoop lib tokens fuel startToken jointName jointLocalOffset (startToken + 12) []
        (jointChannelsOrderings.insert jointName
          [ChannelOrderToInt c0, ChannelOrderToInt c1, ChannelOrderToInt c2])
    else if t8 = "6" then do
      let c0 ← tokenAt tokens (startToken + 9)
      let c1 ← tokenAt tokens (startToken + 10)
      let c2 ← tokenAt tokens (startToken + 11)
      let c3 ← tokenAt tokens (startToken + 12)
      let c4 ← tokenAt tokens (startToken + 13)
      let c5 ← tokenAt tokens (startToken + 14)
      ParseJointLoop lib tokens fuel startToken jointName jointLocalOffset (startToken + 15) []
        (jointChannelsOrderings.insert jointName
          [ChannelOrderToInt c0, ChannelOrderToInt c1, ChannelOrderToInt c2,
           ChannelOrderToInt c3, ChannelOrderToInt c4, ChannelOrderToInt c5])
    else pure (none, jointChannelsOrderings)
/-- The `while` loop of `ParseJoint`, which runs until `tokens[currentToken]` is the
closing brace, and the `return` after it.  A child call that returns `NULL` changes neither
`currentToken` nor `jointChildren`, and the loop goes on. -/
def ParseJointLoop (lib : Lib α) (tokens : List String) :
    Nat → Nat → String → Vec3 α → Nat → List (SkeletonJoint α) → ChannelOrderings →
      Outcome (ParseResult α)
  | 0, _, _, _, _, _, _ => .timeout
  | fuel + 1, startToken, jointName, jointLocalOffset, currentToken, jointChildren,
      jointChannelsOrderings => do
    let t ← tokenAt tokens currentToken
    if t = "\x7d" then
      pure (some (.mk jointName jointChildren jointLocalOffset, currentToken),
        jointChannelsOrderings)
    else if t = "JOINT" then do
      let r ← ParseJoint lib tokens fuel currentToken jointChannelsOrderings
      match r with
      | (some (childJoint, currentEndToken), orderings) =>
        ParseJointLoop lib tokens fuel startToken jointName jointLocalOffset
          (currentEndToken + 1) (jointChildren ++ [childJoint]) orderings
      | (none, orderings) =>
        ParseJointLoop lib tokens fuel startToken jointName jointLocalOffset
          currentToken jointChildren orderings
    else if t = "End" then do
      let t1 ← tokenAt tokens (currentToken + 1)
      if t1 = "Site" then do
        let s2 ← tokenAt tokens (currentToken + 2)
        if s2 ≠ "\x7b" then pure (none, jointChannelsOrderings) else
        let s3 ← tokenAt tokens (currentToken + 3)
        if s3 ≠ "OFFSET" then pure (none, jointChannelsOrderings) else
        let s7 ← tokenAt tokens (currentToken + 7)
        if s7 ≠ "\x7d" then pure (none, jointChannelsOrderings) else
        let endJointLocalOffset ← readOffset lib tokens startToken
        ParseJointLoop lib tokens fuel startToken jointName jointLocalOffset
          (currentToken + 8)
          (jointChildren ++ [.mk (jointName ++ "_end") [] endJointLocalOffset])
          jointChannelsOrderings
      else
        ParseJointLoop lib tokens fuel startToken jointName jointLocalOffset
          (currentToken + 1) jointChildren jointChannelsOrderings
    else
      ParseJointLoop lib tokens fuel startToken jointName jointLocalOffset
        (currentToken + 1) jointChildren jointChannelsOrderings
end

/-- The table `jointTransforms`. -/
abbrev JointTransforms (α : Type) : Type := UMap (List (Transform α))

/-- One evaluation of the argument list of `GetRotationMatrix` in the loop
`for (int r = 0; r < 3; r++)` of `ReadFrameRecursive`: the axis is
`jointsChannelOrderings[name][bIsRoot ? r + 3 : r]` and the angle is
`atof(tokens[currentToken + r])`. -/
def readRotation (lib : Lib α) (tokens : List String) (jointsChannelOrderings : ChannelOrderings)
    (name : String) (bIsRoot : Bool) (currentToken r : Nat) : Outcome (Mat3 α) := do
  let axis ← Outcome.ofOption
    (jointsChannelOrderings.getVector name)[if bIsRoot then r + 3 else r]?
  let t ← tokenAt tokens (currentToken + r)
  pure (GetRotationMatrix lib axis (lib.atof t))

/-- The lines of `ReadFrameRecursive` that store `jointTransform` under the
joint name: a new one-element vector when `find` fails, `push_back` otherwise. -/
def appendTransform (jointTransforms : JointTransforms α) (name : String)
    (jointTransform : Transform α) : JointTransforms α :=
  match jointTransforms.find name with
  | none => jointTransforms.insert name [jointTransform]
  | some transforms => jointTransforms.insert name (transforms ++ [jointTransform])

mutual
/-- Function `ReadFrameRecursive`; the state is the pair of `jointTransforms` and
`currentToken`, both passed by reference in the source. -/
def ReadFrameRecursive (lib : Lib α) (tokens : List String)
    (jointsChannelOrderings : ChannelOrderings) :
    SkeletonJoint α → Bool → JointTransforms α × Nat → Outcome (JointTransforms α × Nat)
  | .mk name children localOffset, bIsRoot, (jointTransforms, currentToken) =>
    if children.length = 0 then pure (jointTransforms, currentToken) else do
    let rotation : Mat3 α := Mat3.one
    let g0 ← readRotation lib tokens jointsChannelOrderings name bIsRoot currentToken 0
    let rotation := rotation.mul g0
    let g1 ← readRotation lib tokens jointsChannelOrderings name bIsRoot currentToken 1
    let rotation := rotation.mul g1
    let g2 ← readRotation lib tokens jointsChannelOrderings name bIsRoot currentToken 2
    let rotation := rotation.mul g2
    let jointTransform := Transform.ofRotationOrigin rotation localOffset
    ReadFrameChildren lib tokens jointsChannelOrderings children
      (appendTransform jointTransforms name jointTransform, currentToken + 3)
/-- The loop `for (auto child : joint->GetDirectChildren())` of `ReadFrameRecursive`. -/
def ReadFrameChildren (lib : Lib α) (tokens : List String)
    (jointsChannelOrderings : ChannelOrderings) :
    List (SkeletonJoint α) → JointTransforms α × Nat → Outcome (JointTransforms α × Nat)
  | [], state => pure state
  | child :: rest, state => do
    let state1 ← ReadFrameRecursive lib tokens jointsChannelOrderings child false state
    ReadFrameChildren lib tokens jointsChannelOrderings rest state1
end

/-- Class `SkeletalMotion` (animation.h). -/
structure SkeletalMotion (α : Type) where
  m_name : String
  m_rootTrajectories : List (List (Vec3 α))
  m_jointTransforms : JointTransforms α
  m_skeletonRoots : List (SkeletonJoint α)
  m_samplingRate : α
  m_frameCount : Int
  m_skeletonScale : α

/-- The constructor of `SkeletalMotion`: the scale starts at `1.0f`. -/
def SkeletalMotion.new (name : String) (rootTrajectories : List (List (Vec3 α)))
    (jointTransforms : JointTransforms α) (skeletonRoots : List (SkeletonJoint α))
    (samplingRate : α) (frameCount : Int) : SkeletalMotion α :=
  { m_name := name
    m_rootTrajectories := rootTrajectories
    m_jointTransforms := jointTransforms
    m_skeletonRoots := skeletonRoots
    m_samplingRate := samplingRate
    m_frameCount := frameCount
    m_skeletonScale := 1 }

/-- What the first loop of `BVHImport` hands to the rest of the function:
`none` when it executed `return NULL`, otherwise the index of the `MOTION`
token that ended the loop, the skeleton roots and the channel orderings. -/
abbrev HierarchyResult (α : Type) : Type :=
  Option (Nat × List (SkeletonJoint α) × ChannelOrderings)

/-- The loop `while (tokens[currentToken] != "MOTION")` of `BVHImport`.  When
`ParseJoint` returns `NULL`, `endToken` still holds `-1`, so the two statements
`currentToken = endToken; currentToken++;` leave `currentToken` at `0`. -/
def hierarchyLoop (lib : Lib α) (tokens : List String) :
    Nat → Nat → List (SkeletonJoint α) → ChannelOrderings → Outcome (HierarchyResult α)
  | 0, _, _, _ => .timeout
  | fuel + 1, currentToken, skeletalRoots, jointChannelsOrderings => do
    let t ← tokenAt tokens currentToken
    if t = "MOTION" then pure (some (currentToken, skeletalRoots, jointChannelsOrderings))
    else if currentToken = 0 ∧ t ≠ "HIERARCHY" then pure none
    else if t = "ROOT" then do
      let r ← ParseJoint lib tokens fuel currentToken jointChannelsOrderings
      match r with
      | (some (rootJoint, endToken), orderings) =>
        hierarchyLoop lib tokens fuel (endToken + 1) (skeletalRoots ++ [rootJoint]) orderings
      | (none, orderings) =>
        hierarchyLoop lib tokens fuel 0 skeletalRoots orderings
    else
      hierarchyLoop lib tokens fuel (currentToken + 1) skeletalRoots jointChannelsOrderings

/-- One assignment `rootPosition[ordering[i]] = atof(tokens[currentToken + i])`. -/
def readRootComponent (lib : Lib α) (tokens : List String)
    (jointChannelsOrderings : ChannelOrderings) (name : String) (currentToken i : Nat)
    (rootPosition : Vec3 α) : Outcome (Vec3 α) := do
  let axis ← Outcome.ofOption (jointChannelsOrderings.getVector name)[i]?
  let t ← tokenAt tokens (currentToken + i)
  rootPosition.setComponent axis (lib.atof t)

/-- The loop over `rootIndex` inside one frame of `BVHImport`; the state is
`rootPositions`, `jointTransforms` and `currentToken`.  The declaration
`vec3 rootPosition;` gives the zero vector. -/
def rootLoop (lib : Lib α) (tokens : List String) (jointChannelsOrderings : ChannelOrderings) :
    List (SkeletonJoint α) → List (Vec3 α) × JointTransforms α × Nat →
      Outcome (List (Vec3 α) × JointTransforms α × Nat)
  | [], state => pure state
  | root :: rest, (rootPositions, jointTransforms, currentToken) => do
    let rootPosition : Vec3 α := ⟨0, 0, 0⟩
    let rootPosition ← readRootComponent lib tokens jointChannelsOrderings root.GetName
      currentToken 0 rootPosition
    let rootPosition ← readRootComponent lib tokens jointChannelsOrderings root.GetName
      currentToken 1 rootPosition
    let rootPosition ← readRootComponent lib tokens jointChannelsOrderings root.GetName
      currentToken 2 rootPosition
    let (jointTransforms, currentToken) ← ReadFrameRecursive lib tokens jointChannelsOrderings
      root true (jointTransforms, currentToken + 3)
    rootLoop lib tokens jointChannelsOrderings rest
      (rootPositions ++ [rootPosition], jointTransforms, currentToken)

/-- The loop `for (int frame = 0; frame < frameCount; frame++)` of `BVHImport`,
with the number of iterations still to run; the state is `rootTrajectories`,
`jointTransforms` and `currentToken`. -/
def frameLoop (lib : Lib α) (tokens : List String) (jointChannelsOrderings : ChannelOrderings)
    (skeletalRoots : List (SkeletonJoint α)) :
    Nat → List (List (Vec3 α)) × JointTransforms α × Nat →
      Outcome (List (List (Vec3 α)) × JointTransforms α × Nat)
  | 0, state => pure state
  | frames + 1, (rootTrajectories, jointTransforms, currentToken) => do
    let (rootPositions, jointTransforms, currentToken) ←
      rootLoop lib tokens jointChannelsOrderings skeletalRoots ([], jointTransforms, currentToken)
    frameLoop lib tokens jointChannelsOrderings skeletalRoots frames
      (rootTrajectories ++ [rootPositions], jointTransforms, currentToken)

/-- Function `SkeletalMotion::BVHImport`, from the test `if (!tokens.size())` on:
`tokens` is the vector the tokenizer filled from the file.  The result `none`
is the `NULL` of `INVALID_BVH`. -/
def BVHImport (lib : Lib α) (fuel : Nat) (bvhFilePath : String) (tokens : List String) :
    Outcome (Option (SkeletalMotion α)) :=
  if tokens.length = 0 then pure none else do
  let h ← hierarchyLoop lib tokens fuel 0 [] UMap.empty
  match h with
  | none => pure none
  | some (currentToken, skeletalRoots, jointChannelsOrderings) =>
    let t1 ← tokenAt tokens (currentToken + 1)
    if t1 ≠ "Frames:" then pure none else
    let t3 ← tokenAt tokens (currentToken + 3)
    let t4 ← tokenAt tokens (currentToken + 4)
    if t3 ≠ "Frame" ∨ t4 ≠ "Time:" then pure none else
    let t2 ← tokenAt tokens (currentToken + 2)
    let frameCount : Int := lib.atoi t2
    let t5 ← tokenAt tokens (currentToken + 5)
    let frameTime : α := lib.atof t5
    let (rootTrajectories, jointTransforms, currentToken) ←
      frameLoop lib tokens jointChannelsOrderings skeletalRoots frameCount.toNat
        ([], UMap.empty, currentToken + 6)
    if currentToken ≠ tokens.length then pure none else
    let samplingRate ← fdiv 1 frameTime
    pure (some (SkeletalMotion.new bvhFilePath rootTrajectories jointTransforms skeletalRoots
      samplingRate frameCount))

/-! ## Pose queries (animation.cpp) -/

/-- The four optional outputs of `QuerySkeletalAnimation`; `none` is a null
pointer, `some c` a pointer to a container whose contents are `c`. -/
structure QueryOutputs (α : Type) where
  jointPositions : Option (List (Vec3 α))
  jointPositionsByName : Option (UMap (Vec3 α))
  segmentPositions : Option (List (Vec3 α × Vec3 α))
  cumulativeTransformsByName : Option (UMap (Transform α))

/-- The world position `cumulativeTransform * vec4(p[0], p[1], p[2], 1) * skeletonScale`
converted to `vec3`. -/
def worldPosition (cumulativeTransform : Transform α) (p : Vec3 α) (skeletonScale : α) : Vec3 α :=
  ((cumulativeTransform.mulVec4 ⟨p.x, p.y, p.z, 1⟩).scale skeletonScale).xyz

mutual
/-- Function `QuerySkeletalAnimationRecursive`.  The read
`jointTransforms[name][frameIndex]` is out of range when the vector stored
under the name has no element `frameIndex`. -/
def QuerySkeletalAnimationRecursive (jointTransforms : JointTransforms α) (skeletonScale : α)
    (frameIndex : Nat) :
    SkeletonJoint α → Transform α → QueryOutputs α → Outcome (QueryOutputs α)
  | .mk name children localOffset, cumulativeTransform, out => do
    let jointPositionL := localOffset
    let jointPositionW := worldPosition cumulativeTransform jointPositionL skeletonScale
    let out : QueryOutputs α :=
      { out with
        cumulativeTransformsByName := out.cumulativeTransformsByName.map
          (fun m => m.emplaceIfAbsent name cumulativeTransform) }
    let out : QueryOutputs α :=
      { out with
        jointPositions := out.jointPositions.map (fun l => l ++ [jointPositionW]) }
    let out : QueryOutputs α :=
      { out with
        jointPositionsByName := out.jointPositionsByName.map
          (fun m => m.emplaceIfAbsent name jointPositionW) }
    let nextCumulativeTransform ←
      if children.length = 0 then pure Transform.identity
      else do
        let localTransform ← Outcome.ofOption (jointTransforms.getVector name)[frameIndex]?
        pure (cumulativeTransform.mul localTransform)
    QuerySkeletalAnimationChildren jointTransforms skeletonScale frameIndex children
      nextCumulativeTransform out
/-- The loop `for (auto child : joint->GetDirectChildren())` of
`QuerySkeletalAnimationRecursive`. -/
def QuerySkeletalAnimationChildren (jointTransforms : JointTransforms α) (skeletonScale : α)
    (frameIndex : Nat) :
    List (SkeletonJoint α) → Transform α → QueryOutputs α → Outcome (QueryOutputs α)
  | [], _, out => pure out
  | child :: rest, nextCumulativeTransform, out => do
    let childPositionL := child.GetLocalOffset
    let childPositionW := worldPosition nextCumulativeTransform childPositionL skeletonScale
    let out : QueryOutputs α :=
      { out with
        segmentPositions := out.segmentPositions.map
          (fun l => l ++ [(nextCumulativeTransform.GetOrigin.scale skeletonScale, childPositionW)]) }
    let out ← QuerySkeletalAnimationRecursive jointTransforms skeletonScale frameIndex child
      nextCumulativeTransform out
    QuerySkeletalAnimationChildren jointTransforms skeletonScale frameIndex rest
      nextCumulativeTransform out
end

namespace SkeletalMotion

/-- Member `QuerySkeletalAnimation`; indices are natural numbers, a negative
`int` index being out of range anyway. -/
def QuerySkeletalAnimation (self : SkeletalMotion α) (frameIndex skeletonIndex : Nat)
    (addRootOffset : Bool) (out : QueryOutputs α) : Outcome (QueryOutputs α) :=
  if out.jointPositions.isNone ∧ out.jointPositionsByName.isNone ∧
      out.segmentPositions.isNone ∧ out.cumulativeTransformsByName.isNone then pure out
  else do
    let root ← Outcome.ofOption self.m_skeletonRoots[skeletonIndex]?
    let rootTransform : Transform α := Transform.identity
    let rootTransform ←
      if addRootOffset then do
        let trajectory ← Outcome.ofOption self.m_rootTrajectories[frameIndex]?
        let origin ← Outcome.ofOption trajectory[skeletonIndex]?
        pure (rootTransform.SetOrigin origin)
      else pure rootTransform
    QuerySkeletalAnimationRecursive self.m_jointTransforms self.m_skeletonScale frameIndex
      root rootTransform out

/-- The loop of `SetNormalizedScaleWithMultiplier` over `jointPositions`, with the
`float` variable `maxLength` as its state: `position.length()` is the member
`length()` of the `vec3`, converted to `float` for the comparison and for the
assignment. -/
def maxLengthLoop : List (Vec3 α) → α → α
  | [], maxLength => maxLength
  | position :: rest, maxLength =>
    maxLengthLoop rest
      (if maxLength < (position.length : α) then (position.length : α) else maxLength)

/-- Member `SetNormalizedScaleWithMultiplier`. -/
def SetNormalizedScaleWithMultiplier (self : SkeletalMotion α) (scaleCoeff : α) :
    Outcome (SkeletalMotion α) := do
  let out ← self.QuerySkeletalAnimation 0 0 false
    { jointPositions := some [], jointPositionsByName := none,
      segmentPositions := none, cumulativeTransformsByName := none }
  let jointPositions := out.jointPositions.getD []
  let maxLength := maxLengthLoop jointPositions 0
  let scale ← fdiv scaleCoeff maxLength
  pure { self with m_skeletonScale := scale }

/-- Member `SetNormalizedScale`. -/
def SetNormalizedScale (self : SkeletalMotion α) : Outcome (SkeletalMotion α) :=
  SetNormalizedScaleWithMultiplier self 1

/-- Member `SetScale`. -/
def SetScale (self : SkeletalMotion α) (scale : α) : SkeletalMotion α :=
  { self with m_skeletonScale := scale }

/-- Member `GetLocalTransformByName`. -/
def GetLocalTransformByName (self : SkeletalMotion α) (name : String) (frameIndex : Nat) :
    Outcome (Transform α) :=
  Outcome.ofOption (self.m_jointTransforms.getVector name)[frameIndex]?

/-- Member `GetRoot`. -/
def GetRoot (self : SkeletalMotion α) (index : Nat) : Outcome (SkeletonJoint α) :=
  Outcome.ofOption self.m_skeletonRoots[index]?

end SkeletalMotion

end Importer

/-! ## Quantities the statements below are about -/

section Counting

variable {α : Type}

mutual
/-- The number of joints of a tree that have at least one child. -/
def SkeletonJoint.animatedCount : SkeletonJoint α → Nat
  | .mk _ children _ =>
    (if children.length = 0 then 0 else 1) + SkeletonJoint.animatedCountList children
/-- The number of joints with at least one child in a list of trees. -/
def SkeletonJoint.animatedCountList : List (SkeletonJoint α) → Nat
  | [] => 0
  | child :: rest => child.animatedCount + SkeletonJoint.animatedCountList rest
end

mutual
/-- The number of joints of a tree that are named `key` and have at least one child. -/
def SkeletonJoint.animatedNamed (key : String) : SkeletonJoint α → Nat
  | .mk name children _ =>
    (if children.length ≠ 0 ∧ name = key then 1 else 0) +
      SkeletonJoint.animatedNamedList key children
/-- The number of joints named `key` with at least one child in a list of trees. -/
def SkeletonJoint.animatedNamedList (key : String) : List (SkeletonJoint α) → Nat
  | [] => 0
  | child :: rest => child.animatedNamed key + SkeletonJoint.animatedNamedList key rest
end

/-- The number of tokens one frame takes: for every root three position values
and three rotation values for each joint of its tree with at least one child. -/
def frameTokens : List (SkeletonJoint α) → Nat
  | [] => 0
  | root :: rest => (3 + 3 * root.animatedCount) + frameTokens rest

/-- No name of the table is bound to an empty vector. -/
def NoEmptyEntry (jt : JointTransforms α) : Prop := ∀ key, jt.find key ≠ some []

/-- Every value the first run returns is returned by the second run as well. -/
def Outcome.Extends {β : Type} (x y : Outcome β) : Prop := ∀ v, x = .ok v → y = .ok v

/-- The second run agrees with the first one unless the first one ran out of fuel. -/
def Outcome.Settles {β : Type} (x y : Outcome β) : Prop := x ≠ .timeout → y = x

/-- The run ends with a value or with an out-of-range read. -/
def Outcome.ReadsOnly {β : Type} (x : Outcome β) : Prop := x = .outOfRange ∨ ∃ v, x = .ok v

end Counting

/-! ## Relations between runs of the parser -/

/-- The positions the first loop of `BVHImport` comes to: position 0, the position
after a token that is neither `MOTION` nor `ROOT` (at position 0 it has to be
`HIERARCHY`), and the position after the closing brace of a root that
`ParseJoint` parsed. -/
inductive LoopReaches {α : Type} (lib : Lib α) (tokens : List String) : Nat → Prop where
  | start : LoopReaches lib tokens 0
  | skip (cur : Nat) (t : String) : LoopReaches lib tokens cur → tokens[cur]? = some t →
      t ≠ "MOTION" → ¬ (cur = 0 ∧ t ≠ "HIERARCHY") → t ≠ "ROOT" →
      LoopReaches lib tokens (cur + 1)
  | root (cur fuel : Nat) (ord ord' : ChannelOrderings) (joint : SkeletonJoint α)
      (endToken : Nat) : LoopReaches lib tokens cur → tokens[cur]? = some "ROOT" → cur ≠ 0 →
      ParseJoint lib tokens fuel cur ord = .ok (some (joint, endToken), ord') →
      LoopReaches lib tokens (endToken + 1)

/-- The second run returns the same pointer and end token as the first one,
whatever the two channel tables are. -/
def Outcome.SameParse {α : Type} (x y : Outcome (ParseResult α)) : Prop :=
  ∀ r o, x = .ok (r, o) → ∃ o', y = .ok (r, o')

/-! ## The joint positions as the specification gives them -/

section FKSpec
variable {α : Type}

mutual
/-- The joints of a tree in pre-order, each paired with its ancestors from the
root down; `ancestors` are the ancestors of the root of the tree. -/
def SkeletonJoint.preorderWithAncestors :
    List (SkeletonJoint α) → SkeletonJoint α → List (List (SkeletonJoint α) × SkeletonJoint α)
  | ancestors, .mk name children offset =>
    (ancestors, .mk name children offset) ::
      SkeletonJoint.preorderWithAncestorsList (ancestors ++ [.mk name children offset]) children
/-- The joints of a list of sibling trees in pre-order, with their ancestors. -/
def SkeletonJoint.preorderWithAncestorsList :
    List (SkeletonJoint α) → List (SkeletonJoint α) →
      List (List (SkeletonJoint α) × SkeletonJoint α)
  | _, [] => []
  | ancestors, child :: rest =>
    SkeletonJoint.preorderWithAncestors ancestors child ++
      SkeletonJoint.preorderWithAncestorsList ancestors rest
end

variable [LinearOrderedField α]

/-- Product of a scalar and a vector, the scalar on the left. -/
def Vec3.smul (s : α) (v : Vec3 α) : Vec3 α := ⟨s * v.x, s * v.y, s * v.z⟩

/-- The local transform `L(a) = jointTransforms[name(a)][f]` of a joint, when the
table has it. -/
def localTransformAt (jointTransforms : JointTransforms α) (f : Nat) (a : SkeletonJoint α) :
    Option (Transform α) :=
  (jointTransforms.getVector a.GetName)[f]?

/-- The product `T * L(a1) * ... * L(an)` along a chain of joints. -/
def chainTransform (jointTransforms : JointTransforms α) (f : Nat) :
    Transform α → List (SkeletonJoint α) → Option (Transform α)
  | T, [] => some T
  | T, a :: rest =>
    match localTransformAt jointTransforms f a with
    | some L => chainTransform jointTransforms f (T.mul L) rest
    | none => none

/-- The position the specification gives a joint `j` with ancestors `a1..an`:
`skeletonScale * (T0 * L(a1) * ... * L(an)).TransformPoint(offset(j))`. -/
def claimedPosition (jointTransforms : JointTransforms α) (f : Nat) (skeletonScale : α)
    (T0 : Transform α) (entry : List (SkeletonJoint α) × SkeletonJoint α) : Option (Vec3 α) :=
  (chainTransform jointTransforms f T0 entry.1).map
    (fun T => Vec3.smul skeletonScale (T.TransformPoint entry.2.GetLocalOffset))

/-- The transform the traversal starts with: the identity, translated by
`rootTrajectories[f][k]` when `addRootOffset` is set. -/
def initialTransform (rootTrajectories : List (List (Vec3 α))) (f k : Nat)
    (addRootOffset : Bool) : Option (Transform α) :=
  if addRootOffset then
    match rootTrajectories[f]? with
    | some trajectory => (trajectory[k]?).map (fun origin => Transform.ofRotationOrigin Mat3.one origin)
    | none => none
  else some Transform.identity

end FKSpec

/-! ## A library instance over the rationals, for running the importer on
concrete token streams -/

/-- The value of the longest prefix of decimal digits, after `acc`. -/
def digitsValue : List Char → Nat → Nat
  | [], acc => acc
  | c :: cs, acc => if c.isDigit then digitsValue cs (acc * 10 + (c.toNat - 48)) else acc

/-- What `atoi` returns on a token: an optional sign followed by decimal digits. -/
def decimalInt (s : String) : Int :=
  match s.data with
  | '-' :: cs => -(digitsValue cs 0 : Int)
  | '+' :: cs => (digitsValue cs 0 : Int)
  | cs => (digitsValue cs 0 : Int)

/-- A library over `ℚ`: `atoi` and `atof` read a signed decimal integer (the
streams below hold no other numbers); `cos` and `sin` are exact at the angle 0,
the only angle of the streams it is used with. -/
def rationalLib : Lib ℚ :=
  { atof := fun s => (decimalInt s : ℚ)
    atoi := decimalInt
    cos := fun _ => 1
    sin := fun _ => 0
    pi := 355 / 113 }

/-! ## Token streams used as concrete inputs -/

/-- A hierarchy with one root that has no child, and a header declaring `-1` frames. -/
def streamNegativeFrames : List String :=
  ["HIERARCHY", "ROOT", "Hips", "\x7b", "OFFSET", "0", "0", "0",
   "CHANNELS", "6", "Xposition", "Yposition", "Zposition", "Zrotation", "Xrotation", "Yrotation",
   "\x7d", "MOTION", "Frames:", "-1", "Frame", "Time:", "1"]

/-- A root with two children that are both named `Leg` and both have an `End Site`;
one frame. -/
def streamDuplicateNames : List String :=
  ["HIERARCHY", "ROOT", "Hips", "\x7b", "OFFSET", "0", "0", "0",
   "CHANNELS", "6", "Xposition", "Yposition", "Zposition", "Zrotation", "Xrotation", "Yrotation",
   "JOINT", "Leg", "\x7b", "OFFSET", "1", "0", "0", "CHANNELS", "3", "Zrotation", "Xrotation", "Yrotation",
   "End", "Site", "\x7b", "OFFSET", "0", "1", "0", "\x7d", "\x7d",
   "JOINT", "Leg", "\x7b", "OFFSET", "-1", "0", "0", "CHANNELS", "3", "Zrotation", "Xrotation", "Yrotation",
   "End", "Site", "\x7b", "OFFSET", "0", "1", "0", "\x7d", "\x7d",
   "\x7d", "MOTION", "Frames:", "1", "Frame", "Time:", "1",
   "0", "0", "0", "0", "0", "0", "0", "0", "0", "0", "0", "0"]

/-- The hierarchy block of a root `Hips` whose only child is an `End Site`. -/
def hierarchyHipsEndSite : List String :=
  ["HIERARCHY", "ROOT", "Hips", "\x7b", "OFFSET", "0", "0", "0",
   "CHANNELS", "6", "Xposition", "Yposition", "Zposition", "Zrotation", "Xrotation", "Yrotation",
   "End", "Site", "\x7b", "OFFSET", "0", "10", "0", "\x7d", "\x7d"]

/-- A well-formed stream: the hierarchy above and two frames of six values. -/
def streamTwoFrames : List String :=
  hierarchyHipsEndSite ++ ["MOTION", "Frames:", "2", "Frame", "Time:", "1",
    "1", "2", "3", "0", "0", "0",
    "4", "5", "6", "0", "0", "0"]

/-- The stream above with a header that declares three frames. -/
def streamTruncated : List String :=
  hierarchyHipsEndSite ++ ["MOTION", "Frames:", "3", "Frame", "Time:", "1",
    "1", "2", "3", "0", "0", "0",
    "4", "5", "6", "0", "0", "0"]

/-- A hierarchy that ends before the closing brace of its root. -/
def streamMissingBrace : List String :=
  ["HIERARCHY", "ROOT", "Hips", "\x7b", "OFFSET", "0", "0", "0",
   "CHANNELS", "6", "Xposition", "Yposition", "Zposition", "Zrotation", "Xrotation", "Yrotation",
   "End", "Site", "\x7b", "OFFSET", "0", "10", "0", "\x7d"]

/-- A root whose name is followed by the closing brace. -/
def streamRootWithoutBody : List String :=
  ["HIERARCHY", "ROOT", "Hips", "\x7d", "MOTION", "Frames:", "0", "Frame", "Time:", "1"]

/-- A root that declares `CHANNELS 4`. -/
def streamRootFourChannels : List String :=
  ["HIERARCHY", "ROOT", "Hips", "\x7b", "OFFSET", "0", "0", "0",
   "CHANNELS", "4", "Xposition", "Yposition", "Zposition", "Zrotation",
   "\x7d", "MOTION", "Frames:", "0", "Frame", "Time:", "1"]

/-- A well-formed root with a child joint that declares `CHANNELS 4`. -/
def streamJointFourChannels : List String :=
  ["HIERARCHY", "ROOT", "Hips", "\x7b", "OFFSET", "0", "0", "0",
   "CHANNELS", "6", "Xposition", "Yposition", "Zposition", "Zrotation", "Xrotation", "Yrotation",
   "JOINT", "Leg", "\x7b", "OFFSET", "1", "0", "0",
   "CHANNELS", "4", "Xposition", "Zrotation", "Xrotation", "Yrotation",
   "End", "Site", "\x7b", "OFFSET", "0", "1", "0", "\x7d", "\x7d",
   "\x7d", "MOTION", "Frames:", "0", "Frame", "Time:", "1"]

/-! ## Models used as concrete inputs -/

/-- A model with one skeleton: a root `Hips` at the origin with one leaf child at
local offset `(0, 10, 0)`, one frame, and a quarter turn as the local transform
of `Hips`; scale 1. -/
def modelHipsLeaf : SkeletalMotion ℚ :=
  { m_name := "a.bvh"
    m_rootTrajectories := [[⟨5, 0, 0⟩]]
    m_jointTransforms := (UMap.empty : JointTransforms ℚ).insert "Hips"
      [Transform.ofRotationOrigin (Mat3.ofScalars 0 1 0 (-1) 0 0 0 0 1) ⟨0, 0, 0⟩]
    m_skeletonRoots := [.mk "Hips" [.mk "Hips_end" [] ⟨0, 10, 0⟩] ⟨0, 0, 0⟩]
    m_samplingRate := 1
    m_frameCount := 1
    m_skeletonScale := 1 }

/-- A model with a single joint at the given local offset and no frame data,
with the given scale in force. -/
def modelSingleJoint (scale : ℚ) (offset : Vec3 ℚ) : SkeletalMotion ℚ :=
  { m_name := "a.bvh"
    m_rootTrajectories := []
    m_jointTransforms := UMap.empty
    m_skeletonRoots := [.mk "Hips" [] offset]
    m_samplingRate := 1
    m_frameCount := 0
    m_skeletonScale := scale }

/-! ## Further quantities: name-keyed maps, scaled outputs, edges of a tree -/

section LaterQuantities

variable {α : Type}

/-- The first joint named `key` in a pre-order enumeration, with its ancestors. -/
def firstNamed (key : String) (entries : List (List (SkeletonJoint α) × SkeletonJoint α)) :
    Option (List (SkeletonJoint α) × SkeletonJoint α) :=
  entries.find? (fun entry => decide (entry.2.GetName = key))

mutual
/-- The number of joints of a tree. -/
def SkeletonJoint.nodeCount : SkeletonJoint α → Nat
  | .mk _ children _ => 1 + SkeletonJoint.nodeCountList children
/-- The number of joints of a list of trees. -/
def SkeletonJoint.nodeCountList : List (SkeletonJoint α) → Nat
  | [] => 0
  | child :: rest => child.nodeCount + SkeletonJoint.nodeCountList rest
end

mutual
/-- The number of joints of a tree that have no child. -/
def SkeletonJoint.leafCount : SkeletonJoint α → Nat
  | .mk _ children _ =>
    (if children.length = 0 then 1 else 0) + SkeletonJoint.leafCountList children
/-- The number of joints without a child in a list of trees. -/
def SkeletonJoint.leafCountList : List (SkeletonJoint α) → Nat
  | [] => 0
  | child :: rest => child.leafCount + SkeletonJoint.leafCountList rest
end

/-- The total number of entries of the edge lists that `QuerySkeleton` fills when it
is called on every root with an empty list. -/
def boneCount : List (SkeletonJoint α) → Nat
  | [] => 0
  | root :: rest =>
    ((root.QuerySkeleton { jointPointersByNames := none, bonesByJointNames := some [] }
      ).bonesByJointNames.getD []).length + boneCount rest

mutual
/-- The parent-child edges of a tree whose root is joint number `i` of a pre-order
enumeration, each as the pair of the pre-order numbers of the parent and of the
child, in the order in which a pre-order traversal comes to the child. -/
def SkeletonJoint.edgeIndices : Nat → SkeletonJoint α → List (Nat × Nat)
  | i, .mk _ children _ => SkeletonJoint.edgeIndicesList i (i + 1) children
/-- The edges from joint number `parent` to the roots of a list of trees, the first
of which is joint number `i`, each followed by the edges inside the tree. -/
def SkeletonJoint.edgeIndicesList : Nat → Nat → List (SkeletonJoint α) → List (Nat × Nat)
  | _, _, [] => []
  | parent, i, child :: rest =>
    (parent, i) :: child.edgeIndices i ++
      SkeletonJoint.edgeIndicesList parent (i + child.nodeCount) rest
end

mutual
/-- The local offsets of the joints of a tree that are named `key` and have at least
one child. -/
def SkeletonJoint.animatedOffsets (key : String) : SkeletonJoint α → List (Vec3 α)
  | .mk name children offset =>
    (if children.length ≠ 0 ∧ name = key then [offset] else []) ++
      SkeletonJoint.animatedOffsetsList key children
/-- The local offsets of the joints named `key` with at least one child in a list of trees. -/
def SkeletonJoint.animatedOffsetsList (key : String) : List (SkeletonJoint α) → List (Vec3 α)
  | [] => []
  | child :: rest => child.animatedOffsets key ++ SkeletonJoint.animatedOffsetsList key rest
end

/-- A pair of the segment list holds the positions that the position list has at
the two pre-order numbers of an edge. -/
def SegmentAt (positions : List (Vec3 α)) (edge : Nat × Nat) (segment : Vec3 α × Vec3 α) : Prop :=
  positions[edge.1]? = some segment.1 ∧ positions[edge.2]? = some segment.2

variable [LinearOrderedField α]

/-- The invariant of class `Transform`: the fourth row of the matrix is `(0, 0, 0, 1)`.
Every constructor and member of the class yields such a matrix. -/
def Transform.IsAffine (t : Transform α) : Prop :=
  t.m_transformMatrix.c0.w = 0 ∧ t.m_transformMatrix.c1.w = 0 ∧
    t.m_transformMatrix.c2.w = 0 ∧ t.m_transformMatrix.c3.w = 1

instance (t : Transform α) : Decidable t.IsAffine := by
  unfold Transform.IsAffine
  infer_instance

/-- Read access `v[i]` to a component of a `vec3`. -/
def Vec3.component (v : Vec3 α) (i : Int) : Option α :=
  if i = 0 then some v.x else if i = 1 then some v.y else if i = 2 then some v.z else none

/-- The outputs of a query with every position multiplied by `s`; the cumulative
transforms are left as they are. -/
def QueryOutputs.scaled (s : α) (out : QueryOutputs α) : QueryOutputs α :=
  { jointPositions := out.jointPositions.map (fun l => l.map (Vec3.smul s))
    jointPositionsByName := out.jointPositionsByName.map
      (fun m => (fun key => (m key).map (Vec3.smul s) : UMap (Vec3 α)))
    segmentPositions := out.segmentPositions.map
      (fun l => l.map (fun segment => (Vec3.smul s segment.1, Vec3.smul s segment.2)))
    cumulativeTransformsByName := out.cumulativeTransformsByName }

/-- The outputs a caller passes in: each container that is asked for is empty. -/
def QueryOutputs.requested (positions byName segments transforms : Bool) : QueryOutputs α :=
  { jointPositions := if positions then some [] else none
    jointPositionsByName := if byName then some UMap.empty else none
    segmentPositions := if segments then some [] else none
    cumulativeTransformsByName := if transforms then some UMap.empty else none }

/-- The transform stored at frame `f` for every joint of the tree that has a child
has the local offset of the joint as its fourth column. -/
def StoresOffsets (jt : JointTransforms α) (f : Nat) (joint : SkeletonJoint α) : Prop :=
  ∀ key, ∀ o ∈ joint.animatedOffsets key,
    ∃ L, (jt.getVector key)[f]? = some L ∧ L.m_transformMatrix.c3 = ⟨o.x, o.y, o.z, 1⟩

/-- Every stored transform has as its fourth column a local offset `o` with `Q key o`,
`key` being the name it is stored under. -/
def OriginsFrom (Q : String → Vec3 α → Prop) (jt : JointTransforms α) : Prop :=
  ∀ key, ∀ T ∈ jt.getVector key, ∃ o, Q key o ∧ T.m_transformMatrix.c3 = ⟨o.x, o.y, o.z, 1⟩

end LaterQuantities

/-! ## The hierarchy block as the parser reads it

The grammar of the specification,
`Joint := Keyword Name { OFFSET fx fy fz CHANNELS n Channel{n} Body* }`,
`Body := Joint | EndSite`, `EndSite := End Site { OFFSET fx fy fz }`,
with what `ParseJoint` and the first loop of `BVHImport` add to it: a token of a body
that starts neither a `JOINT` nor an `End Site` and is not the closing brace is passed
over, and so is a token between two roots.  The relations record the joints that are
built, the `(name, axes)` entry of every `ROOT` or `JOINT` header in the order of the
headers, and the number of `End Site` blocks. -/

section Reading

variable {α : Type}

/-- The table after the entries of a list of headers were stored in it, in order. -/
def applyEntries (ord : ChannelOrderings) (entries : List (String × List Int)) : ChannelOrderings :=
  entries.foldl (fun o entry => o.insert entry.1 entry.2) ord

/-- The header of a joint whose keyword is at index `s`, with a channel count of 3 or 6:
the name, the local offset, the axis indices of the declared channels, and the
index `body` of the first token after the channels. -/
def ReadsHeader (lib : Lib α) (tokens : List String) (s : Nat) (name : String)
    (offset : Vec3 α) (axes : List Int) (body : Nat) : Prop :=
  tokens[s + 2]? = some "\x7b" ∧ tokens[s + 3]? = some "OFFSET" ∧ tokens[s + 1]? = some name ∧
  readOffset lib tokens s = .ok offset ∧ tokens[s + 7]? = some "CHANNELS" ∧
  ((∃ c0 c1 c2, tokens[s + 8]? = some "3" ∧ tokens[s + 9]? = some c0 ∧
      tokens[s + 10]? = some c1 ∧ tokens[s + 11]? = some c2 ∧
      axes = [ChannelOrderToInt c0, ChannelOrderToInt c1, ChannelOrderToInt c2] ∧
      body = s + 12) ∨
   (∃ c0 c1 c2 c3 c4 c5, tokens[s + 8]? = some "6" ∧ tokens[s + 9]? = some c0 ∧
      tokens[s + 10]? = some c1 ∧ tokens[s + 11]? = some c2 ∧ tokens[s + 12]? = some c3 ∧
      tokens[s + 13]? = some c4 ∧ tokens[s + 14]? = some c5 ∧
      axes = [ChannelOrderToInt c0, ChannelOrderToInt c1, ChannelOrderToInt c2,
        ChannelOrderToInt c3, ChannelOrderToInt c4, ChannelOrderToInt c5] ∧
      body = s + 15))

/-- The body of the joint `name` whose keyword is at index `start`, read from index
`cur` up to its closing brace at index `e`: the child joints it yields, the entries
of the `JOINT` headers in it, and the number of `End Site` blocks in it.  The child
for an `End Site` is named `name ++ "_end"`, has no children, and has the offset read
at `start`, the keyword of the enclosing joint. -/
inductive ReadsBody (lib : Lib α) (tokens : List String) :
    Nat → String → Nat → Nat → List (SkeletonJoint α) → List (String × List Int) → Nat → Prop where
  | close (start : Nat) (name : String) (cur : Nat) :
      tokens[cur]? = some "\x7d" → ReadsBody lib tokens start name cur cur [] [] 0
  | joint (start : Nat) (name : String) (cur : Nat) (childName : String) (childOffset : Vec3 α)
      (childAxes : List Int) (body childEnd : Nat) (grandChildren : List (SkeletonJoint α))
      (childEntries : List (String × List Int)) (childSites e : Nat)
      (rest : List (SkeletonJoint α)) (entries : List (String × List Int)) (sites : Nat) :
      tokens[cur]? = some "JOINT" →
      ReadsHeader lib tokens cur childName childOffset childAxes body →
      ReadsBody lib tokens cur childName body childEnd grandChildren childEntries childSites →
      ReadsBody lib tokens start name (childEnd + 1) e rest entries sites →
      ReadsBody lib tokens start name cur e (.mk childName grandChildren childOffset :: rest)
        ((childName, childAxes) :: childEntries ++ entries) (childSites + sites)
  | endSite (start : Nat) (name : String) (cur : Nat) (offset : Vec3 α) (e : Nat)
      (rest : List (SkeletonJoint α)) (entries : List (String × List Int)) (sites : Nat) :
      tokens[cur]? = some "End" → tokens[cur + 1]? = some "Site" →
      tokens[cur + 2]? = some "\x7b" → tokens[cur + 3]? = some "OFFSET" →
      tokens[cur + 7]? = some "\x7d" →
      readOffset lib tokens start = .ok offset →
      ReadsBody lib tokens start name (cur + 8) e rest entries sites →
      ReadsBody lib tokens start name cur e (.mk (name ++ "_end") [] offset :: rest)
        entries (sites + 1)
  | skip (start : Nat) (name : String) (cur : Nat) (t : String) (e : Nat)
      (rest : List (SkeletonJoint α)) (entries : List (String × List Int)) (sites : Nat) :
      tokens[cur]? = some t → t ≠ "\x7d" → t ≠ "JOINT" →
      (t = "End" → ∃ t1, tokens[cur + 1]? = some t1 ∧ t1 ≠ "Site") →
      ReadsBody lib tokens start name (cur + 1) e rest entries sites →
      ReadsBody lib tokens start name cur e rest entries sites

/-- A joint block from its keyword at index `s` to its closing brace at index `e`: the
joint it yields, the entries of the headers in it, its own first, and the number
of `End Site` blocks in it. -/
def ReadsJoint (lib : Lib α) (tokens : List String) (s e : Nat) (joint : SkeletonJoint α)
    (entries : List (String × List Int)) (sites : Nat) : Prop :=
  ∃ name offset axes body children nested,
    ReadsHeader lib tokens s name offset axes body ∧
    ReadsBody lib tokens s name body e children nested sites ∧
    joint = .mk name children offset ∧ entries = (name, axes) :: nested

/-- The hierarchy block read from index `cur` up to the `MOTION` token at index `m`:
the roots it yields, the entries of the `ROOT` and `JOINT` headers in it, and the
number of `End Site` blocks in it. -/
inductive ReadsHierarchy (lib : Lib α) (tokens : List String) :
    Nat → Nat → List (SkeletonJoint α) → List (String × List Int) → Nat → Prop where
  | motion (cur : Nat) :
      tokens[cur]? = some "MOTION" → ReadsHierarchy lib tokens cur cur [] [] 0
  | root (cur e : Nat) (joint : SkeletonJoint α) (rootEntries : List (String × List Int))
      (rootSites m : Nat) (roots : List (SkeletonJoint α)) (entries : List (String × List Int))
      (sites : Nat) :
      tokens[cur]? = some "ROOT" → cur ≠ 0 →
      ReadsJoint lib tokens cur e joint rootEntries rootSites →
      ReadsHierarchy lib tokens (e + 1) m roots entries sites →
      ReadsHierarchy lib tokens cur m (joint :: roots) (rootEntries ++ entries) (rootSites + sites)
  | skip (cur : Nat) (t : String) (m : Nat) (roots : List (SkeletonJoint α))
      (entries : List (String × List Int)) (sites : Nat) :
      tokens[cur]? = some t → t ≠ "MOTION" → t ≠ "ROOT" → (cur = 0 → t = "HIERARCHY") →
      ReadsHierarchy lib tokens (cur + 1) m roots entries sites →
      ReadsHierarchy lib tokens cur m roots entries sites

end Reading

/-! ## Further concrete inputs -/

/-- The hierarchy block of a root `Hips` at local offset `(1, 2, 3)` whose only child
is an `End Site` that gives the offset `(0, 10, 0)`. -/
def hierarchyShiftedRoot : List String :=
  ["HIERARCHY", "ROOT", "Hips", "\x7b", "OFFSET", "1", "2", "3",
   "CHANNELS", "6", "Xposition", "Yposition", "Zposition", "Zrotation", "Xrotation", "Yrotation",
   "End", "Site", "\x7b", "OFFSET", "0", "10", "0", "\x7d", "\x7d"]

/-- The block above with other values after the `OFFSET` of the `End Site`. -/
def hierarchyShiftedRootOtherSite : List String :=
  ["HIERARCHY", "ROOT", "Hips", "\x7b", "OFFSET", "1", "2", "3",
   "CHANNELS", "6", "Xposition", "Yposition", "Zposition", "Zrotation", "Xrotation", "Yrotation",
   "End", "Site", "\x7b", "OFFSET", "7", "8", "9", "\x7d", "\x7d"]

/-- A root `Hips` with six channels whose child joint is named `Hips` as well and
declares three channels in another order. -/
def streamNestedSameName : List String :=
  ["HIERARCHY", "ROOT", "Hips", "\x7b", "OFFSET", "0", "0", "0",
   "CHANNELS", "6", "Xposition", "Yposition", "Zposition", "Zrotation", "Xrotation", "Yrotation",
   "JOINT", "Hips", "\x7b", "OFFSET", "1", "0", "0",
   "CHANNELS", "3", "Yrotation", "Xrotation", "Zrotation",
   "End", "Site", "\x7b", "OFFSET", "0", "1", "0", "\x7d", "\x7d",
   "\x7d", "MOTION", "Frames:", "0", "Frame", "Time:", "1"]

/-- A skeleton in which the root and its child are both named `Hips`. -/
def skeletonRepeatedName : SkeletonJoint ℚ :=
  .mk "Hips" [.mk "Hips" [.mk "Hips_end" [] ⟨0, 1, 0⟩] ⟨0, 3, 0⟩] ⟨1, 0, 0⟩

/-- A model with the skeleton above, one frame, and one transform stored under `Hips`. -/
def modelRepeatedName : SkeletalMotion ℚ :=
  { m_name := "a.bvh"
    m_rootTrajectories := [[⟨5, 0, 0⟩]]
    m_jointTransforms := (UMap.empty : JointTransforms ℚ).insert "Hips"
      [Transform.ofRotationOrigin Mat3.one ⟨1, 0, 0⟩]
    m_skeletonRoots := [skeletonRepeatedName]
    m_samplingRate := 1
    m_frameCount := 1
    m_skeletonScale := 1 }

/-! ## Rotations, translated outputs and channel lookups

Predicates in which the later properties of the stored transforms, of the root
offset of a query and of the channel table are stated. -/

section RigidAndLookups

variable {α : Type} [LinearOrderedField α]

/-- The determinant of a `mat3`. -/
def Mat3.det (m : Mat3 α) : α :=
  m.c0.x * (m.c1.y * m.c2.z - m.c2.y * m.c1.z) - m.c1.x * (m.c0.y * m.c2.z - m.c2.y * m.c0.z) +
    m.c2.x * (m.c0.y * m.c1.z - m.c1.y * m.c0.z)

/-- An orthonormal matrix of determinant 1: its product with its transposed matrix,
on either side, is the identity. -/
def Mat3.IsRotation (m : Mat3 α) : Prop :=
  m.mul m.transpose = Mat3.one ∧ m.transpose.mul m = Mat3.one ∧ m.det = 1

/-- Every transform stored in the table satisfies `P`. -/
def StoredAll (P : Transform α → Prop) (jt : JointTransforms α) : Prop :=
  ∀ key, ∀ T ∈ jt.getVector key, P T

/-- The outputs of a query with every position moved by `d` and every cumulative
transform moved by `r`: its origin becomes the origin plus `r`, the rotation stays. -/
def QueryOutputs.translated (d r : Vec3 α) (out : QueryOutputs α) : QueryOutputs α :=
  { jointPositions := out.jointPositions.map (fun l => l.map (fun p => p.add d))
    jointPositionsByName := out.jointPositionsByName.map
      (fun m => (fun key => (m key).map (fun p => p.add d) : UMap (Vec3 α)))
    segmentPositions := out.segmentPositions.map
      (fun l => l.map (fun segment => (segment.1.add d, segment.2.add d)))
    cumulativeTransformsByName := out.cumulativeTransformsByName.map
      (fun m => (fun key => (m key).map (fun T => T.SetOrigin (T.GetOrigin.add r)) :
        UMap (Transform α))) }

/-- The lookup `jointChannelsOrderings[key][i]` is in range and yields an axis index
of `0..2`. -/
def AxisAt (ord : ChannelOrderings) (key : String) (i : Nat) : Prop :=
  ∃ a, (ord.getVector key)[i]? = some a ∧ (a = 0 ∨ a = 1 ∨ a = 2)

/-- What `ParseJoint` stores for a header: 3 or 6 values of `ChannelOrderToInt`. -/
def HeaderEntry (entry : String × List Int) : Prop :=
  (entry.2.length = 3 ∨ entry.2.length = 6) ∧
    ∀ a ∈ entry.2, a = -1 ∨ a = 0 ∨ a = 1 ∨ a = 2

end RigidAndLookups

/-- A root that declares `CHANNELS 3` and has an `End Site`; one frame of six values. -/
def streamRootThreeChannels : List String :=
  ["HIERARCHY", "ROOT", "Hips", "\x7b", "OFFSET", "0", "0", "0",
   "CHANNELS", "3", "Zrotation", "Xrotation", "Yrotation",
   "End", "Site", "\x7b", "OFFSET", "0", "10", "0", "\x7d", "\x7d",
   "MOTION", "Frames:", "1", "Frame", "Time:", "1",
   "1", "2", "3", "0", "0", "0"]

/-- The well-formed stream of two frames with `Wrotation` as the last channel of
the root. -/
def streamUnknownChannel : List String :=
  ["HIERARCHY", "ROOT", "Hips", "\x7b", "OFFSET", "0", "0", "0",
   "CHANNELS", "6", "Xposition", "Yposition", "Zposition", "Zrotation", "Xrotation", "Wrotation",
   "End", "Site", "\x7b", "OFFSET", "0", "10", "0", "\x7d", "\x7d",
   "MOTION", "Frames:", "2", "Frame", "Time:", "1",
   "1", "2", "3", "0", "0", "0",
   "4", "5", "6", "0", "0", "0"]

/-! ## Inputs with other angles, repeated names and a short header -/

/-- A library over `ℚ` for streams whose angles are 0 and 90: `atoi` and `atof` read a
signed decimal integer; `cos` and `sin` are exact at the angle 0 and take at every
other angle their values at the quarter turn, 0 and 1. -/
def quarterTurnLib : Lib ℚ :=
  { atof := fun s => (decimalInt s : ℚ)
    atoi := decimalInt
    cos := fun x => if x = 0 then 1 else 0
    sin := fun x => if x = 0 then 0 else 1
    pi := 355 / 113 }

/-- A root with two children that are both named `Leg`: the first declares its rotation
channels in the order `Zrotation Xrotation Yrotation`, the second in the order
`Xrotation Yrotation Zrotation`.  One frame, in which the first `Leg` has the values
`90 0 0` and every other value is 0. -/
def streamTwoLegsOrders : List String :=
  ["HIERARCHY", "ROOT", "Hips", "\x7b", "OFFSET", "0", "0", "0",
   "CHANNELS", "6", "Xposition", "Yposition", "Zposition", "Zrotation", "Xrotation", "Yrotation",
   "JOINT", "Leg", "\x7b", "OFFSET", "1", "0", "0",
   "CHANNELS", "3", "Zrotation", "Xrotation", "Yrotation",
   "End", "Site", "\x7b", "OFFSET", "0", "1", "0", "\x7d", "\x7d",
   "JOINT", "Leg", "\x7b", "OFFSET", "-1", "0", "0",
   "CHANNELS", "3", "Xrotation", "Yrotation", "Zrotation",
   "End", "Site", "\x7b", "OFFSET", "0", "1", "0", "\x7d", "\x7d",
   "\x7d", "MOTION", "Frames:", "1", "Frame", "Time:", "1",
   "0", "0", "0", "0", "0", "0", "90", "0", "0", "0", "0", "0"]

/-- A root `Hips` that declares its position channels in the order
`Zposition Xposition Yposition`; two frames. -/
def streamRootZXY : List String :=
  ["HIERARCHY", "ROOT", "Hips", "\x7b", "OFFSET", "0", "0", "0",
   "CHANNELS", "6", "Zposition", "Xposition", "Yposition", "Zrotation", "Xrotation", "Yrotation",
   "End", "Site", "\x7b", "OFFSET", "0", "10", "0", "\x7d", "\x7d",
   "MOTION", "Frames:", "2", "Frame", "Time:", "1",
   "7", "8", "9", "0", "0", "0",
   "4", "5", "6", "0", "0", "0"]

/-- Two roots that are both named `Hips`: the first declares its position channels in
the order `Xposition Yposition Zposition`, the second in the order
`Zposition Xposition Yposition`.  One frame, with the position values `7 8 9` of the
first root and `1 2 3` of the second. -/
def streamTwoRootsOrders : List String :=
  ["HIERARCHY", "ROOT", "Hips", "\x7b", "OFFSET", "0", "0", "0",
   "CHANNELS", "6", "Xposition", "Yposition", "Zposition", "Zrotation", "Xrotation", "Yrotation",
   "End", "Site", "\x7b", "OFFSET", "0", "10", "0", "\x7d", "\x7d",
   "ROOT", "Hips", "\x7b", "OFFSET", "5", "0", "0",
   "CHANNELS", "6", "Zposition", "Xposition", "Yposition", "Zrotation", "Xrotation", "Yrotation",
   "End", "Site", "\x7b", "OFFSET", "0", "10", "0", "\x7d", "\x7d",
   "MOTION", "Frames:", "1", "Frame", "Time:", "1",
   "7", "8", "9", "0", "0", "0",
   "1", "2", "3", "0", "0", "0"]

end CBVH

/-! # Theorems -/

namespace CBVH

/-! ## The outcome monad -/

namespace Outcome

variable {β γ : Type}

@[simp] theorem pure_eq_ok (v : β) : (pure v : Outcome β) = ok v := rfl

@[simp] theorem ok_bind (v : β) (f : β → Outcome γ) : (ok v >>= f) = f v := rfl

@[simp] theorem outOfRange_bind (f : β → Outcome γ) : (outOfRange >>= f) = outOfRange := rfl

@[simp] theorem divByZero_bind (f : β → Outcome γ) : (divByZero >>= f) = divByZero := rfl

@[simp] theorem timeout_bind (f : β → Outcome γ) : (timeout >>= f) = timeout := rfl

/-- A sequence returns a value exactly when both of its parts do. -/
theorem bind_eq_ok {x : Outcome β} {f : β → Outcome γ} {w : γ} :
    (x >>= f) = ok w ↔ ∃ v, x = ok v ∧ f v = ok w := by
  cases x <;> simp

/-- A container read returns a value exactly when the element exists. -/
theorem ofOption_eq_ok {o : Option β} {v : β} : ofOption o = ok v ↔ o = some v := by
  cases o <;> simp [ofOption]

/-- Two continuations that agree give the same outcome. -/
theorem bind_congr_fun (x : Outcome β) {f g : β → Outcome γ}
    (h : ∀ a, f a = g a) : x >>= f = x >>= g := by
  have : f = g := funext h
  rw [this]

/-- Two continuations that agree on the value of the first part give the same outcome. -/
theorem bind_congr_ok {x : Outcome β} {f g : β → Outcome γ}
    (h : ∀ a, x = .ok a → f a = g a) : x >>= f = x >>= g := by
  cases x with
  | ok a => exact h a rfl
  | outOfRange => rfl
  | divByZero => rfl
  | timeout => rfl

end Outcome

/-- A token read returns the token at the index, when there is one. -/
theorem tokenAt_eq_ok {tokens : List String} {i : Nat} {t : String} :
    tokenAt tokens i = .ok t ↔ tokens[i]? = some t := by
  simp [tokenAt, Outcome.ofOption_eq_ok]

/-- A token read that returns a value read an index below the token count. -/
theorem tokenAt_lt {tokens : List String} {i : Nat} {t : String}
    (h : tokenAt tokens i = .ok t) : i < tokens.length := by
  rw [tokenAt_eq_ok] at h
  exact (List.getElem?_eq_some_iff.mp h).1

/-! ## The tokenizer -/

/-- The loop returns the runs that a separator ends, after `tokens`; the head of
the split is completed by the run `token` under construction. -/
theorem tokenizeLoop_eq (str : List Int) (tokens : List (List Int)) (token : List Int) :
    tokenizeLoop str tokens token =
      tokens ++ (((str.splitOnP isSeparator).modifyHead (fun run => token ++ run)).dropLast.filter
        (fun run => run ≠ [])) := by
  induction str generalizing tokens token with
  | nil => simp [tokenizeLoop, List.splitOnP_nil]
  | cons c rest ih =>
    have hne : List.splitOnP isSeparator rest ≠ [] := List.splitOnP_ne_nil _ _
    rw [tokenizeLoop, List.splitOnP_cons]
    by_cases hc : isSeparator c = true
    · simp only [hc, if_true]
      rw [ih]
      obtain ⟨hd, tl, htl⟩ := List.exists_cons_of_ne_nil hne
      rw [htl]
      by_cases ht : token = []
      · simp [ht, List.dropLast]
      · have : token.length > 0 := List.length_pos.mpr ht
        simp [ht, this, List.dropLast]
    · obtain ⟨hd, tl, htl⟩ := List.exists_cons_of_ne_nil hne
      simp only [hc, Bool.false_eq_true, if_false]
      rw [ih, htl]
      simp

/-- What `tokenize` returns: the non-empty runs that are followed by a
separator.  The run after the last separator is not returned. -/
theorem tokenize_eq (tokens : List (List Int)) (str : List Int) :
    tokenize tokens str =
      tokens ++ ((str.splitOnP isSeparator).dropLast.filter (fun run => run ≠ [])) := by
  rw [tokenize, tokenizeLoop_eq]
  obtain ⟨hd, tl, htl⟩ := List.exists_cons_of_ne_nil (List.splitOnP_ne_nil isSeparator str)
  rw [htl]; simp

/-- C1: on the three characters `a`, space, `b` the tokenizer returns the run
`a` only, whereas the maximal runs are `a` and `b`: the run that reaches the end
of the string is dropped. -/
theorem tokenize_drops_unterminated_run :
    tokenize [] [97, 32, 98] = [[97]] ∧ maximalRuns [97, 32, 98] = [[97], [98]] := by
  decide

/-! ## Transform -/

section TransformTheorems

variable {α : Type} [LinearOrderedField α]

/-- The transform `GetInverse` returns for `(R, o)` is `(R transposed, -o)`. -/
theorem Transform.GetInverse_ofRotationOrigin (R : Mat3 α) (o : Vec3 α) :
    (Transform.ofRotationOrigin R o).GetInverse = Transform.ofRotationOrigin R.transpose o.neg := by
  rfl

/-- For an orthonormal rotation, the composition with the result of `GetInverse`
maps `p` to `p + o - R o`. -/
theorem Transform.mul_GetInverse_TransformPoint (R : Mat3 α) (o p : Vec3 α)
    (hR : R.mul R.transpose = Mat3.one) :
    ((Transform.ofRotationOrigin R o).mul (Transform.ofRotationOrigin R o).GetInverse).TransformPoint p
      = (p.add o).add (R.mulVec o).neg := by
  have h := hR
  simp only [Mat3.mul, Mat3.mulVec, Mat3.transpose, Mat3.one, Mat3.mk.injEq, Vec3.mk.injEq] at h
  obtain ⟨⟨h1, h2, h3⟩, ⟨h4, h5, h6⟩, ⟨h7, h8, h9⟩⟩ := h
  simp only [Transform.GetInverse, Transform.ofRotationOrigin, Transform.mul, Transform.TransformPoint,
    Transform.mulVec4, Mat4.mul, Mat4.mulVec, Vec4.ofVec3, Vec4.xyz, Vec3.add, Vec3.neg, Mat3.mulVec,
    Vec3.mk.injEq]
  refine ⟨?_, ?_, ?_⟩
  · linear_combination p.x * h1 + p.y * h4 + p.z * h7
  · linear_combination p.x * h2 + p.y * h5 + p.z * h8
  · linear_combination p.x * h3 + p.y * h6 + p.z * h9

/-- C2: for the orthonormal rotation `R` below and origin `(1, 0, 0)`, the
composition of the transform with the result of `GetInverse` maps the point
`(0, 0, 0)` to `(1, -1, 0)`, not to itself. -/
theorem GetInverse_compose_not_identity :
    let R : Mat3 ℚ := Mat3.ofScalars 0 1 0 (-1) 0 0 0 0 1
    let T : Transform ℚ := Transform.ofRotationOrigin R ⟨1, 0, 0⟩
    R.mul R.transpose = Mat3.one ∧
      (T.mul T.GetInverse).TransformPoint ⟨0, 0, 0⟩ = ⟨1, -1, 0⟩ ∧
      (T.mul T.GetInverse).TransformPoint ⟨0, 0, 0⟩ ≠ ⟨0, 0, 0⟩ := by
  intro R T
  refine ⟨?_, ?_, ?_⟩ <;>
    norm_num [R, T, Mat3.ofScalars, Mat3.mul, Mat3.mulVec, Mat3.transpose, Mat3.one,
      Transform.GetInverse, Transform.ofRotationOrigin, Transform.mul, Transform.TransformPoint,
      Transform.mulVec4, Mat4.mul, Mat4.mulVec, Vec4.ofVec3, Vec4.xyz, Vec3.neg]

end TransformTheorems

/-! ## The frame reader and the import -/

section ImportLemmas
variable {α : Type}

/-- Storing a transform lengthens the sequence of its name by one and no other. -/
theorem appendTransform_length (jt : JointTransforms α) (name key : String) (T : Transform α) :
    ((appendTransform jt name T).getVector key).length =
      (jt.getVector key).length + (if name = key then 1 else 0) := by
  unfold appendTransform UMap.getVector
  cases h : jt.find name with
  | none =>
    by_cases hk : name = key
    · subst hk; simp [UMap.find, UMap.insert] at *; simp [h]
    · have : ¬ key = name := fun e => hk e.symm
      simp [UMap.find, UMap.insert, hk, this]
  | some l =>
    by_cases hk : name = key
    · subst hk; simp [UMap.find, UMap.insert] at *; simp [h]
    · have : ¬ key = name := fun e => hk e.symm
      simp [UMap.find, UMap.insert, hk, this]

/-- Storing a transform leaves no name bound to an empty sequence. -/
theorem appendTransform_noEmpty (jt : JointTransforms α) (name : String) (T : Transform α)
    (h : NoEmptyEntry jt) : NoEmptyEntry (appendTransform jt name T) := by
  intro key
  unfold appendTransform
  cases hf : jt.find name with
  | none =>
    by_cases hk : key = name
    · simp [UMap.find, UMap.insert, hk]
    · have := h key
      simpa [UMap.find, UMap.insert, hk] using this
  | some l =>
    by_cases hk : key = name
    · simp [UMap.find, UMap.insert, hk]
    · have := h key
      simpa [UMap.find, UMap.insert, hk] using this

/-- A root position component that was read came from a token of the stream. -/
theorem readRootComponent_lt {lib : Lib α} {tokens : List String} {ord : ChannelOrderings}
    {name : String} {cur i : Nat} {v v' : Vec3 α}
    (h : readRootComponent lib tokens ord name cur i v = .ok v') : cur + i < tokens.length := by
  simp only [readRootComponent, Outcome.bind_eq_ok] at h
  obtain ⟨_, _, t, ht, _⟩ := h
  exact tokenAt_lt ht

/-- The index at which the first loop of `BVHImport` stops holds the token `MOTION`. -/
theorem hierarchyLoop_motion (lib : Lib α) (tokens : List String) :
    ∀ (fuel cur : Nat) (roots : List (SkeletonJoint α)) (ord : ChannelOrderings)
      (m : Nat) (roots' : List (SkeletonJoint α)) (ord' : ChannelOrderings),
      hierarchyLoop lib tokens fuel cur roots ord = .ok (some (m, roots', ord')) →
      tokens[m]? = some "MOTION"
  | 0, cur, roots, ord, m, roots', ord', h => by simp [hierarchyLoop] at h
  | fuel + 1, cur, roots, ord, m, roots', ord', h => by
    rw [hierarchyLoop] at h
    simp only [Outcome.bind_eq_ok] at h
    obtain ⟨t, ht, h⟩ := h
    split_ifs at h with h1 h2 h3
    · simp at h
      obtain ⟨rfl, -, -⟩ := h
      rw [tokenAt_eq_ok] at ht
      rw [ht, h1]
    · simp at h
    · simp only [Outcome.bind_eq_ok] at h
      obtain ⟨⟨r, o⟩, hr, h⟩ := h
      rcases r with _ | ⟨root, e⟩
      · exact hierarchyLoop_motion lib tokens fuel _ _ _ _ _ _ h
      · exact hierarchyLoop_motion lib tokens fuel _ _ _ _ _ _ h
    · exact hierarchyLoop_motion lib tokens fuel _ _ _ _ _ _ h

variable [LinearOrderedField α]

/-- A rotation that was read came from a token of the stream. -/
theorem readRotation_lt {lib : Lib α} {tokens : List String} {ord : ChannelOrderings}
    {name : String} {b : Bool} {cur r : Nat} {g : Mat3 α}
    (h : readRotation lib tokens ord name b cur r = .ok g) : cur + r < tokens.length := by
  simp only [readRotation, Outcome.bind_eq_ok] at h
  obtain ⟨_, _, t, ht, _⟩ := h
  exact tokenAt_lt ht

/-! What one call of `ReadFrameRecursive` does to `currentToken` and to the lengths of
the stored sequences: three tokens and one transform for every joint with at least
one child. -/

mutual
theorem ReadFrameRecursive_effect (lib : Lib α) (tokens : List String) (ord : ChannelOrderings) :
    ∀ (joint : SkeletonJoint α) (b : Bool) (jt : JointTransforms α) (cur : Nat)
      (jt' : JointTransforms α) (cur' : Nat),
      ReadFrameRecursive lib tokens ord joint b (jt, cur) = .ok (jt', cur') →
      cur' = cur + 3 * joint.animatedCount ∧
      (∀ key, (jt'.getVector key).length = (jt.getVector key).length + joint.animatedNamed key) ∧
      (NoEmptyEntry jt → NoEmptyEntry jt') ∧
      (0 < joint.animatedCount → cur' ≤ tokens.length)
  | .mk name children offset, b, jt, cur, jt', cur', h => by
    rw [ReadFrameRecursive] at h
    by_cases hc : children.length = 0
    · have hnil : children = [] := List.length_eq_zero.mp hc
      subst hnil
      simp at h
      obtain ⟨rfl, rfl⟩ := h
      simp [SkeletonJoint.animatedCount, SkeletonJoint.animatedNamed,
        SkeletonJoint.animatedCountList, SkeletonJoint.animatedNamedList]
    · simp only [hc, if_false, Outcome.bind_eq_ok] at h
      obtain ⟨g0, h0, g1, h1, g2, h2, h⟩ := h
      have hlt := readRotation_lt h2
      obtain ⟨e1, e2, e3, e4⟩ := ReadFrameChildren_effect lib tokens ord children _ _ _ _ h
      refine ⟨?_, ?_, ?_, ?_⟩
      · simp [SkeletonJoint.animatedCount, hc]; omega
      · intro key
        rw [e2 key, appendTransform_length]
        simp only [SkeletonJoint.animatedNamed]
        by_cases hk : name = key
        · simp [hk, hc]; omega
        · simp [hk]
      · intro hne
        exact e3 (appendTransform_noEmpty _ _ _ hne)
      · intro _
        have := e4
        omega
theorem ReadFrameChildren_effect (lib : Lib α) (tokens : List String) (ord : ChannelOrderings) :
    ∀ (children : List (SkeletonJoint α)) (jt : JointTransforms α) (cur : Nat)
      (jt' : JointTransforms α) (cur' : Nat),
      ReadFrameChildren lib tokens ord children (jt, cur) = .ok (jt', cur') →
      cur' = cur + 3 * SkeletonJoint.animatedCountList children ∧
      (∀ key, (jt'.getVector key).length =
        (jt.getVector key).length + SkeletonJoint.animatedNamedList key children) ∧
      (NoEmptyEntry jt → NoEmptyEntry jt') ∧
      (cur ≤ tokens.length → cur' ≤ tokens.length)
  | [], jt, cur, jt', cur', h => by
    rw [ReadFrameChildren] at h
    simp at h
    obtain ⟨rfl, rfl⟩ := h
    simp [SkeletonJoint.animatedCountList, SkeletonJoint.animatedNamedList]
  | child :: rest, jt, cur, jt', cur', h => by
    rw [ReadFrameChildren] at h
    simp only [Outcome.bind_eq_ok] at h
    obtain ⟨⟨jt1, cur1⟩, h1, h2⟩ := h
    obtain ⟨a1, a2, a3, a4⟩ := ReadFrameRecursive_effect lib tokens ord child false jt cur jt1 cur1 h1
    obtain ⟨b1, b2, b3, b4⟩ := ReadFrameChildren_effect lib tokens ord rest jt1 cur1 jt' cur' h2
    refine ⟨?_, ?_, ?_, ?_⟩
    · simp [SkeletonJoint.animatedCountList]; omega
    · intro key
      rw [b2 key, a2 key]
      simp [SkeletonJoint.animatedNamedList]; omega
    · exact fun hne => b3 (a3 hne)
    · intro hle
      apply b4
      by_cases hz : 0 < child.animatedCount
      · exact a4 hz
      · have : child.animatedCount = 0 := by omega
        rw [a1, this]; simpa using hle
end


/-- What the loop over the roots does within one frame. -/
theorem rootLoop_effect (lib : Lib α) (tokens : List String) (ord : ChannelOrderings) :
    ∀ (roots : List (SkeletonJoint α)) (rp : List (Vec3 α)) (jt : JointTransforms α) (cur : Nat)
      (rp' : List (Vec3 α)) (jt' : JointTransforms α) (cur' : Nat),
      rootLoop lib tokens ord roots (rp, jt, cur) = .ok (rp', jt', cur') →
      rp'.length = rp.length + roots.length ∧
      cur' = cur + frameTokens roots ∧
      (∀ key, (jt'.getVector key).length =
        (jt.getVector key).length + SkeletonJoint.animatedNamedList key roots) ∧
      (NoEmptyEntry jt → NoEmptyEntry jt') ∧
      (cur ≤ tokens.length → cur' ≤ tokens.length)
  | [], rp, jt, cur, rp', jt', cur', h => by
    rw [rootLoop] at h
    simp at h
    obtain ⟨rfl, rfl, rfl⟩ := h
    simp [frameTokens, SkeletonJoint.animatedNamedList]
  | root :: rest, rp, jt, cur, rp', jt', cur', h => by
    rw [rootLoop] at h
    simp only [Outcome.bind_eq_ok] at h
    obtain ⟨p0, h0, p1, h1, p2, h2, ⟨jt1, cur1⟩, hr, h⟩ := h
    dsimp only at h
    have hlt := readRootComponent_lt h2
    obtain ⟨a1, a2, a3, a4⟩ := ReadFrameRecursive_effect lib tokens ord root true jt (cur + 3) jt1 cur1 hr
    obtain ⟨b1, b2, b3, b4, b5⟩ := rootLoop_effect lib tokens ord rest _ _ _ _ _ _ h
    refine ⟨?_, ?_, ?_, ?_, ?_⟩
    · rw [b1]; simp; omega
    · rw [b2, a1]; simp [frameTokens]; omega
    · intro key
      rw [b3 key, a2 key]; simp [SkeletonJoint.animatedNamedList]; omega
    · exact fun hne => b4 (a3 hne)
    · intro _
      apply b5
      by_cases hz : 0 < root.animatedCount
      · exact a4 hz
      · have : root.animatedCount = 0 := by omega
        rw [a1, this]; omega

/-- What the loop over the frames does. -/
theorem frameLoop_effect (lib : Lib α) (tokens : List String) (ord : ChannelOrderings)
    (roots : List (SkeletonJoint α)) :
    ∀ (n : Nat) (rt : List (List (Vec3 α))) (jt : JointTransforms α) (cur : Nat)
      (rt' : List (List (Vec3 α))) (jt' : JointTransforms α) (cur' : Nat),
      frameLoop lib tokens ord roots n (rt, jt, cur) = .ok (rt', jt', cur') →
      rt'.length = rt.length + n ∧
      (∀ e ∈ rt', e ∈ rt ∨ e.length = roots.length) ∧
      cur' = cur + n * frameTokens roots ∧
      (∀ key, (jt'.getVector key).length =
        (jt.getVector key).length + n * SkeletonJoint.animatedNamedList key roots) ∧
      (NoEmptyEntry jt → NoEmptyEntry jt') ∧
      (cur ≤ tokens.length → cur' ≤ tokens.length)
  | 0, rt, jt, cur, rt', jt', cur', h => by
    rw [frameLoop] at h
    simp at h
    obtain ⟨rfl, rfl, rfl⟩ := h
    exact ⟨rfl, fun e he => Or.inl he, by simp, by simp, fun h => h, fun h => h⟩
  | n + 1, rt, jt, cur, rt', jt', cur', h => by
    rw [frameLoop] at h
    simp only [Outcome.bind_eq_ok] at h
    obtain ⟨⟨rp1, jt1, cur1⟩, h1, h⟩ := h
    dsimp only at h
    obtain ⟨a1, a2, a3, a4, a5⟩ := rootLoop_effect lib tokens ord roots _ _ _ _ _ _ h1
    obtain ⟨b1, b2, b3, b4, b5, b6⟩ := frameLoop_effect lib tokens ord roots n _ _ _ _ _ _ h
    refine ⟨?_, ?_, ?_, ?_, ?_, ?_⟩
    · rw [b1]; simp; omega
    · intro e he
      rcases b2 e he with hmem | hlen
      · rcases List.mem_append.mp hmem with hm | hm
        · exact Or.inl hm
        · right
          have : e = rp1 := by simpa using hm
          rw [this, a1]; simp
      · exact Or.inr hlen
    · rw [b3, a2, Nat.add_mul]; omega
    · intro key
      rw [b4 key, a3 key, Nat.add_mul]; omega
    · exact fun hne => b5 (a4 hne)
    · exact fun hle => b6 (a5 hle)

/-- What a successful import went through. -/
theorem BVHImport_ok {lib : Lib α} {fuel : Nat} {path : String} {tokens : List String}
    {model : SkeletalMotion α} (h : BVHImport lib fuel path tokens = .ok (some model)) :
    ∃ (m : Nat) (ord : ChannelOrderings) (t2 t5 : String) (rate : α),
      hierarchyLoop lib tokens fuel 0 [] UMap.empty = .ok (some (m, model.m_skeletonRoots, ord)) ∧
      tokens[m + 1]? = some "Frames:" ∧ tokens[m + 2]? = some t2 ∧
      tokens[m + 3]? = some "Frame" ∧ tokens[m + 4]? = some "Time:" ∧ tokens[m + 5]? = some t5 ∧
      model.m_frameCount = lib.atoi t2 ∧
      frameLoop lib tokens ord model.m_skeletonRoots (lib.atoi t2).toNat ([], UMap.empty, m + 6) =
        .ok (model.m_rootTrajectories, model.m_jointTransforms, tokens.length) ∧
      fdiv 1 (lib.atof t5) = .ok rate ∧ model.m_samplingRate = rate ∧
      model.m_skeletonScale = 1 ∧ model.m_name = path := by
  unfold BVHImport at h
  split_ifs at h with h0
  · simp at h
  simp only [Outcome.bind_eq_ok] at h
  obtain ⟨v, hv, h⟩ := h
  rcases v with _ | ⟨m, roots, ord⟩
  · simp at h
  simp only [Outcome.bind_eq_ok] at h
  obtain ⟨t1, ht1, h⟩ := h
  split_ifs at h with h1
  · simp at h
  simp only [Outcome.bind_eq_ok] at h
  obtain ⟨t3, ht3, t4, ht4, h⟩ := h
  split_ifs at h with h2
  · simp at h
  simp only [Outcome.bind_eq_ok] at h
  obtain ⟨t2, ht2, t5, ht5, ⟨rt, jt, cur⟩, hf, h⟩ := h
  dsimp only at h
  split_ifs at h with h3
  · simp at h
  simp only [Outcome.bind_eq_ok] at h
  obtain ⟨rate, hrate, h⟩ := h
  simp only [Outcome.pure_eq_ok, Outcome.ok.injEq, Option.some.injEq] at h
  subst h
  simp only [ne_eq, not_not] at h1 h3
  simp only [ne_eq, not_or, not_not] at h2
  rw [tokenAt_eq_ok] at ht1 ht2 ht3 ht4 ht5
  refine ⟨m, ord, t2, t5, rate, hv, ?_, ht2, ?_, ?_, ht5, rfl, ?_, hrate, rfl, rfl, rfl⟩
  · rw [ht1, h1]
  · rw [ht3, h2.1]
  · rw [ht4, h2.2]
  · simp only [SkeletalMotion.new]
    rw [hf, h3]

end ImportLemmas

/-! ## More fuel changes no outcome that was reached -/

namespace Outcome
variable {β γ : Type}

theorem settles_refl (x : Outcome β) : Settles x x := fun _ => rfl

theorem settles_timeout (y : Outcome β) : Settles .timeout y := fun h => absurd rfl h

theorem settles_bind {x y : Outcome β} {f g : β → Outcome γ} (hxy : Settles x y)
    (hfg : ∀ a, Settles (f a) (g a)) : Settles (x >>= f) (y >>= g) := by
  intro h
  cases x with
  | ok v =>
    rw [hxy (by simp)]
    exact hfg v h
  | outOfRange => rw [hxy (by simp)]; rfl
  | divByZero => rw [hxy (by simp)]; rfl
  | timeout => exact absurd rfl h

end Outcome

section FuelLemmas
variable {α : Type}

theorem ParseJoint_fuel_succ (lib : Lib α) (tokens : List String) (fuel : Nat) :
    (∀ start ord, Outcome.Settles (ParseJoint lib tokens fuel start ord)
      (ParseJoint lib tokens (fuel + 1) start ord)) ∧
    (∀ start name offset cur children ord,
      Outcome.Settles (ParseJointLoop lib tokens fuel start name offset cur children ord)
        (ParseJointLoop lib tokens (fuel + 1) start name offset cur children ord)) := by
  induction fuel with
  | zero =>
    constructor
    · intro start ord
      rw [ParseJoint]
      exact Outcome.settles_timeout _
    · intro start name offset cur children ord
      rw [ParseJointLoop]
      exact Outcome.settles_timeout _
  | succ fuel ih =>
    obtain ⟨ihJ, ihL⟩ := ih
    constructor
    · intro start ord
      rw [ParseJoint, ParseJoint]
      repeat' first
        | with_reducible exact ihL _ _ _ _ _ _
        | with_reducible exact Outcome.settles_refl _
        | (with_reducible refine Outcome.settles_bind (Outcome.settles_refl _) ?_; intro _)
        | split_ifs
    · intro start name offset cur children ord
      rw [ParseJointLoop, ParseJointLoop]
      repeat' first
        | with_reducible exact ihL _ _ _ _ _ _
        | with_reducible exact Outcome.settles_refl _
        | (with_reducible refine Outcome.settles_bind (ihJ _ _) ?_; rintro ⟨_ | ⟨_, _⟩, _⟩)
        | (with_reducible refine Outcome.settles_bind (Outcome.settles_refl _) ?_; intro _)
        | split_ifs

theorem hierarchyLoop_fuel_succ (lib : Lib α) (tokens : List String) :
    ∀ (fuel cur : Nat) (roots : List (SkeletonJoint α)) (ord : ChannelOrderings),
      Outcome.Settles (hierarchyLoop lib tokens fuel cur roots ord)
        (hierarchyLoop lib tokens (fuel + 1) cur roots ord)
  | 0, cur, roots, ord => by
    rw [hierarchyLoop]
    exact Outcome.settles_timeout _
  | fuel + 1, cur, roots, ord => by
    rw [hierarchyLoop, hierarchyLoop]
    repeat' first
      | with_reducible exact hierarchyLoop_fuel_succ lib tokens fuel _ _ _
      | with_reducible exact Outcome.settles_refl _
      | (with_reducible refine Outcome.settles_bind ((ParseJoint_fuel_succ lib tokens fuel).1 _ _) ?_;
         rintro ⟨_ | ⟨_, _⟩, _⟩)
      | (with_reducible refine Outcome.settles_bind (Outcome.settles_refl _) ?_; intro _)
      | split_ifs

variable [LinearOrderedField α]

theorem BVHImport_fuel_succ (lib : Lib α) (fuel : Nat) (path : String) (tokens : List String) :
    Outcome.Settles (BVHImport lib fuel path tokens) (BVHImport lib (fuel + 1) path tokens) := by
  unfold BVHImport
  split_ifs
  · exact Outcome.settles_refl _
  · refine Outcome.settles_bind (hierarchyLoop_fuel_succ lib tokens fuel _ _ _) ?_
    intro _
    with_reducible exact Outcome.settles_refl _

/-- A run of the import that did not run out of fuel has the same outcome with
any larger amount of fuel. -/
theorem BVHImport_fuel_mono (lib : Lib α) (path : String) (tokens : List String)
    (fuel extra : Nat) :
    Outcome.Settles (BVHImport lib fuel path tokens) (BVHImport lib (fuel + extra) path tokens) := by
  induction extra with
  | zero => exact Outcome.settles_refl _
  | succ extra ih =>
    intro h
    have h1 := ih h
    have h2 := BVHImport_fuel_succ lib (fuel + extra) path tokens (by rw [h1]; exact h)
    rw [← Nat.add_assoc, h2, h1]

end FuelLemmas

/-! ## Appending tokens to a stream changes no value returned -/

namespace Outcome
variable {β γ : Type}

theorem extends_refl (x : Outcome β) : Extends x x := fun _ h => h

theorem extends_bind {x y : Outcome β} {f g : β → Outcome γ} (hxy : Extends x y)
    (hfg : ∀ a, Extends (f a) (g a)) : Extends (x >>= f) (y >>= g) := by
  intro w hw
  obtain ⟨v, hv, hf⟩ := bind_eq_ok.mp hw
  exact bind_eq_ok.mpr ⟨v, hxy v hv, hfg v w hf⟩

end Outcome

section PrefixStability
variable {α : Type}

theorem tokenAt_extends (tokens extra : List String) (i : Nat) :
    Outcome.Extends (tokenAt tokens i) (tokenAt (tokens ++ extra) i) := by
  intro t ht
  have hlt := tokenAt_lt ht
  rw [tokenAt_eq_ok] at ht ⊢
  rw [List.getElem?_append_left hlt]
  exact ht

theorem readOffset_extends (lib : Lib α) (tokens extra : List String) (start : Nat) :
    Outcome.Extends (readOffset lib tokens start) (readOffset lib (tokens ++ extra) start) := by
  unfold readOffset
  repeat' first
    | with_reducible exact Outcome.extends_refl _
    | (with_reducible refine Outcome.extends_bind (tokenAt_extends _ _ _) ?_; intro _)

theorem ParseJoint_extends (lib : Lib α) (tokens extra : List String) (fuel : Nat) :
    (∀ start ord, Outcome.Extends (ParseJoint lib tokens fuel start ord)
      (ParseJoint lib (tokens ++ extra) fuel start ord)) ∧
    (∀ start name offset cur children ord,
      Outcome.Extends (ParseJointLoop lib tokens fuel start name offset cur children ord)
        (ParseJointLoop lib (tokens ++ extra) fuel start name offset cur children ord)) := by
  induction fuel with
  | zero =>
    constructor
    · intro start ord v h; simp [ParseJoint] at h
    · intro start name offset cur children ord v h; simp [ParseJointLoop] at h
  | succ fuel ih =>
    obtain ⟨ihJ, ihL⟩ := ih
    constructor
    · intro start ord
      rw [ParseJoint, ParseJoint]
      repeat' first
        | with_reducible exact Outcome.extends_refl _
        | with_reducible exact ihL _ _ _ _ _ _
        | (with_reducible refine Outcome.extends_bind (tokenAt_extends _ _ _) ?_; intro _)
        | (with_reducible refine Outcome.extends_bind (readOffset_extends _ _ _ _) ?_; intro _)
        | split_ifs
    · intro start name offset cur children ord
      rw [ParseJointLoop, ParseJointLoop]
      repeat' first
        | with_reducible exact Outcome.extends_refl _
        | with_reducible exact ihL _ _ _ _ _ _
        | (with_reducible refine Outcome.extends_bind (tokenAt_extends _ _ _) ?_; intro _)
        | (with_reducible refine Outcome.extends_bind (readOffset_extends _ _ _ _) ?_; intro _)
        | (with_reducible refine Outcome.extends_bind (ihJ _ _) ?_; rintro ⟨_ | ⟨_, _⟩, _⟩)
        | split_ifs

theorem hierarchyLoop_extends (lib : Lib α) (tokens extra : List String) :
    ∀ (fuel cur : Nat) (roots : List (SkeletonJoint α)) (ord : ChannelOrderings),
      Outcome.Extends (hierarchyLoop lib tokens fuel cur roots ord)
        (hierarchyLoop lib (tokens ++ extra) fuel cur roots ord)
  | 0, cur, roots, ord => by intro v h; simp [hierarchyLoop] at h
  | fuel + 1, cur, roots, ord => by
    rw [hierarchyLoop, hierarchyLoop]
    repeat' first
      | with_reducible exact Outcome.extends_refl _
      | with_reducible exact hierarchyLoop_extends lib tokens extra fuel _ _ _
      | (with_reducible refine Outcome.extends_bind (tokenAt_extends _ _ _) ?_; intro _)
      | (with_reducible refine Outcome.extends_bind ((ParseJoint_extends lib tokens extra fuel).1 _ _) ?_;
         rintro ⟨_ | ⟨_, _⟩, _⟩)
      | split_ifs

theorem readRootComponent_extends (lib : Lib α) (tokens extra : List String)
    (ord : ChannelOrderings) (name : String) (cur i : Nat) (v : Vec3 α) :
    Outcome.Extends (readRootComponent lib tokens ord name cur i v)
      (readRootComponent lib (tokens ++ extra) ord name cur i v) := by
  unfold readRootComponent
  repeat' first
    | with_reducible exact Outcome.extends_refl _
    | (with_reducible refine Outcome.extends_bind (tokenAt_extends _ _ _) ?_; intro _)
    | (with_reducible refine Outcome.extends_bind (Outcome.extends_refl _) ?_; intro _)

variable [LinearOrderedField α]

theorem readRotation_extends (lib : Lib α) (tokens extra : List String) (ord : ChannelOrderings)
    (name : String) (b : Bool) (cur r : Nat) :
    Outcome.Extends (readRotation lib tokens ord name b cur r)
      (readRotation lib (tokens ++ extra) ord name b cur r) := by
  unfold readRotation
  repeat' first
    | with_reducible exact Outcome.extends_refl _
    | (with_reducible refine Outcome.extends_bind (tokenAt_extends _ _ _) ?_; intro _)
    | (with_reducible refine Outcome.extends_bind (Outcome.extends_refl _) ?_; intro _)

mutual
theorem ReadFrameRecursive_extends (lib : Lib α) (tokens extra : List String)
    (ord : ChannelOrderings) :
    ∀ (joint : SkeletonJoint α) (b : Bool) (state : JointTransforms α × Nat),
      Outcome.Extends (ReadFrameRecursive lib tokens ord joint b state)
        (ReadFrameRecursive lib (tokens ++ extra) ord joint b state)
  | .mk name children offset, b, (jt, cur) => by
    rw [ReadFrameRecursive, ReadFrameRecursive]
    repeat' first
      | with_reducible exact Outcome.extends_refl _
      | exact ReadFrameChildren_extends lib tokens extra ord children _
      | (with_reducible refine Outcome.extends_bind (readRotation_extends _ _ _ _ _ _ _ _) ?_; intro _)
      | split_ifs
theorem ReadFrameChildren_extends (lib : Lib α) (tokens extra : List String)
    (ord : ChannelOrderings) :
    ∀ (children : List (SkeletonJoint α)) (state : JointTransforms α × Nat),
      Outcome.Extends (ReadFrameChildren lib tokens ord children state)
        (ReadFrameChildren lib (tokens ++ extra) ord children state)
  | [], state => by
    rw [ReadFrameChildren, ReadFrameChildren]
    exact Outcome.extends_refl _
  | child :: rest, state => by
    rw [ReadFrameChildren, ReadFrameChildren]
    refine Outcome.extends_bind (ReadFrameRecursive_extends lib tokens extra ord child false state) ?_
    intro state1
    exact ReadFrameChildren_extends lib tokens extra ord rest state1
end

theorem rootLoop_extends (lib : Lib α) (tokens extra : List String) (ord : ChannelOrderings) :
    ∀ (roots : List (SkeletonJoint α)) (state : List (Vec3 α) × JointTransforms α × Nat),
      Outcome.Extends (rootLoop lib tokens ord roots state)
        (rootLoop lib (tokens ++ extra) ord roots state)
  | [], state => by
    rw [rootLoop, rootLoop]
    exact Outcome.extends_refl _
  | root :: rest, (rp, jt, cur) => by
    rw [rootLoop, rootLoop]
    repeat' first
      | exact rootLoop_extends lib tokens extra ord rest _
      | (with_reducible refine Outcome.extends_bind (readRootComponent_extends _ _ _ _ _ _ _ _) ?_; intro _)
      | (with_reducible refine Outcome.extends_bind (ReadFrameRecursive_extends _ _ _ _ _ _ _) ?_; intro _)

theorem frameLoop_extends (lib : Lib α) (tokens extra : List String) (ord : ChannelOrderings)
    (roots : List (SkeletonJoint α)) :
    ∀ (n : Nat) (state : List (List (Vec3 α)) × JointTransforms α × Nat),
      Outcome.Extends (frameLoop lib tokens ord roots n state)
        (frameLoop lib (tokens ++ extra) ord roots n state)
  | 0, state => by
    rw [frameLoop, frameLoop]
    exact Outcome.extends_refl _
  | n + 1, (rt, jt, cur) => by
    rw [frameLoop, frameLoop]
    refine Outcome.extends_bind (rootLoop_extends _ _ _ _ _ _) ?_
    intro _
    exact frameLoop_extends lib tokens extra ord roots n _

/-- A stream on which the import succeeds, followed by further tokens, is
rejected with `NULL`. -/
theorem BVHImport_trailing_tokens {lib : Lib α} {fuel : Nat} {path : String}
    {tokens : List String} {model : SkeletalMotion α}
    (h : BVHImport lib fuel path tokens = .ok (some model)) (extra : List String)
    (hextra : extra ≠ []) :
    BVHImport lib fuel path (tokens ++ extra) = .ok none := by
  obtain ⟨m, ord, t2, t5, rate, hh, h1, h2, h3, h4, h5, -, hf, -⟩ := BVHImport_ok h
  have e := fun i t (hi : tokens[i]? = some t) =>
    tokenAt_extends tokens extra i t (tokenAt_eq_ok.mpr hi)
  have hpos : 0 < extra.length := List.length_pos.mpr hextra
  have hlen : (tokens ++ extra).length ≠ 0 := by
    rw [List.length_append]; omega
  have hne : tokens.length ≠ (tokens ++ extra).length := by
    rw [List.length_append]; omega
  unfold BVHImport
  rw [if_neg hlen, hierarchyLoop_extends lib tokens extra _ _ _ _ _ hh]
  simp only [Outcome.ok_bind]
  rw [e _ _ h1, e _ _ h2, e _ _ h3, e _ _ h4, e _ _ h5]
  simp only [Outcome.ok_bind]
  rw [frameLoop_extends lib tokens extra _ _ _ _ _ hf]
  simp only [Outcome.ok_bind, ne_eq, not_false_eq_true, if_true, hne, Outcome.pure_eq_ok,
    not_true_eq_false, if_false, or_self]

end PrefixStability

/-! ## Sizes of the imported tables and consumption of the stream -/

section ImportTheorems

variable {α : Type}

/-- The empty table binds no name to an empty sequence. -/
theorem NoEmptyEntry_empty : NoEmptyEntry (UMap.empty : JointTransforms α) := by
  intro key; simp [UMap.find, UMap.empty]

/-- In a table without empty sequences, a name has no entry exactly when its sequence
has length 0. -/
theorem getVector_length_eq_zero_iff {jt : JointTransforms α} (h : NoEmptyEntry jt) (key : String) :
    (jt.getVector key).length = 0 ↔ jt.find key = none := by
  unfold UMap.getVector
  cases hf : jt.find key with
  | none => simp
  | some l =>
    have := h key
    rw [hf] at this
    simp only [Option.getD_some, List.length_eq_zero, reduceCtorEq, iff_false]
    exact fun e => this (by rw [e])

variable [LinearOrderedField α]

/-- C3 (amended): on every token stream on which the import succeeds, with `N`
the stored frame count when it is positive and 0 otherwise: `rootTrajectories`
has length `N` and each of its entries has one position per skeleton root; under
every name, `jointTransforms` holds a sequence of length `N` times the number of
joints with at least one child that carry this name; and it holds no entry
under a name exactly when that product is 0. -/
theorem BVHImport_table_sizes (lib : Lib α) (fuel : Nat) (path : String) (tokens : List String)
    (model : SkeletalMotion α) (h : BVHImport lib fuel path tokens = .ok (some model)) :
    model.m_rootTrajectories.length = model.m_frameCount.toNat ∧
    (∀ positions ∈ model.m_rootTrajectories, positions.length = model.m_skeletonRoots.length) ∧
    (∀ key, (model.m_jointTransforms.getVector key).length =
      model.m_frameCount.toNat * SkeletonJoint.animatedNamedList key model.m_skeletonRoots) ∧
    (∀ key, model.m_jointTransforms.find key = none ↔
      model.m_frameCount.toNat * SkeletonJoint.animatedNamedList key model.m_skeletonRoots = 0) := by
  obtain ⟨m, ord, t2, t5, rate, hh, -, -, -, -, -, hF, hf, -⟩ := BVHImport_ok h
  obtain ⟨a1, a2, -, a4, a5, -⟩ := frameLoop_effect lib tokens ord _ _ _ _ _ _ _ _ hf
  have hlen : ∀ key, (model.m_jointTransforms.getVector key).length =
      model.m_frameCount.toNat * SkeletonJoint.animatedNamedList key model.m_skeletonRoots := by
    intro key
    rw [a4 key, hF]
    simp [UMap.getVector, UMap.find, UMap.empty]
  refine ⟨?_, ?_, hlen, ?_⟩
  · rw [a1, hF]; simp
  · intro positions hp
    rcases a2 positions hp with hm | hl
    · simp at hm
    · exact hl
  · intro key
    rw [← hlen key, getVector_length_eq_zero_iff (a5 NoEmptyEntry_empty)]

/-- The theorem on the tables of an import, at the well-formed stream of two frames. -/
theorem BVHImport_table_sizes_witness :
    ∃ model, BVHImport rationalLib 10 "a.bvh" streamTwoFrames = .ok (some model) ∧
      model.m_rootTrajectories.length = model.m_frameCount.toNat ∧
      (∀ positions ∈ model.m_rootTrajectories, positions.length = model.m_skeletonRoots.length) ∧
      (∀ key, (model.m_jointTransforms.getVector key).length =
        model.m_frameCount.toNat * SkeletonJoint.animatedNamedList key model.m_skeletonRoots) ∧
      (∀ key, model.m_jointTransforms.find key = none ↔
        model.m_frameCount.toNat * SkeletonJoint.animatedNamedList key model.m_skeletonRoots = 0) :=
  ⟨_, rfl, BVHImport_table_sizes rationalLib 10 "a.bvh" streamTwoFrames _ rfl⟩

/-- Counterexample to C3 as stated: with a header `Frames: -1` the import succeeds,
stores the frame count `-1` and an empty `rootTrajectories`; with two joints named
`Leg` that both have a child and one frame, the sequence stored under `Leg` has
length 2. -/
theorem import_negative_count_and_duplicate_names :
    (∃ model, BVHImport rationalLib 10 "a.bvh" streamNegativeFrames = .ok (some model) ∧
      model.m_frameCount = -1 ∧ model.m_rootTrajectories.length = 0) ∧
    (∃ model, BVHImport rationalLib 20 "a.bvh" streamDuplicateNames = .ok (some model) ∧
      model.m_frameCount = 1 ∧ (model.m_jointTransforms.getVector "Leg").length = 2) :=
  ⟨⟨_, rfl, rfl, rfl⟩, ⟨_, rfl, rfl, rfl⟩⟩

/-- C5 (amended): on every token stream on which the import succeeds, the first
loop stopped at a `MOTION` token of index `m`, and the token count equals
`m + 6 + N * (sum over the roots of 3 + 3 * number of joints with at least one
child in the tree of the root)`, with `N` the stored frame count when it is
positive and 0 otherwise; and the same stream followed by any further tokens
is rejected with the failure signal. -/
theorem BVHImport_consumes_stream (lib : Lib α) (fuel : Nat) (path : String)
    (tokens : List String) (model : SkeletalMotion α)
    (h : BVHImport lib fuel path tokens = .ok (some model)) :
    (∃ m ord, hierarchyLoop lib tokens fuel 0 [] UMap.empty =
        .ok (some (m, model.m_skeletonRoots, ord)) ∧
      tokens[m]? = some "MOTION" ∧
      tokens.length = m + 6 + model.m_frameCount.toNat * frameTokens model.m_skeletonRoots) ∧
    (∀ extra, extra ≠ [] → BVHImport lib fuel path (tokens ++ extra) = .ok none) := by
  refine ⟨?_, fun extra he => BVHImport_trailing_tokens h extra he⟩
  obtain ⟨m, ord, t2, t5, rate, hh, -, -, -, -, -, hF, hf, -⟩ := BVHImport_ok h
  obtain ⟨-, -, a3, -⟩ := frameLoop_effect lib tokens ord _ _ _ _ _ _ _ _ hf
  exact ⟨m, ord, hh, hierarchyLoop_motion lib tokens _ _ _ _ _ _ _ hh, by rw [a3, hF]⟩

/-- The theorem on the token count, at the well-formed stream of two frames: `MOTION`
is at index 25 and the stream has `25 + 6 + 2 * 6` tokens. -/
theorem BVHImport_consumes_stream_witness :
    (∃ m ord, hierarchyLoop rationalLib streamTwoFrames 10 0 [] UMap.empty =
        .ok (some (m, [.mk "Hips" [.mk "Hips_end" [] ⟨0, 0, 0⟩] ⟨0, 0, 0⟩], ord)) ∧
      streamTwoFrames[m]? = some "MOTION" ∧
      streamTwoFrames.length = m + 6 + (2 : Int).toNat *
        frameTokens [(.mk "Hips" [.mk "Hips_end" [] ⟨0, 0, 0⟩] ⟨0, 0, 0⟩ : SkeletonJoint ℚ)]) ∧
    (∀ extra, extra ≠ [] →
      BVHImport rationalLib 10 "a.bvh" (streamTwoFrames ++ extra) = .ok none) :=
  BVHImport_consumes_stream rationalLib 10 "a.bvh" streamTwoFrames
    (SkeletalMotion.new "a.bvh" _ _ [.mk "Hips" [.mk "Hips_end" [] ⟨0, 0, 0⟩] ⟨0, 0, 0⟩] _ 2) rfl

/-- Counterexample to C5 as stated: the stream with header `Frames: -1` is
imported; `MOTION` is at index 17, the frame count is `-1` and the root
accounts for 3 tokens per frame, so the formula of the claim gives 20 tokens,
but the stream has 23. -/
theorem import_negative_count_token_total :
    ∃ model, BVHImport rationalLib 10 "a.bvh" streamNegativeFrames = .ok (some model) ∧
      model.m_frameCount = -1 ∧ streamNegativeFrames[17]? = some "MOTION" ∧
      frameTokens model.m_skeletonRoots = 3 ∧
      (streamNegativeFrames.length : Int) ≠
        17 + 6 + model.m_frameCount * frameTokens model.m_skeletonRoots :=
  ⟨_, rfl, rfl, rfl, rfl, by decide⟩

end ImportTheorems

/-! ## Malformed joints -/

section NullLemmas

variable {α : Type}

/-- The first loop of `BVHImport` executes `return NULL` only in its test of the
first token: a `NULL` returned by `ParseJoint` never ends it. -/
theorem hierarchyLoop_null_only_at_start (lib : Lib α) (tokens : List String) :
    ∀ (fuel cur : Nat) (roots : List (SkeletonJoint α)) (ord : ChannelOrderings),
      hierarchyLoop lib tokens fuel cur roots ord = .ok none →
      ∃ t, tokens[0]? = some t ∧ t ≠ "MOTION" ∧ t ≠ "HIERARCHY"
  | 0, cur, roots, ord, h => by simp [hierarchyLoop] at h
  | fuel + 1, cur, roots, ord, h => by
    rw [hierarchyLoop] at h
    simp only [Outcome.bind_eq_ok] at h
    obtain ⟨t, ht, h⟩ := h
    split_ifs at h with h1 h2 h3
    · simp at h
    · obtain ⟨rfl, hne⟩ := h2
      exact ⟨t, tokenAt_eq_ok.mp ht, h1, hne⟩
    · simp only [Outcome.bind_eq_ok] at h
      obtain ⟨⟨r, o⟩, hr, h⟩ := h
      rcases r with _ | ⟨root, e⟩
      · exact hierarchyLoop_null_only_at_start lib tokens fuel _ _ _ h
      · exact hierarchyLoop_null_only_at_start lib tokens fuel _ _ _ h
    · exact hierarchyLoop_null_only_at_start lib tokens fuel _ _ _ h

variable [LinearOrderedField α]

/-- On a stream that begins with `HIERARCHY`, the import returns `NULL` only after
its first loop ran through to a `MOTION` token. -/
theorem BVHImport_null_after_hierarchy (lib : Lib α) (fuel : Nat) (path : String)
    (tokens : List String) (hfirst : tokens[0]? = some "HIERARCHY")
    (h : BVHImport lib fuel path tokens = .ok none) :
    ∃ m roots ord, hierarchyLoop lib tokens fuel 0 [] UMap.empty = .ok (some (m, roots, ord)) := by
  unfold BVHImport at h
  split_ifs at h with h0
  · have : tokens = [] := List.length_eq_zero.mp h0
    simp [this] at hfirst
  · simp only [Outcome.bind_eq_ok] at h
    obtain ⟨v, hv, -⟩ := h
    rcases v with _ | ⟨m, roots, ord⟩
    · obtain ⟨t, ht, -, hne⟩ := hierarchyLoop_null_only_at_start lib tokens fuel _ _ _ hv
      rw [hfirst] at ht
      exact absurd (Option.some.inj ht).symm hne
    · exact ⟨m, roots, ord, hv⟩

end NullLemmas

section DivergenceLemmas

variable {α : Type}

theorem sameParse_pure (r : Option (SkeletonJoint α × Nat)) (o o' : ChannelOrderings) :
    Outcome.SameParse (pure (r, o)) (pure (r, o')) := by
  intro r1 o1 h
  simp only [Outcome.pure_eq_ok, Outcome.ok.injEq, Prod.mk.injEq] at h
  exact ⟨o', by rw [h.1]; rfl⟩

theorem sameParse_bind {β : Type} {x : Outcome β} {f g : β → Outcome (ParseResult α)}
    (hfg : ∀ a, Outcome.SameParse (f a) (g a)) : Outcome.SameParse (x >>= f) (x >>= g) := by
  intro r o h
  obtain ⟨v, hv, hf⟩ := Outcome.bind_eq_ok.mp h
  obtain ⟨o', ho'⟩ := hfg v r o hf
  exact ⟨o', Outcome.bind_eq_ok.mpr ⟨v, hv, ho'⟩⟩

theorem sameParse_bind_parse {x y : Outcome (ParseResult α)}
    {f g : ParseResult α → Outcome (ParseResult α)} (hxy : Outcome.SameParse x y)
    (hfg : ∀ r o o', Outcome.SameParse (f (r, o)) (g (r, o'))) :
    Outcome.SameParse (x >>= f) (y >>= g) := by
  intro r o h
  obtain ⟨⟨r1, o1⟩, hv, hf⟩ := Outcome.bind_eq_ok.mp h
  obtain ⟨o2, ho2⟩ := hxy r1 o1 hv
  obtain ⟨o', ho'⟩ := hfg r1 o1 o2 r o hf
  exact ⟨o', Outcome.bind_eq_ok.mpr ⟨_, ho2, ho'⟩⟩

theorem ParseJoint_sameParse (lib : Lib α) (tokens : List String) (fuel : Nat) :
    (∀ start ord ord2, Outcome.SameParse (ParseJoint lib tokens fuel start ord)
      (ParseJoint lib tokens fuel start ord2)) ∧
    (∀ start name offset cur children ord ord2,
      Outcome.SameParse (ParseJointLoop lib tokens fuel start name offset cur children ord)
        (ParseJointLoop lib tokens fuel start name offset cur children ord2)) := by
  induction fuel with
  | zero =>
    constructor
    · intro start ord ord2 r o h; simp [ParseJoint] at h
    · intro start name offset cur children ord ord2 r o h; simp [ParseJointLoop] at h
  | succ fuel ih =>
    obtain ⟨ihJ, ihL⟩ := ih
    constructor
    · intro start ord ord2
      rw [ParseJoint, ParseJoint]
      repeat' first
        | with_reducible exact ihL _ _ _ _ _ _ _
        | with_reducible exact sameParse_pure _ _ _
        | (with_reducible refine sameParse_bind ?_; intro _)
        | split_ifs
    · intro start name offset cur children ord ord2
      rw [ParseJointLoop, ParseJointLoop]
      repeat' first
        | with_reducible exact ihL _ _ _ _ _ _ _
        | with_reducible exact sameParse_pure _ _ _
        | (with_reducible refine sameParse_bind_parse (ihJ _ _ _) ?_; rintro (_ | ⟨_, _⟩) _ _)
        | (with_reducible refine sameParse_bind ?_; intro _)
        | split_ifs

theorem ParseJoint_fuel_add (lib : Lib α) (tokens : List String) (fuel extra start : Nat)
    (ord : ChannelOrderings) (x : ParseResult α)
    (h : ParseJoint lib tokens fuel start ord = .ok x) :
    ParseJoint lib tokens (fuel + extra) start ord = .ok x := by
  induction extra with
  | zero => exact h
  | succ extra ih =>
    have := (ParseJoint_fuel_succ lib tokens (fuel + extra)).1 start ord (by rw [ih]; simp)
    rw [← Nat.add_assoc, this, ih]

/-- Two calls of `ParseJoint` at the same position that both return, return the
same pointer and end token, whatever their fuel and channel tables. -/
theorem ParseJoint_deterministic (lib : Lib α) (tokens : List String) (start : Nat)
    {f1 f2 : Nat} {o1 o2 o1' o2' : ChannelOrderings} {r1 r2 : Option (SkeletonJoint α × Nat)}
    (h1 : ParseJoint lib tokens f1 start o1 = .ok (r1, o1'))
    (h2 : ParseJoint lib tokens f2 start o2 = .ok (r2, o2')) : r1 = r2 := by
  have e1 := ParseJoint_fuel_add lib tokens f1 f2 start o1 _ h1
  have e2 := ParseJoint_fuel_add lib tokens f2 f1 start o2 _ h2
  rw [Nat.add_comm] at e2
  obtain ⟨o', ho'⟩ := (ParseJoint_sameParse lib tokens (f1 + f2)).1 start o1 o2 r1 o1' e1
  rw [e2] at ho'
  simp only [Outcome.ok.injEq, Prod.mk.injEq] at ho'
  exact ho'.1.symm

/-- A run of the first loop of `BVHImport` from position 0 that returns comes
through every position the loop reaches. -/
theorem hierarchyLoop_passes (lib : Lib α) (tokens : List String) (p : Nat)
    (hreach : LoopReaches lib tokens p) :
    ∀ (fuel : Nat) (roots : List (SkeletonJoint α)) (ord : ChannelOrderings)
      (res : HierarchyResult α),
      hierarchyLoop lib tokens fuel 0 roots ord = .ok res →
      ∃ fuel' roots' ord', fuel' ≤ fuel ∧ hierarchyLoop lib tokens fuel' p roots' ord' = .ok res := by
  induction hreach with
  | start => exact fun fuel roots ord res h => ⟨fuel, roots, ord, Nat.le_refl _, h⟩
  | skip cur t _ ht h1 h2 h3 ih =>
    intro fuel roots ord res h
    obtain ⟨fuel', roots', ord', hle, h'⟩ := ih fuel roots ord res h
    cases fuel' with
    | zero => simp [hierarchyLoop] at h'
    | succ f =>
      rw [hierarchyLoop, tokenAt_eq_ok.mpr ht] at h'
      simp only [Outcome.ok_bind] at h'
      rw [if_neg h1, if_neg h2, if_neg h3] at h'
      exact ⟨f, roots', ord', by omega, h'⟩
  | root cur fuel0 ord0 ord0' joint endToken _ ht hne hparse ih =>
    intro fuel roots ord res h
    obtain ⟨fuel', roots', ord', hle, h'⟩ := ih fuel roots ord res h
    cases fuel' with
    | zero => simp [hierarchyLoop] at h'
    | succ f =>
      rw [hierarchyLoop, tokenAt_eq_ok.mpr ht] at h'
      simp only [Outcome.ok_bind] at h'
      rw [if_neg (by decide), if_neg (fun hc => hne hc.1), if_pos trivial] at h'
      obtain ⟨⟨r, o⟩, hr, hcont⟩ := Outcome.bind_eq_ok.mp h'
      have hsame := ParseJoint_deterministic lib tokens cur hparse hr
      subst hsame
      exact ⟨f, _, o, by omega, hcont⟩

/-- Once `ParseJoint` returns `NULL` for a root that the first loop of `BVHImport`
reaches, that loop never returns, whatever the fuel. -/
theorem hierarchyLoop_never_returns (lib : Lib α) (tokens : List String) (p : Nat)
    (hreach : LoopReaches lib tokens p) (hroot : tokens[p]? = some "ROOT") (hp : p ≠ 0)
    (fuel0 : Nat) (ord0 ord1 : ChannelOrderings)
    (hnull : ParseJoint lib tokens fuel0 p ord0 = .ok ((none : Option (SkeletonJoint α × Nat)), ord1)) :
    ∀ (fuel : Nat) (roots : List (SkeletonJoint α)) (ord : ChannelOrderings)
      (res : HierarchyResult α), hierarchyLoop lib tokens fuel 0 roots ord ≠ .ok res := by
  intro fuel
  induction fuel using Nat.strong_induction_on with
  | _ fuel ih =>
    intro roots ord res h
    obtain ⟨fuel', roots', ord', hle, h'⟩ := hierarchyLoop_passes lib tokens p hreach fuel roots ord res h
    cases fuel' with
    | zero => simp [hierarchyLoop] at h'
    | succ f =>
      rw [hierarchyLoop, tokenAt_eq_ok.mpr hroot] at h'
      simp only [Outcome.ok_bind] at h'
      rw [if_neg (by decide), if_neg (fun hc => hp hc.1), if_pos trivial] at h'
      obtain ⟨⟨r, o⟩, hr, hcont⟩ := Outcome.bind_eq_ok.mp h'
      have hsame := ParseJoint_deterministic lib tokens p hnull hr
      subst hsame
      exact ih f (by omega) roots' o res hcont

/-- A joint whose name is not followed by the opening brace is rejected by
`ParseJoint` with `NULL`. -/
theorem ParseJoint_null_without_brace (lib : Lib α) (tokens : List String) (fuel p : Nat)
    (ord : ChannelOrderings) (t : String) (ht : tokens[p + 2]? = some t) (hne : t ≠ "\x7b") :
    ParseJoint lib tokens (fuel + 1) p ord = .ok (none, ord) := by
  rw [ParseJoint, tokenAt_eq_ok.mpr ht]
  simp only [Outcome.ok_bind]
  rw [if_pos hne]
  rfl

/-- A joint whose `CHANNELS` count is neither `3` nor `6` is rejected by `ParseJoint`
with `NULL`. -/
theorem ParseJoint_null_channel_count (lib : Lib α) (tokens : List String) (fuel p : Nat)
    (ord : ChannelOrderings) (n : String)
    (h2 : tokens[p + 2]? = some "\x7b") (h3 : tokens[p + 3]? = some "OFFSET")
    (h6 : p + 6 < tokens.length) (h7 : tokens[p + 7]? = some "CHANNELS")
    (h8 : tokens[p + 8]? = some n) (hn3 : n ≠ "3") (hn6 : n ≠ "6") :
    ParseJoint lib tokens (fuel + 1) p ord = .ok (none, ord) := by
  have e : ∀ i, i < tokens.length → tokenAt tokens i = .ok tokens[i]! := by
    intro i hi
    rw [tokenAt_eq_ok, getElem!_pos tokens i hi]
    exact List.getElem?_eq_getElem hi
  rw [ParseJoint, tokenAt_eq_ok.mpr h2]
  simp only [Outcome.ok_bind]
  rw [if_neg (by simp), tokenAt_eq_ok.mpr h3]
  simp only [Outcome.ok_bind]
  rw [if_neg (by simp), e (p + 1) (by omega)]
  simp only [Outcome.ok_bind, readOffset]
  rw [e (p + 4) (by omega), e (p + 5) (by omega), e (p + 6) h6, tokenAt_eq_ok.mpr h7,
    tokenAt_eq_ok.mpr h8]
  simp only [Outcome.ok_bind, Outcome.pure_eq_ok]
  rw [if_neg (by simp), if_neg hn3, if_neg hn6]

variable [LinearOrderedField α]

/-- Once `ParseJoint` returns `NULL` for a root that the first loop of `BVHImport`
reaches, the import returns neither a model nor the failure signal, whatever
the fuel. -/
theorem BVHImport_never_returns (lib : Lib α) (path : String) (tokens : List String) (p : Nat)
    (hreach : LoopReaches lib tokens p) (hroot : tokens[p]? = some "ROOT") (hp : p ≠ 0)
    (fuel0 : Nat) (ord0 ord1 : ChannelOrderings)
    (hnull : ParseJoint lib tokens fuel0 p ord0 = .ok ((none : Option (SkeletonJoint α × Nat)), ord1))
    (fuel : Nat) (r : Option (SkeletalMotion α)) :
    BVHImport lib fuel path tokens ≠ .ok r := by
  intro h
  unfold BVHImport at h
  split_ifs at h with h0
  · have : tokens = [] := List.length_eq_zero.mp h0
    simp [this] at hroot
  · obtain ⟨v, hv, -⟩ := Outcome.bind_eq_ok.mp h
    exact hierarchyLoop_never_returns lib tokens p hreach hroot hp fuel0 ord0 ord1 hnull
      fuel [] UMap.empty v hv

/-- For a root that the first loop reaches and whose name is not followed by the
opening brace, or whose `CHANNELS` count is neither `3` nor `6`, the import
returns neither a model nor the failure signal, whatever the fuel. -/
theorem BVHImport_malformed_root (lib : Lib α) (path : String) (tokens : List String) (p : Nat)
    (hreach : LoopReaches lib tokens p) (hroot : tokens[p]? = some "ROOT") (hp : p ≠ 0)
    (hbad : (∃ t, tokens[p + 2]? = some t ∧ t ≠ "\x7b") ∨
      (tokens[p + 2]? = some "\x7b" ∧ tokens[p + 3]? = some "OFFSET" ∧ p + 6 < tokens.length ∧
        tokens[p + 7]? = some "CHANNELS" ∧ ∃ n, tokens[p + 8]? = some n ∧ n ≠ "3" ∧ n ≠ "6"))
    (fuel : Nat) (r : Option (SkeletalMotion α)) :
    BVHImport lib fuel path tokens ≠ .ok r := by
  rcases hbad with ⟨t, ht, hne⟩ | ⟨h2, h3, h6, h7, n, h8, hn3, hn6⟩
  · exact BVHImport_never_returns lib path tokens p hreach hroot hp 1 UMap.empty UMap.empty
      (ParseJoint_null_without_brace lib tokens 0 p _ t ht hne) fuel r
  · exact BVHImport_never_returns lib path tokens p hreach hroot hp 1 UMap.empty UMap.empty
      (ParseJoint_null_channel_count lib tokens 0 p _ n h2 h3 h6 h7 h8 hn3 hn6) fuel r

end DivergenceLemmas

/-- On the stream whose root has no body, the first loop of `BVHImport` restarts at
position 0 every third iteration. -/
theorem hierarchyLoop_rootWithoutBody :
    ∀ (fuel : Nat) (ord : ChannelOrderings),
      hierarchyLoop rationalLib streamRootWithoutBody fuel 0 [] ord = .timeout
  | 0, _ => rfl
  | 1, _ => rfl
  | 2, _ => rfl
  | fuel + 3, ord => by
    have ih := hierarchyLoop_rootWithoutBody (fuel + 1) ord
    have h0 : tokenAt streamRootWithoutBody 0 = .ok "HIERARCHY" := rfl
    have h1 : tokenAt streamRootWithoutBody (0 + 1) = .ok "ROOT" := rfl
    have h3 : tokenAt streamRootWithoutBody (0 + 1 + 2) = .ok "\x7d" := rfl
    rw [hierarchyLoop, h0]
    simp only [Outcome.ok_bind]
    rw [if_neg (by decide), if_neg (by decide), if_neg (by decide)]
    rw [hierarchyLoop, h1]
    simp only [Outcome.ok_bind]
    rw [if_neg (by decide), if_neg (by decide), if_pos (by decide)]
    rw [ParseJoint, h3]
    simp only [Outcome.ok_bind]
    rw [if_pos (by decide)]
    exact ih

/-- On the stream whose root declares `CHANNELS 4`, the first loop of `BVHImport`
restarts at position 0 every third iteration. -/
theorem hierarchyLoop_rootFourChannels :
    ∀ (fuel : Nat) (ord : ChannelOrderings),
      hierarchyLoop rationalLib streamRootFourChannels fuel 0 [] ord = .timeout
  | 0, _ => rfl
  | 1, _ => rfl
  | 2, _ => rfl
  | fuel + 3, ord => by
    have ih := hierarchyLoop_rootFourChannels (fuel + 1) ord
    have hp : ParseJoint rationalLib streamRootFourChannels (fuel + 1) (0 + 1) ord
        = .ok (none, ord) := rfl
    have h0 : tokenAt streamRootFourChannels 0 = .ok "HIERARCHY" := rfl
    have h1 : tokenAt streamRootFourChannels (0 + 1) = .ok "ROOT" := rfl
    rw [hierarchyLoop, h0]
    simp only [Outcome.ok_bind]
    rw [if_neg (by decide), if_neg (by decide), if_neg (by decide)]
    rw [hierarchyLoop, h1]
    simp only [Outcome.ok_bind]
    rw [if_neg (by decide), if_neg (by decide), if_pos (by decide), hp]
    exact ih

/-- On the stream whose nested joint declares `CHANNELS 4`, the loop of `ParseJoint`
stays at the `JOINT` token at position 16. -/
theorem ParseJointLoop_jointFourChannels :
    ∀ (fuel start : Nat) (name : String) (offset : Vec3 ℚ) (children : List (SkeletonJoint ℚ))
      (ord : ChannelOrderings),
      ParseJointLoop rationalLib streamJointFourChannels fuel start name offset 16 children ord
        = .timeout
  | 0, _, _, _, _, _ => rfl
  | 1, _, _, _, _, _ => rfl
  | fuel + 2, start, name, offset, children, ord => by
    have ih := ParseJointLoop_jointFourChannels (fuel + 1) start name offset children ord
    have hp : ParseJoint rationalLib streamJointFourChannels (fuel + 1) 16 ord
        = .ok (none, ord) := rfl
    have h16 : tokenAt streamJointFourChannels 16 = .ok "JOINT" := rfl
    rw [ParseJointLoop, h16]
    simp only [Outcome.ok_bind]
    rw [if_neg (by decide), if_pos (by decide), hp]
    exact ih

/-- On the same stream, the call of `ParseJoint` for the root does not return. -/
theorem ParseJoint_jointFourChannels :
    ∀ (fuel : Nat) (ord : ChannelOrderings),
      (ParseJoint rationalLib streamJointFourChannels fuel 1 ord : Outcome (ParseResult ℚ))
        = .timeout
  | 0, _ => rfl
  | fuel + 1, ord => by
    have h : ∀ i t, streamJointFourChannels[i]? = some t →
        tokenAt streamJointFourChannels i = .ok t := fun i t hi => tokenAt_eq_ok.mpr hi
    rw [ParseJoint, h (1 + 2) "\x7b" rfl]
    simp only [Outcome.ok_bind]
    rw [if_neg (by decide), h (1 + 3) "OFFSET" rfl]
    simp only [Outcome.ok_bind]
    rw [if_neg (by decide), h (1 + 1) "Hips" rfl]
    simp only [Outcome.ok_bind]
    rw [show readOffset rationalLib streamJointFourChannels 1 = .ok ⟨0, 0, 0⟩ from rfl,
      h (1 + 7) "CHANNELS" rfl]
    simp only [Outcome.ok_bind]
    rw [if_neg (by decide), h (1 + 8) "6" rfl]
    simp only [Outcome.ok_bind]
    rw [if_neg (by decide), if_pos (by decide), h (1 + 9) _ rfl, h (1 + 10) _ rfl,
      h (1 + 11) _ rfl, h (1 + 12) _ rfl, h (1 + 13) _ rfl, h (1 + 14) _ rfl]
    simp only [Outcome.ok_bind]
    exact ParseJointLoop_jointFourChannels fuel 1 _ _ _ _

/-- On the same stream, the first loop of `BVHImport` does not return. -/
theorem hierarchyLoop_jointFourChannels :
    ∀ (fuel : Nat) (ord : ChannelOrderings),
      hierarchyLoop rationalLib streamJointFourChannels fuel 0 [] ord = .timeout
  | 0, _ => rfl
  | 1, _ => rfl
  | fuel + 2, ord => by
    have h0 : tokenAt streamJointFourChannels 0 = .ok "HIERARCHY" := rfl
    have h1 : tokenAt streamJointFourChannels (0 + 1) = .ok "ROOT" := rfl
    rw [hierarchyLoop, h0]
    simp only [Outcome.ok_bind]
    rw [if_neg (by decide), if_neg (by decide), if_neg (by decide)]
    rw [hierarchyLoop, h1]
    simp only [Outcome.ok_bind]
    rw [if_neg (by decide), if_neg (by decide), if_pos (by decide)]
    rw [show (0 : Nat) + 1 = 1 from rfl, ParseJoint_jointFourChannels fuel ord]
    rfl

/-- C4: on each of three streams that begin with `HIERARCHY` and hold a malformed
joint (a root whose name is followed by the closing brace, a root with
`CHANNELS 4`, a nested joint with `CHANNELS 4`), the import does not return,
whatever the fuel: `ParseJoint` returns `NULL`, and the calling loop starts the
same joint again. -/
theorem BVHImport_malformed_joint_never_returns (fuel : Nat) :
    BVHImport rationalLib fuel "a.bvh" streamRootWithoutBody = .timeout ∧
    BVHImport rationalLib fuel "a.bvh" streamRootFourChannels = .timeout ∧
    BVHImport rationalLib fuel "a.bvh" streamJointFourChannels = .timeout := by
  refine ⟨?_, ?_, ?_⟩
  · unfold BVHImport
    rw [if_neg (by decide), hierarchyLoop_rootWithoutBody]; rfl
  · unfold BVHImport
    rw [if_neg (by decide), hierarchyLoop_rootFourChannels]; rfl
  · unfold BVHImport
    rw [if_neg (by decide), hierarchyLoop_jointFourChannels]; rfl


/-! ## Reads beyond the end of the stream -/

namespace Outcome
variable {β γ : Type}

theorem readsOnly_ok (v : β) : ReadsOnly (ok v) := Or.inr ⟨v, rfl⟩

theorem readsOnly_pure (v : β) : ReadsOnly (pure v : Outcome β) := Or.inr ⟨v, rfl⟩

theorem readsOnly_ofOption (o : Option β) : ReadsOnly (ofOption o) := by
  cases o
  · exact Or.inl rfl
  · exact Or.inr ⟨_, rfl⟩

theorem readsOnly_bind {x : Outcome β} {f : β → Outcome γ} (hx : ReadsOnly x)
    (hf : ∀ a, ReadsOnly (f a)) : ReadsOnly (x >>= f) := by
  rcases hx with rfl | ⟨v, rfl⟩
  · exact Or.inl rfl
  · exact hf v

end Outcome

section ReadsOnlyLemmas

variable {α : Type}

theorem tokenAt_readsOnly (tokens : List String) (i : Nat) :
    Outcome.ReadsOnly (tokenAt tokens i) := Outcome.readsOnly_ofOption _

theorem setComponent_readsOnly (v : Vec3 α) (i : Int) (a : α) :
    Outcome.ReadsOnly (v.setComponent i a) := by
  unfold Vec3.setComponent
  split_ifs <;> first | exact Outcome.readsOnly_ok _ | exact Or.inl rfl

theorem readRootComponent_readsOnly (lib : Lib α) (tokens : List String)
    (ord : ChannelOrderings) (name : String) (cur i : Nat) (v : Vec3 α) :
    Outcome.ReadsOnly (readRootComponent lib tokens ord name cur i v) := by
  unfold readRootComponent
  refine Outcome.readsOnly_bind (Outcome.readsOnly_ofOption _) fun _ => ?_
  refine Outcome.readsOnly_bind (tokenAt_readsOnly _ _) fun _ => ?_
  exact setComponent_readsOnly _ _ _

variable [LinearOrderedField α]

theorem readRotation_readsOnly (lib : Lib α) (tokens : List String) (ord : ChannelOrderings)
    (name : String) (b : Bool) (cur r : Nat) :
    Outcome.ReadsOnly (readRotation lib tokens ord name b cur r) := by
  unfold readRotation
  refine Outcome.readsOnly_bind (Outcome.readsOnly_ofOption _) fun _ => ?_
  refine Outcome.readsOnly_bind (tokenAt_readsOnly _ _) fun _ => ?_
  exact Outcome.readsOnly_pure _

mutual
theorem ReadFrameRecursive_readsOnly (lib : Lib α) (tokens : List String)
    (ord : ChannelOrderings) :
    ∀ (joint : SkeletonJoint α) (b : Bool) (state : JointTransforms α × Nat),
      Outcome.ReadsOnly (ReadFrameRecursive lib tokens ord joint b state)
  | .mk name children offset, b, (jt, cur) => by
    rw [ReadFrameRecursive]
    split_ifs
    · exact Outcome.readsOnly_pure _
    · refine Outcome.readsOnly_bind (readRotation_readsOnly _ _ _ _ _ _ _) fun _ => ?_
      refine Outcome.readsOnly_bind (readRotation_readsOnly _ _ _ _ _ _ _) fun _ => ?_
      refine Outcome.readsOnly_bind (readRotation_readsOnly _ _ _ _ _ _ _) fun _ => ?_
      exact ReadFrameChildren_readsOnly lib tokens ord children _
theorem ReadFrameChildren_readsOnly (lib : Lib α) (tokens : List String)
    (ord : ChannelOrderings) :
    ∀ (children : List (SkeletonJoint α)) (state : JointTransforms α × Nat),
      Outcome.ReadsOnly (ReadFrameChildren lib tokens ord children state)
  | [], state => by
    rw [ReadFrameChildren]
    exact Outcome.readsOnly_pure _
  | child :: rest, state => by
    rw [ReadFrameChildren]
    refine Outcome.readsOnly_bind (ReadFrameRecursive_readsOnly lib tokens ord child false state)
      fun state1 => ?_
    exact ReadFrameChildren_readsOnly lib tokens ord rest state1
end

theorem rootLoop_readsOnly (lib : Lib α) (tokens : List String) (ord : ChannelOrderings) :
    ∀ (roots : List (SkeletonJoint α)) (state : List (Vec3 α) × JointTransforms α × Nat),
      Outcome.ReadsOnly (rootLoop lib tokens ord roots state)
  | [], state => by
    rw [rootLoop]
    exact Outcome.readsOnly_pure _
  | root :: rest, (rp, jt, cur) => by
    rw [rootLoop]
    refine Outcome.readsOnly_bind (readRootComponent_readsOnly _ _ _ _ _ _ _) fun _ => ?_
    refine Outcome.readsOnly_bind (readRootComponent_readsOnly _ _ _ _ _ _ _) fun _ => ?_
    refine Outcome.readsOnly_bind (readRootComponent_readsOnly _ _ _ _ _ _ _) fun _ => ?_
    refine Outcome.readsOnly_bind (ReadFrameRecursive_readsOnly _ _ _ _ _ _) fun _ => ?_
    exact rootLoop_readsOnly lib tokens ord rest _

theorem frameLoop_readsOnly (lib : Lib α) (tokens : List String) (ord : ChannelOrderings)
    (roots : List (SkeletonJoint α)) :
    ∀ (n : Nat) (state : List (List (Vec3 α)) × JointTransforms α × Nat),
      Outcome.ReadsOnly (frameLoop lib tokens ord roots n state)
  | 0, state => by
    rw [frameLoop]
    exact Outcome.readsOnly_pure _
  | n + 1, (rt, jt, cur) => by
    rw [frameLoop]
    refine Outcome.readsOnly_bind (rootLoop_readsOnly _ _ _ _ _) fun _ => ?_
    exact frameLoop_readsOnly lib tokens ord roots n _

/-- The import of a stream whose hierarchy block and `MOTION` header are read, and which
holds fewer than `m + 6 + N * (tokens of one frame)` tokens, ends in an out-of-range
read, of the token vector or of the channel table, and not in the failure signal. -/
theorem BVHImport_truncated_frames_out_of_range (lib : Lib α) (fuel : Nat) (path : String)
    (tokens : List String) (m : Nat) (roots : List (SkeletonJoint α)) (ord : ChannelOrderings)
    (t2 t5 : String)
    (hh : hierarchyLoop lib tokens fuel 0 [] UMap.empty = .ok (some (m, roots, ord)))
    (h1 : tokens[m + 1]? = some "Frames:") (h2 : tokens[m + 2]? = some t2)
    (h3 : tokens[m + 3]? = some "Frame") (h4 : tokens[m + 4]? = some "Time:")
    (h5 : tokens[m + 5]? = some t5)
    (hshort : tokens.length < m + 6 + (lib.atoi t2).toNat * frameTokens roots) :
    BVHImport lib fuel path tokens = .outOfRange := by
  have hlen : m + 5 < tokens.length := (List.getElem?_eq_some_iff.mp h5).1
  have e := fun i t (hi : tokens[i]? = some t) => (@tokenAt_eq_ok tokens i t).mpr hi
  unfold BVHImport
  rw [if_neg (by omega), hh]
  simp only [Outcome.ok_bind]
  rw [e _ _ h1, e _ _ h2, e _ _ h3, e _ _ h4, e _ _ h5]
  simp only [Outcome.ok_bind, ne_eq, not_true_eq_false, if_false, or_self]
  rcases frameLoop_readsOnly lib tokens ord roots (lib.atoi t2).toNat ([], UMap.empty, m + 6)
    with hf | ⟨⟨rt, jt, cur⟩, hf⟩
  · rw [hf]; rfl
  · obtain ⟨-, -, a3, -, -, a6⟩ := frameLoop_effect lib tokens ord roots _ _ _ _ _ _ _ hf
    have := a6 (by omega)
    omega

/-- The lemma on truncated frame data, at the stream that declares three frames and
holds the values of two. -/
theorem BVHImport_truncated_frames_out_of_range_witness :
    BVHImport rationalLib 10 "a.bvh" streamTruncated = .outOfRange :=
  BVHImport_truncated_frames_out_of_range rationalLib 10 "a.bvh" streamTruncated 25 _ _ "3" "1"
    rfl rfl rfl rfl rfl rfl (by decide)

/-- C6: the token reads are not checked against the token count.  The stream that
declares three frames and holds the values of two has 43 tokens: its hierarchy
block is accepted, the two frames are read up to index 43, the lookup of the channel
table for the first position of the third frame is in range, and the read of
`tokens[43]` for it is out of range; the import ends in this read and not in the
failure signal.  In the hierarchy of 24 tokens that ends before the closing brace
of its root, the loop of `ParseJoint` passes the `End Site` block and reads `tokens[24]`.
On the one-token stream `HIERARCHY` the first loop of `BVHImport` reads `tokens[1]`. -/
theorem import_reads_beyond_stream :
    streamTruncated.length = 43 ∧
    (∃ ord, hierarchyLoop rationalLib streamTruncated 10 0 [] UMap.empty =
        .ok (some (25, [.mk "Hips" [.mk "Hips_end" [] ⟨0, 0, 0⟩] ⟨0, 0, 0⟩], ord)) ∧
      (∃ rt jt, frameLoop rationalLib streamTruncated ord
          [.mk "Hips" [.mk "Hips_end" [] ⟨0, 0, 0⟩] ⟨0, 0, 0⟩] 2 ([], UMap.empty, 25 + 6) =
        .ok (rt, jt, 43)) ∧
      (ord.getVector "Hips")[0]? = some 0 ∧
      readRootComponent rationalLib streamTruncated ord "Hips" 43 0 ⟨0, 0, 0⟩ = .outOfRange) ∧
    tokenAt streamTruncated 43 = .outOfRange ∧
    BVHImport rationalLib 10 "a.bvh" streamTruncated = .outOfRange ∧
    BVHImport rationalLib 10 "a.bvh" streamTruncated ≠ .ok none ∧
    streamMissingBrace.length = 24 ∧
    ParseJointLoop rationalLib streamMissingBrace 8 1 "Hips" ⟨0, 0, 0⟩ 16 []
        ((UMap.empty : ChannelOrderings).insert "Hips" [0, 1, 2, 2, 0, 1]) =
      ParseJointLoop rationalLib streamMissingBrace 7 1 "Hips" ⟨0, 0, 0⟩ 24
        [.mk "Hips_end" [] ⟨0, 0, 0⟩]
        ((UMap.empty : ChannelOrderings).insert "Hips" [0, 1, 2, 2, 0, 1]) ∧
    tokenAt streamMissingBrace 24 = .outOfRange ∧
    BVHImport rationalLib 10 "a.bvh" streamMissingBrace = .outOfRange ∧
    tokenAt ["HIERARCHY"] 1 = .outOfRange ∧
    BVHImport rationalLib 10 "a.bvh" ["HIERARCHY"] = .outOfRange :=
  ⟨rfl, ⟨_, rfl, ⟨_, _, rfl⟩, rfl, rfl⟩, rfl, rfl,
    fun h => Outcome.noConfusion
      ((rfl : BVHImport rationalLib 10 "a.bvh" streamTruncated = .outOfRange).symm.trans h),
    rfl, rfl, rfl, rfl, rfl, rfl⟩

end ReadsOnlyLemmas

/-! ## The transform stored for a joint -/

section FrameTransformTheorems

variable {α : Type}

/-- Storing a transform puts it at the end of the sequence of its name. -/
theorem appendTransform_getVector_self (jt : JointTransforms α) (name : String) (T : Transform α) :
    (appendTransform jt name T).getVector name = jt.getVector name ++ [T] := by
  unfold appendTransform UMap.getVector
  cases h : jt.find name <;> simp [UMap.find, UMap.insert]

/-- Storing a transform keeps what every sequence held. -/
theorem appendTransform_getVector_keeps (jt : JointTransforms α) (name key : String)
    (T : Transform α) :
    ∃ rest, (appendTransform jt name T).getVector key = jt.getVector key ++ rest := by
  by_cases hk : key = name
  · subst hk
    exact ⟨[T], appendTransform_getVector_self jt key T⟩
  · refine ⟨[], ?_⟩
    unfold appendTransform UMap.getVector
    cases h : jt.find name <;> simp [UMap.find, UMap.insert, hk]

variable [LinearOrderedField α]

/-- The identity matrix is a left unit of the matrix product. -/
theorem Mat3.one_mul_left (g : Mat3 α) : Mat3.one.mul g = g := by
  simp [Mat3.mul, Mat3.mulVec, Mat3.one]

/-- The rotation read back from `Transform(rotation, origin)`. -/
theorem Transform.GetRotation_ofRotationOrigin (R : Mat3 α) (o : Vec3 α) :
    (Transform.ofRotationOrigin R o).GetRotation = R := rfl

/-- The origin read back from `Transform(rotation, origin)`. -/
theorem Transform.GetOrigin_ofRotationOrigin (R : Mat3 α) (o : Vec3 α) :
    (Transform.ofRotationOrigin R o).GetOrigin = o := by
  simp [Transform.GetOrigin, Transform.ofRotationOrigin, Mat4.mulVec, Vec4.xyz]

/-! A call of `ReadFrameRecursive` only appends to the stored sequences. -/

mutual
theorem ReadFrameRecursive_keeps_entries (lib : Lib α) (tokens : List String) (ord : ChannelOrderings) :
    ∀ (joint : SkeletonJoint α) (b : Bool) (jt : JointTransforms α) (cur : Nat)
      (jt' : JointTransforms α) (cur' : Nat),
      ReadFrameRecursive lib tokens ord joint b (jt, cur) = .ok (jt', cur') →
      ∀ key, ∃ rest, jt'.getVector key = jt.getVector key ++ rest
  | .mk name children offset, b, jt, cur, jt', cur', h, key => by
    rw [ReadFrameRecursive] at h
    split_ifs at h with hc
    · simp at h
      obtain ⟨rfl, rfl⟩ := h
      exact ⟨[], by simp⟩
    · simp only [Outcome.bind_eq_ok] at h
      obtain ⟨g0, h0, g1, h1, g2, h2, h⟩ := h
      obtain ⟨r1, e1⟩ := ReadFrameChildren_keeps_entries lib tokens ord children _ _ _ _ h key
      obtain ⟨r0, e0⟩ := appendTransform_getVector_keeps jt name key
        (Transform.ofRotationOrigin (((Mat3.one.mul g0).mul g1).mul g2) offset)
      exact ⟨r0 ++ r1, by rw [e1, e0, List.append_assoc]⟩
theorem ReadFrameChildren_keeps_entries (lib : Lib α) (tokens : List String) (ord : ChannelOrderings) :
    ∀ (children : List (SkeletonJoint α)) (jt : JointTransforms α) (cur : Nat)
      (jt' : JointTransforms α) (cur' : Nat),
      ReadFrameChildren lib tokens ord children (jt, cur) = .ok (jt', cur') →
      ∀ key, ∃ rest, jt'.getVector key = jt.getVector key ++ rest
  | [], jt, cur, jt', cur', h, key => by
    rw [ReadFrameChildren] at h
    simp at h
    obtain ⟨rfl, rfl⟩ := h
    exact ⟨[], by simp⟩
  | child :: rest, jt, cur, jt', cur', h, key => by
    rw [ReadFrameChildren] at h
    simp only [Outcome.bind_eq_ok] at h
    obtain ⟨⟨jt1, cur1⟩, h1, h2⟩ := h
    obtain ⟨r1, e1⟩ := ReadFrameRecursive_keeps_entries lib tokens ord child false jt cur jt1 cur1 h1 key
    obtain ⟨r2, e2⟩ := ReadFrameChildren_keeps_entries lib tokens ord rest jt1 cur1 jt' cur' h2 key
    exact ⟨r1 ++ r2, by rw [e2, e1, List.append_assoc]⟩
end

/-- The rotation matrix read for channel `r` of a joint. -/
theorem readRotation_eq (lib : Lib α) (tokens : List String) (ord : ChannelOrderings)
    (name : String) (b : Bool) (cur r : Nat) (a : Int) (t : String)
    (ha : (ord.getVector name)[(if b then 3 else 0) + r]? = some a)
    (ht : tokens[cur + r]? = some t) :
    readRotation lib tokens ord name b cur r = .ok (GetRotationMatrix lib a (lib.atof t)) := by
  unfold readRotation
  have hidx : (if b then r + 3 else r) = (if b then 3 else 0) + r := by
    cases b <;> simp [Nat.add_comm]
  rw [hidx, ha, tokenAt_eq_ok.mpr ht]
  rfl

end FrameTransformTheorems

/-! ## Joint positions of a pose -/

section QueryTheorems

variable {α : Type} [LinearOrderedField α]

/-- The world position the code computes is the scale times the transformed point. -/
theorem worldPosition_eq (T : Transform α) (p : Vec3 α) (s : α) :
    worldPosition T p s = Vec3.smul s (T.TransformPoint p) := by
  simp [worldPosition, Vec3.smul, Transform.TransformPoint, Transform.mulVec4, Vec4.scale,
    Vec4.xyz, Vec4.ofVec3, mul_comm]

/-- The product along a chain that is extended by one joint. -/
theorem chainTransform_append (jt : JointTransforms α) (f : Nat) (a : SkeletonJoint α) :
    ∀ (anc : List (SkeletonJoint α)) (T : Transform α),
      chainTransform jt f T (anc ++ [a]) =
        match chainTransform jt f T anc with
        | some T' => (localTransformAt jt f a).map (fun L => T'.mul L)
        | none => none
  | [], T => by
    simp only [List.nil_append, chainTransform]
    cases localTransformAt jt f a <;> rfl
  | b :: anc, T => by
    simp only [List.cons_append, chainTransform]
    cases localTransformAt jt f b with
    | none => rfl
    | some L => exact chainTransform_append jt f a anc (T.mul L)

/-! The positions appended by the traversal of a subtree, started with the product of
the local transforms of the ancestors. -/

mutual
theorem QuerySkeletalAnimationRecursive_positions (jt : JointTransforms α) (s : α) (f : Nat)
    (T0 : Transform α) :
    ∀ (joint : SkeletonJoint α) (anc : List (SkeletonJoint α)) (T : Transform α)
      (out : QueryOutputs α) (l : List (Vec3 α)),
      chainTransform jt f T0 anc = some T →
      out.jointPositions = some l →
      (∀ entry ∈ SkeletonJoint.preorderWithAncestors anc joint,
        claimedPosition jt f s T0 entry ≠ none) →
      ∃ out' l', QuerySkeletalAnimationRecursive jt s f joint T out = .ok out' ∧
        out'.jointPositions = some (l ++ l') ∧
        l'.map some = (SkeletonJoint.preorderWithAncestors anc joint).map
          (claimedPosition jt f s T0)
  | .mk name children offset, anc, T, out, l, hT, hl, hdef => by
    rw [QuerySkeletalAnimationRecursive]
    simp only [SkeletonJoint.preorderWithAncestors, List.map_cons]
    have hhead : claimedPosition jt f s T0 (anc, .mk name children offset) =
        some (worldPosition T offset s) := by
      simp [claimedPosition, hT, worldPosition_eq, SkeletonJoint.GetLocalOffset]
    by_cases hc : children.length = 0
    · have hnil : children = [] := List.length_eq_zero.mp hc
      subst hnil
      refine ⟨{ cumulativeTransformsByName := out.cumulativeTransformsByName.map
                  (fun m => m.emplaceIfAbsent name T)
                jointPositions := out.jointPositions.map (fun l => l ++ [worldPosition T offset s])
                jointPositionsByName := out.jointPositionsByName.map
                  (fun m => m.emplaceIfAbsent name (worldPosition T offset s))
                segmentPositions := out.segmentPositions },
        [worldPosition T offset s], ?_, ?_, ?_⟩
      · simp [QuerySkeletalAnimationChildren]
      · simp [hl]
      · simp [hhead, SkeletonJoint.preorderWithAncestorsList]
    · -- the local transform of this joint is defined, because a child needs it
      obtain ⟨child, rest, hcr⟩ := List.exists_cons_of_ne_nil
        (fun h : children = [] => hc (by simp [h]))
      have hchild : claimedPosition jt f s T0 (anc ++ [.mk name children offset], child) ≠ none := by
        apply hdef
        simp only [SkeletonJoint.preorderWithAncestors, List.mem_cons]
        right
        rw [hcr, SkeletonJoint.preorderWithAncestorsList]
        apply List.mem_append_left
        cases child with
        | mk n c o => simp [SkeletonJoint.preorderWithAncestors]
      have hchain : ∃ L, localTransformAt jt f (.mk name children offset) = some L := by
        simp only [claimedPosition, chainTransform_append, hT, ne_eq, Option.map_eq_none'] at hchild
        cases hL : localTransformAt jt f (.mk name children offset) with
        | none => simp [hL] at hchild
        | some L => exact ⟨L, rfl⟩
      obtain ⟨L, hL⟩ := hchain
      have hL' : (jt.getVector name)[f]? = some L := hL
      have hnext : chainTransform jt f T0 (anc ++ [.mk name children offset]) = some (T.mul L) := by
        simp [chainTransform_append, hT, hL]
      obtain ⟨out', l', h1, h2, h3⟩ := QuerySkeletalAnimationChildren_positions jt s f T0 children
        (anc ++ [.mk name children offset]) (T.mul L)
        { cumulativeTransformsByName := out.cumulativeTransformsByName.map
            (fun m => m.emplaceIfAbsent name T)
          jointPositions := out.jointPositions.map (fun l => l ++ [worldPosition T offset s])
          jointPositionsByName := out.jointPositionsByName.map
            (fun m => m.emplaceIfAbsent name (worldPosition T offset s))
          segmentPositions := out.segmentPositions }
        (l ++ [worldPosition T offset s]) hnext (by simp [hl])
        (fun entry he => hdef entry (by
          simp only [SkeletonJoint.preorderWithAncestors, List.mem_cons]
          exact Or.inr he))
      refine ⟨out', worldPosition T offset s :: l', ?_, ?_, ?_⟩
      · simp only [hc, if_false, hL', Outcome.ofOption, Outcome.ok_bind, Outcome.pure_eq_ok]
        exact h1
      · rw [h2]; simp
      · simp [hhead, h3]
theorem QuerySkeletalAnimationChildren_positions (jt : JointTransforms α) (s : α) (f : Nat)
    (T0 : Transform α) :
    ∀ (children : List (SkeletonJoint α)) (anc : List (SkeletonJoint α)) (T : Transform α)
      (out : QueryOutputs α) (l : List (Vec3 α)),
      chainTransform jt f T0 anc = some T →
      out.jointPositions = some l →
      (∀ entry ∈ SkeletonJoint.preorderWithAncestorsList anc children,
        claimedPosition jt f s T0 entry ≠ none) →
      ∃ out' l', QuerySkeletalAnimationChildren jt s f children T out = .ok out' ∧
        out'.jointPositions = some (l ++ l') ∧
        l'.map some = (SkeletonJoint.preorderWithAncestorsList anc children).map
          (claimedPosition jt f s T0)
  | [], anc, T, out, l, hT, hl, hdef => by
    refine ⟨out, [], ?_, ?_, ?_⟩
    · rw [QuerySkeletalAnimationChildren]; rfl
    · simp [hl]
    · simp [SkeletonJoint.preorderWithAncestorsList]
  | child :: rest, anc, T, out, l, hT, hl, hdef => by
    rw [QuerySkeletalAnimationChildren]
    simp only [SkeletonJoint.preorderWithAncestorsList, List.map_append]
    obtain ⟨out1, l1, h1, h2, h3⟩ := QuerySkeletalAnimationRecursive_positions jt s f T0 child anc T
      { out with
        segmentPositions := out.segmentPositions.map
          (fun l => l ++ [(T.GetOrigin.scale s, worldPosition T child.GetLocalOffset s)]) }
      l hT hl
      (fun entry he => hdef entry (by
        rw [SkeletonJoint.preorderWithAncestorsList]
        exact List.mem_append_left _ he))
    obtain ⟨out2, l2, k1, k2, k3⟩ := QuerySkeletalAnimationChildren_positions jt s f T0 rest anc T
      out1 (l ++ l1) hT h2
      (fun entry he => hdef entry (by
        rw [SkeletonJoint.preorderWithAncestorsList]
        exact List.mem_append_right _ he))
    refine ⟨out2, l1 ++ l2, ?_, ?_, ?_⟩
    · rw [h1]
      exact k1
    · rw [k2, List.append_assoc]
    · rw [List.map_append, h3, k3]
end

/-- C8: for a model, a frame `f` and a skeleton `k` that are in range (root `k`
exists, the start transform `T0` exists, and the table holds the local transform
at frame `f` of every ancestor), `QuerySkeletalAnimation` called with an empty
`jointPositions` list returns, and the list then holds exactly one position per
joint of the skeleton in pre-order, the position of a joint `j` with ancestors
`a1..an` being `skeletonScale * (T0 * L(a1) * ... * L(an)).TransformPoint(offset(j))`. -/
theorem QuerySkeletalAnimation_jointPositions (model : SkeletalMotion α) (f k : Nat)
    (addRootOffset : Bool) (out0 : QueryOutputs α) (root : SkeletonJoint α) (T0 : Transform α)
    (hout : out0.jointPositions = some [])
    (hroot : model.m_skeletonRoots[k]? = some root)
    (hT0 : initialTransform model.m_rootTrajectories f k addRootOffset = some T0)
    (hdef : ∀ entry ∈ SkeletonJoint.preorderWithAncestors [] root,
      claimedPosition model.m_jointTransforms f model.m_skeletonScale T0 entry ≠ none) :
    ∃ out positions, model.QuerySkeletalAnimation f k addRootOffset out0 = .ok out ∧
      out.jointPositions = some positions ∧
      positions.map some = (SkeletonJoint.preorderWithAncestors [] root).map
        (claimedPosition model.m_jointTransforms f model.m_skeletonScale T0) := by
  obtain ⟨out, l, h1, h2, h3⟩ := QuerySkeletalAnimationRecursive_positions
    model.m_jointTransforms model.m_skeletonScale f T0 root [] T0 out0 [] rfl hout hdef
  refine ⟨out, l, ?_, by simpa using h2, h3⟩
  unfold SkeletalMotion.QuerySkeletalAnimation
  rw [if_neg (by simp [hout]), hroot]
  simp only [Outcome.ofOption, Outcome.ok_bind]
  cases addRootOffset with
  | false =>
    simp only [initialTransform, Bool.false_eq_true, if_false, Option.some.injEq] at hT0
    subst hT0
    simpa using h1
  | true =>
    simp only [initialTransform, if_true] at hT0
    cases hrt : model.m_rootTrajectories[f]? with
    | none => simp [hrt] at hT0
    | some trajectory =>
      rw [hrt] at hT0
      cases hk : trajectory[k]? with
      | none => simp [hk] at hT0
      | some origin =>
        simp only [hk, Option.map_some', Option.some.injEq] at hT0
        subst hT0
        simpa [hk] using h1

/-- The theorem on joint positions, at a root `Hips` with one leaf child, no root
offset and scale 1. -/
theorem QuerySkeletalAnimation_jointPositions_witness :
    ∃ out positions,
      modelHipsLeaf.QuerySkeletalAnimation 0 0 false
        { jointPositions := some [], jointPositionsByName := none,
          segmentPositions := none, cumulativeTransformsByName := none } = .ok out ∧
      out.jointPositions = some positions ∧
      positions.map some =
        (SkeletonJoint.preorderWithAncestors []
          (.mk "Hips" [.mk "Hips_end" [] ⟨0, 10, 0⟩] ⟨0, 0, 0⟩)).map
          (claimedPosition modelHipsLeaf.m_jointTransforms 0 modelHipsLeaf.m_skeletonScale
            Transform.identity) :=
  QuerySkeletalAnimation_jointPositions modelHipsLeaf 0 0 false _ _ Transform.identity rfl rfl rfl
    (by decide)

end QueryTheorems

/-- For the root `Hips` with a quarter turn as local transform and a leaf child at
local offset `(0, 10, 0)`, the query returns the position `(0, 0, 0)` of the root
and the position `(-10, 0, 0)` of the child: the local transform of `Hips` applied
to the local offset of the child. -/
theorem QuerySkeletalAnimation_hips_leaf :
    (modelHipsLeaf.QuerySkeletalAnimation 0 0 false
        { jointPositions := some [], jointPositionsByName := none,
          segmentPositions := none, cumulativeTransformsByName := none }).bind
      (fun out => .ok out.jointPositions) = .ok (some [⟨0, 0, 0⟩, ⟨-10, 0, 0⟩]) ∧
    (Transform.ofRotationOrigin (Mat3.ofScalars 0 1 0 (-1) 0 0 0 0 1)
      (⟨0, 0, 0⟩ : Vec3 ℚ)).TransformPoint ⟨0, 10, 0⟩ = ⟨-10, 0, 0⟩ := by
  constructor <;>
  norm_num [SkeletalMotion.QuerySkeletalAnimation, modelHipsLeaf, QuerySkeletalAnimationRecursive,
    QuerySkeletalAnimationChildren, Outcome.ofOption, worldPosition, Transform.identity,
    Transform.mulVec4, Transform.mul, Mat4.mul, Mat4.mulVec, Mat4.one, Vec4.scale, Vec4.xyz,
    Vec4.ofVec3, Outcome.bind, UMap.getVector, UMap.find, UMap.insert, UMap.empty,
    Transform.ofRotationOrigin, Mat3.ofScalars, Transform.TransformPoint, Transform.GetOrigin,
    SkeletonJoint.GetLocalOffset, Vec3.scale]

/-! ## The normalized scale -/

section
variable {α : Type} [LinearOrderedField α]

mutual
/-- The traversal of a joint appends the position of the joint and more. -/
theorem QuerySkeletalAnimationRecursive_appends (jt : JointTransforms α) (s : α) (f : Nat) :
    ∀ (joint : SkeletonJoint α) (T : Transform α) (out out' : QueryOutputs α) (l : List (Vec3 α)),
      QuerySkeletalAnimationRecursive jt s f joint T out = .ok out' →
      out.jointPositions = some l →
      ∃ p l', out'.jointPositions = some (l ++ p :: l')
  | .mk name children offset, T, out, out', l, h, hl => by
    rw [QuerySkeletalAnimationRecursive] at h
    by_cases hc : children.length = 0
    · simp only [hc, if_true, Outcome.pure_eq_ok, Outcome.ok_bind] at h
      obtain ⟨l', hl'⟩ := QuerySkeletalAnimationChildren_appends jt s f children _ _ out'
        (l ++ [worldPosition T offset s]) h (by simp [hl])
      exact ⟨worldPosition T offset s, l', by rw [hl']; simp⟩
    · simp only [hc, if_false, Outcome.bind_eq_ok, Outcome.pure_eq_ok] at h
      obtain ⟨L, -, T', -, h⟩ := h
      obtain ⟨l', hl'⟩ := QuerySkeletalAnimationChildren_appends jt s f children _ _ out'
        (l ++ [worldPosition T offset s]) h (by simp [hl])
      exact ⟨worldPosition T offset s, l', by rw [hl']; simp⟩
/-- The traversal of a list of children only appends positions. -/
theorem QuerySkeletalAnimationChildren_appends (jt : JointTransforms α) (s : α) (f : Nat) :
    ∀ (children : List (SkeletonJoint α)) (T : Transform α) (out out' : QueryOutputs α)
      (l : List (Vec3 α)),
      QuerySkeletalAnimationChildren jt s f children T out = .ok out' →
      out.jointPositions = some l →
      ∃ l', out'.jointPositions = some (l ++ l')
  | [], T, out, out', l, h, hl => by
    rw [QuerySkeletalAnimationChildren] at h
    simp only [Outcome.pure_eq_ok, Outcome.ok.injEq] at h
    subst h
    exact ⟨[], by simp [hl]⟩
  | child :: rest, T, out, out', l, h, hl => by
    rw [QuerySkeletalAnimationChildren] at h
    simp only [Outcome.bind_eq_ok] at h
    obtain ⟨out1, h1, h2⟩ := h
    obtain ⟨p, l1, hl1⟩ := QuerySkeletalAnimationRecursive_appends jt s f child T _ out1 l h1 hl
    obtain ⟨l2, hl2⟩ := QuerySkeletalAnimationChildren_appends jt s f rest T out1 out' _ h2 hl1
    exact ⟨p :: l1 ++ l2, by rw [hl2]; simp⟩
end

mutual
/-- The traversal of a joint divides nothing. -/
theorem QuerySkeletalAnimationRecursive_no_division (jt : JointTransforms α) (s : α) (f : Nat) :
    ∀ (joint : SkeletonJoint α) (T : Transform α) (out : QueryOutputs α),
      QuerySkeletalAnimationRecursive jt s f joint T out ≠ .divByZero
  | .mk name children offset, T, out => by
    rw [QuerySkeletalAnimationRecursive]
    by_cases hc : children.length = 0
    · simp only [hc, if_true, Outcome.pure_eq_ok, Outcome.ok_bind]
      exact QuerySkeletalAnimationChildren_no_division jt s f children _ _
    · simp only [hc, if_false]
      cases (jt.getVector name)[f]? with
      | none => simp [Outcome.ofOption]
      | some L =>
        simp only [Outcome.ofOption, Outcome.ok_bind, Outcome.pure_eq_ok]
        exact QuerySkeletalAnimationChildren_no_division jt s f children _ _
/-- The traversal of a list of children divides nothing. -/
theorem QuerySkeletalAnimationChildren_no_division (jt : JointTransforms α) (s : α) (f : Nat) :
    ∀ (children : List (SkeletonJoint α)) (T : Transform α) (out : QueryOutputs α),
      QuerySkeletalAnimationChildren jt s f children T out ≠ .divByZero
  | [], T, out => by
    rw [QuerySkeletalAnimationChildren]
    simp
  | child :: rest, T, out => by
    rw [QuerySkeletalAnimationChildren]
    have h1 := QuerySkeletalAnimationRecursive_no_division jt s f child T
      { out with
        segmentPositions := out.segmentPositions.map
          (fun l => l ++ [(T.GetOrigin.scale s, worldPosition T child.GetLocalOffset s)]) }
    cases hr : QuerySkeletalAnimationRecursive jt s f child T
      { out with
        segmentPositions := out.segmentPositions.map
          (fun l => l ++ [(T.GetOrigin.scale s, worldPosition T child.GetLocalOffset s)]) } with
    | ok out1 =>
      simp only [Outcome.ok_bind]
      exact QuerySkeletalAnimationChildren_no_division jt s f rest T out1
    | outOfRange => simp
    | divByZero => exact absurd hr h1
    | timeout => simp
end

end

/-- C9: for a single joint at distance 5 from the origin and the multiplier 2, the
query of frame 0 at scale 1 returns the position `(0, 5, 0)`, of magnitude 5, and
`SetNormalizedScaleWithMultiplier` sets the scale to `2 / 3`, with the scale 1 in
force and with the scale 2 in force alike, and not to `2 / 5`: it divides by
`position.length()`, the number of components of a `vec3`, and by no magnitude. -/
theorem SetNormalizedScaleWithMultiplier_divides_by_component_count :
    ((modelSingleJoint 1 ⟨0, 5, 0⟩).QuerySkeletalAnimation 0 0 false
        { jointPositions := some [], jointPositionsByName := none,
          segmentPositions := none, cumulativeTransformsByName := none }).bind
      (fun out => .ok out.jointPositions) = .ok (some [⟨0, 5, 0⟩]) ∧
    (0 : ℚ) * 0 + 5 * 5 + 0 * 0 = 5 * 5 ∧
    ((modelSingleJoint 1 ⟨0, 5, 0⟩).SetNormalizedScaleWithMultiplier 2).bind
      (fun m => .ok m.m_skeletonScale) = .ok (2 / 3) ∧
    ((modelSingleJoint 2 ⟨0, 5, 0⟩).SetNormalizedScaleWithMultiplier 2).bind
      (fun m => .ok m.m_skeletonScale) = .ok (2 / 3) ∧
    (2 / 3 : ℚ) ≠ 2 / 5 := by
  refine ⟨?_, ?_, ?_, ?_, ?_⟩ <;>
  norm_num [SkeletalMotion.SetNormalizedScaleWithMultiplier, SkeletalMotion.QuerySkeletalAnimation,
    modelSingleJoint, QuerySkeletalAnimationRecursive, QuerySkeletalAnimationChildren,
    Outcome.ofOption, worldPosition, Transform.identity, Transform.mulVec4, Mat4.mulVec, Mat4.one,
    Vec4.scale, Vec4.xyz, SkeletalMotion.maxLengthLoop, Vec3.length, fdiv, Outcome.bind]

/-! ## Composition of transforms -/

section AffineTheorems

variable {α : Type} [LinearOrderedField α]

/-- The identity transform has the fourth row `(0, 0, 0, 1)`. -/
theorem Transform.isAffine_identity : (Transform.identity : Transform α).IsAffine := by
  simp [Transform.IsAffine, Transform.identity, Mat4.one]

/-- A transform built from a rotation and an origin has the fourth row `(0, 0, 0, 1)`. -/
theorem Transform.isAffine_ofRotationOrigin (R : Mat3 α) (o : Vec3 α) :
    (Transform.ofRotationOrigin R o).IsAffine := by
  simp [Transform.IsAffine, Transform.ofRotationOrigin]

/-- `SetOrigin` yields the fourth row `(0, 0, 0, 1)`. -/
theorem Transform.isAffine_SetOrigin (t : Transform α) (o : Vec3 α) : (t.SetOrigin o).IsAffine := by
  simp [Transform.IsAffine, Transform.SetOrigin]

/-- `SetRotation` yields the fourth row `(0, 0, 0, 1)`. -/
theorem Transform.isAffine_SetRotation (t : Transform α) (R : Mat3 α) :
    (t.SetRotation R).IsAffine := by
  simp [Transform.IsAffine, Transform.SetRotation]

/-- `GetInverse` yields the fourth row `(0, 0, 0, 1)`. -/
theorem Transform.isAffine_GetInverse (t : Transform α) : t.GetInverse.IsAffine := by
  simp [Transform.IsAffine, Transform.GetInverse, Transform.ofRotationOrigin]

/-- The product of two transforms with the fourth row `(0, 0, 0, 1)` has it as well. -/
theorem Transform.isAffine_mul (a b : Transform α) (ha : a.IsAffine) (hb : b.IsAffine) :
    (a.mul b).IsAffine := by
  obtain ⟨a0, a1, a2, a3⟩ := ha
  obtain ⟨b0, b1, b2, b3⟩ := hb
  simp [Transform.IsAffine, Transform.mul, Mat4.mul, Mat4.mulVec, a0, a1, a2, a3, b0, b1, b2, b3]

/-- C16: for all transforms `A` and `B` and every point `p`,
`(A * B).TransformPoint(p) = A.TransformPoint(B.TransformPoint(p))`, and for every
direction `d`, `Transform(R, o).Rotate(d) = R * d`.  A transform is a matrix with the
fourth row `(0, 0, 0, 1)`, as every constructor and member of the class yields;
the composition law uses this of `B`. -/
theorem Transform_mul_applies_right_factor_first (A B : Transform α) (hB : B.IsAffine)
    (p d : Vec3 α) (R : Mat3 α) (o : Vec3 α) :
    (A.mul B).TransformPoint p = A.TransformPoint (B.TransformPoint p) ∧
    (Transform.ofRotationOrigin R o).Rotate d = R.mulVec d := by
  obtain ⟨b0, b1, b2, b3⟩ := hB
  constructor
  · simp only [Transform.TransformPoint, Transform.mulVec4, Transform.mul, Mat4.mul, Mat4.mulVec,
      Vec4.xyz, Vec4.ofVec3, b0, b1, b2, b3, Vec3.mk.injEq]
    refine ⟨?_, ?_, ?_⟩ <;> ring
  · simp [Transform.Rotate, Transform.mulVec4, Transform.ofRotationOrigin, Mat4.mulVec,
      Vec4.xyz, Vec4.ofVec3, Mat3.mulVec]

end AffineTheorems

/-- The theorem on composition, at a quarter turn with origin `(1, 0, 0)` composed
with a translation by `(0, 2, 0)`, and the point `(0, 0, 3)`. -/
theorem Transform_mul_applies_right_factor_first_witness :
    ((Transform.ofRotationOrigin (Mat3.ofScalars 0 1 0 (-1) 0 0 0 0 1) (⟨1, 0, 0⟩ : Vec3 ℚ)).mul
        (Transform.ofRotationOrigin Mat3.one ⟨0, 2, 0⟩)).TransformPoint ⟨0, 0, 3⟩ =
      (Transform.ofRotationOrigin (Mat3.ofScalars 0 1 0 (-1) 0 0 0 0 1)
          (⟨1, 0, 0⟩ : Vec3 ℚ)).TransformPoint
        ((Transform.ofRotationOrigin Mat3.one ⟨0, 2, 0⟩).TransformPoint ⟨0, 0, 3⟩) ∧
    (Transform.ofRotationOrigin (Mat3.ofScalars 0 1 0 (-1) 0 0 0 0 1)
        (⟨5, 6, 7⟩ : Vec3 ℚ)).Rotate ⟨1, 0, 0⟩ =
      (Mat3.ofScalars 0 1 0 (-1) 0 0 0 0 1).mulVec ⟨1, 0, 0⟩ :=
  Transform_mul_applies_right_factor_first _ _ (Transform.isAffine_ofRotationOrigin _ _) _ _ _ _

/-! ## The scale of a pose -/

section ScaleTheorems

variable {α : Type} [LinearOrderedField α]

/-- The world position at scale `s` is `s` times the world position at scale 1. -/
theorem worldPosition_scale (T : Transform α) (p : Vec3 α) (s : α) :
    worldPosition T p s = Vec3.smul s (worldPosition T p 1) := by
  simp [worldPosition, Vec3.smul, Vec4.scale, Vec4.xyz, mul_comm]

/-- The scaled origin is `s` times the origin at scale 1. -/
theorem GetOrigin_scale (T : Transform α) (s : α) :
    T.GetOrigin.scale s = Vec3.smul s (T.GetOrigin.scale 1) := by
  simp [Vec3.scale, Vec3.smul, mul_comm]

/-- Storing a scaled position in a scaled map is scaling the map after storing. -/
theorem emplaceIfAbsent_scaled (m : UMap (Vec3 α)) (name : String) (v : Vec3 α) (s : α) :
    UMap.emplaceIfAbsent (fun key => (m key).map (Vec3.smul s)) name (Vec3.smul s v) =
      (fun key => ((m.emplaceIfAbsent name v) key).map (Vec3.smul s)) := by
  funext key
  cases hm : m name with
  | none =>
    by_cases hk : key = name
    · simp [UMap.emplaceIfAbsent, UMap.find, UMap.insert, hm, hk]
    · simp [UMap.emplaceIfAbsent, UMap.find, UMap.insert, hm, hk]
  | some w => simp [UMap.emplaceIfAbsent, UMap.find, hm]

/-! The traversal at scale `s`, started with scaled outputs, yields the scaled outputs of
the traversal at scale 1, and fails where that one fails. -/

mutual
theorem QuerySkeletalAnimationRecursive_scaled (jt : JointTransforms α) (s : α) (f : Nat) :
    ∀ (joint : SkeletonJoint α) (T : Transform α) (out : QueryOutputs α),
      QuerySkeletalAnimationRecursive jt s f joint T (out.scaled s) =
        (QuerySkeletalAnimationRecursive jt 1 f joint T out).bind
          (fun out' => .ok (out'.scaled s))
  | .mk name children offset, T, out => by
    rw [QuerySkeletalAnimationRecursive, QuerySkeletalAnimationRecursive]
    have hout : ({ cumulativeTransformsByName := (out.scaled s).cumulativeTransformsByName.map
                     (fun m => m.emplaceIfAbsent name T)
                   jointPositions := (out.scaled s).jointPositions.map
                     (fun l => l ++ [worldPosition T offset s])
                   jointPositionsByName := (out.scaled s).jointPositionsByName.map
                     (fun m => m.emplaceIfAbsent name (worldPosition T offset s))
                   segmentPositions := (out.scaled s).segmentPositions } : QueryOutputs α) =
        QueryOutputs.scaled s
          { cumulativeTransformsByName := out.cumulativeTransformsByName.map
              (fun m => m.emplaceIfAbsent name T)
            jointPositions := out.jointPositions.map (fun l => l ++ [worldPosition T offset 1])
            jointPositionsByName := out.jointPositionsByName.map
              (fun m => m.emplaceIfAbsent name (worldPosition T offset 1))
            segmentPositions := out.segmentPositions } := by
      simp only [QueryOutputs.scaled, QueryOutputs.mk.injEq, Option.map_map, true_and, and_true]
      refine ⟨?_, ?_⟩
      · cases out.jointPositions with
        | none => rfl
        | some l => simp [worldPosition_scale T offset s]
      · cases out.jointPositionsByName with
        | none => rfl
        | some m =>
          simp only [Option.map_some', Function.comp, Option.some.injEq]
          rw [worldPosition_scale T offset s]
          exact emplaceIfAbsent_scaled m name _ s
    by_cases hc : children.length = 0
    · simp only [hc, if_true, Outcome.pure_eq_ok, Outcome.ok_bind]
      exact hout ▸ QuerySkeletalAnimationChildren_scaled jt s f children _ _
    · simp only [hc, if_false]
      cases hL : (jt.getVector name)[f]? with
      | none => rfl
      | some L =>
        simp only [Outcome.ofOption, Outcome.ok_bind, Outcome.pure_eq_ok]
        exact hout ▸ QuerySkeletalAnimationChildren_scaled jt s f children _ _
theorem QuerySkeletalAnimationChildren_scaled (jt : JointTransforms α) (s : α) (f : Nat) :
    ∀ (children : List (SkeletonJoint α)) (T : Transform α) (out : QueryOutputs α),
      QuerySkeletalAnimationChildren jt s f children T (out.scaled s) =
        (QuerySkeletalAnimationChildren jt 1 f children T out).bind
          (fun out' => .ok (out'.scaled s))
  | [], T, out => by
    rw [QuerySkeletalAnimationChildren, QuerySkeletalAnimationChildren]
    rfl
  | child :: rest, T, out => by
    rw [QuerySkeletalAnimationChildren, QuerySkeletalAnimationChildren]
    have hout : ({ out.scaled s with
          segmentPositions := (out.scaled s).segmentPositions.map
            (fun l => l ++ [(T.GetOrigin.scale s, worldPosition T child.GetLocalOffset s)]) } :
            QueryOutputs α) =
        QueryOutputs.scaled s
          { out with
            segmentPositions := out.segmentPositions.map
              (fun l => l ++ [(T.GetOrigin.scale 1, worldPosition T child.GetLocalOffset 1)]) } := by
      simp only [QueryOutputs.scaled, QueryOutputs.mk.injEq, Option.map_map, true_and, and_true]
      cases out.segmentPositions with
      | none => rfl
      | some l =>
        simp [worldPosition_scale T child.GetLocalOffset s, GetOrigin_scale T s]
    rw [hout, QuerySkeletalAnimationRecursive_scaled jt s f child T _]
    cases QuerySkeletalAnimationRecursive jt 1 f child T _ with
    | ok out1 =>
      simp only [Outcome.ok_bind]
      exact QuerySkeletalAnimationChildren_scaled jt s f rest T out1
    | outOfRange => rfl
    | divByZero => rfl
    | timeout => rfl
end

/-- Scaling leaves empty containers as they are. -/
theorem QueryOutputs.scaled_requested (s : α) (a b c d : Bool) :
    (QueryOutputs.requested a b c d : QueryOutputs α).scaled s = QueryOutputs.requested a b c d := by
  cases a <;> cases b <;> cases c <;> cases d <;>
    simp [QueryOutputs.scaled, QueryOutputs.requested] <;> rfl

/-- A query at scale `s` yields the scaled outputs of the query at scale 1. -/
theorem QuerySkeletalAnimation_scaled (model : SkeletalMotion α) (s : α) (f k : Nat)
    (addRootOffset : Bool) (out0 : QueryOutputs α) :
    (model.SetScale s).QuerySkeletalAnimation f k addRootOffset (out0.scaled s) =
      ((model.SetScale 1).QuerySkeletalAnimation f k addRootOffset out0).bind
        (fun out => .ok (out.scaled s)) := by
  unfold SkeletalMotion.QuerySkeletalAnimation
  have hnone : ((out0.scaled s).jointPositions.isNone ∧ (out0.scaled s).jointPositionsByName.isNone ∧
      (out0.scaled s).segmentPositions.isNone ∧ (out0.scaled s).cumulativeTransformsByName.isNone) ↔
      (out0.jointPositions.isNone ∧ out0.jointPositionsByName.isNone ∧
        out0.segmentPositions.isNone ∧ out0.cumulativeTransformsByName.isNone) := by
    simp [QueryOutputs.scaled]
  by_cases h : out0.jointPositions.isNone ∧ out0.jointPositionsByName.isNone ∧
      out0.segmentPositions.isNone ∧ out0.cumulativeTransformsByName.isNone
  · rw [if_pos (hnone.mpr h), if_pos h]
    rfl
  · rw [if_neg (fun h' => h (hnone.mp h')), if_neg h]
    simp only [SkeletalMotion.SetScale]
    cases (model.m_skeletonRoots[k]?) with
    | none => rfl
    | some root =>
      simp only [Outcome.ofOption, Outcome.ok_bind]
      cases addRootOffset with
      | false =>
        simp only [Bool.false_eq_true, if_false, Outcome.pure_eq_ok, Outcome.ok_bind]
        exact QuerySkeletalAnimationRecursive_scaled _ s f root _ out0
      | true =>
        simp only [if_true]
        cases model.m_rootTrajectories[f]? with
        | none => rfl
        | some trajectory =>
          simp only [Outcome.ok_bind]
          cases trajectory[k]? with
          | none => rfl
          | some origin =>
            simp only [Outcome.ok_bind, Outcome.pure_eq_ok]
            exact QuerySkeletalAnimationRecursive_scaled _ s f root _ out0

/-- C17: for every model, frame, skeleton and scale `s`, and whichever containers are
asked for, `QuerySkeletalAnimation` with `skeletonScale = s` returns what it returns
with `skeletonScale = 1` with every position of the list, of the name-keyed map and
of both ends of every segment pair multiplied by `s`, and with the same name-keyed
cumulative transforms; it fails exactly where the query at scale 1 fails. -/
theorem QuerySkeletalAnimation_positions_scale_linearly (model : SkeletalMotion α) (s : α)
    (f k : Nat) (addRootOffset positions byName segments transforms : Bool) :
    (model.SetScale s).QuerySkeletalAnimation f k addRootOffset
        (QueryOutputs.requested positions byName segments transforms) =
      ((model.SetScale 1).QuerySkeletalAnimation f k addRootOffset
        (QueryOutputs.requested positions byName segments transforms)).bind
        (fun out => .ok
          { jointPositions := out.jointPositions.map (fun l => l.map (Vec3.smul s))
            jointPositionsByName := out.jointPositionsByName.map
              (fun m => (fun key => (m key).map (Vec3.smul s) : UMap (Vec3 α)))
            segmentPositions := out.segmentPositions.map
              (fun l => l.map (fun segment => (Vec3.smul s segment.1, Vec3.smul s segment.2)))
            cumulativeTransformsByName := out.cumulativeTransformsByName }) := by
  have h := QuerySkeletalAnimation_scaled model s f k addRootOffset
    (QueryOutputs.requested positions byName segments transforms)
  rw [QueryOutputs.scaled_requested] at h
  exact h

end ScaleTheorems

/-! ## The name-keyed maps of a pose -/

section NameMapTheorems

variable {α : Type}

/-- The first joint of a name in two enumerations, one after the other. -/
theorem firstNamed_append {β : Type} (key : String)
    (g : List (SkeletonJoint α) × SkeletonJoint α → Option β)
    (E1 E2 : List (List (SkeletonJoint α) × SkeletonJoint α))
    (hg : ∀ e ∈ E1, g e ≠ none) :
    (firstNamed key (E1 ++ E2)).bind g =
      ((firstNamed key E1).bind g).or ((firstNamed key E2).bind g) := by
  unfold firstNamed
  rw [List.find?_append]
  cases h : E1.find? (fun entry => decide (entry.2.GetName = key)) with
  | none => simp
  | some e =>
    have hmem : e ∈ E1 := List.mem_of_find?_eq_some h
    cases hv : g e with
    | none => exact absurd hv (hg e hmem)
    | some v => simp [hv]

/-- What a map holds under a key after `emplace` guarded by `find`. -/
theorem emplaceIfAbsent_apply {β : Type} (m : UMap β) (name key : String) (v : β) :
    (m.emplaceIfAbsent name v) key = (m key).or (if name = key then some v else none) := by
  unfold UMap.emplaceIfAbsent UMap.find UMap.insert
  cases hm : m name with
  | none =>
    by_cases hk : key = name
    · subst hk; simp [hm]
    · have : ¬ name = key := fun e => hk e.symm
      simp [hk, this]
  | some w =>
    by_cases hk : name = key
    · subst hk; simp [hm]
    · simp [hk]

variable [LinearOrderedField α]

/-! The two name-keyed maps after the traversal of a subtree: what they held, and for
a new name what the first joint of this name in the subtree gives. -/

mutual
theorem QuerySkeletalAnimationRecursive_maps (jt : JointTransforms α) (s : α) (f : Nat)
    (T0 : Transform α) :
    ∀ (joint : SkeletonJoint α) (anc : List (SkeletonJoint α)) (T : Transform α)
      (out : QueryOutputs α) (mP : UMap (Vec3 α)) (mT : UMap (Transform α)),
      chainTransform jt f T0 anc = some T →
      out.jointPositionsByName = some mP →
      out.cumulativeTransformsByName = some mT →
      (∀ entry ∈ SkeletonJoint.preorderWithAncestors anc joint,
        chainTransform jt f T0 entry.1 ≠ none) →
      ∃ out' mP' mT', QuerySkeletalAnimationRecursive jt s f joint T out = .ok out' ∧
        out'.jointPositionsByName = some mP' ∧ out'.cumulativeTransformsByName = some mT' ∧
        ∀ key,
          mP' key = (mP key).or
            ((firstNamed key (SkeletonJoint.preorderWithAncestors anc joint)).bind
              (claimedPosition jt f s T0)) ∧
          mT' key = (mT key).or
            ((firstNamed key (SkeletonJoint.preorderWithAncestors anc joint)).bind
              (fun entry => chainTransform jt f T0 entry.1))
  | .mk name children offset, anc, T, out, mP, mT, hT, hP, hC, hdef => by
    rw [QuerySkeletalAnimationRecursive]
    have hhead : claimedPosition jt f s T0 (anc, .mk name children offset) =
        some (worldPosition T offset s) := by
      simp [claimedPosition, hT, worldPosition_eq, SkeletonJoint.GetLocalOffset]
    by_cases hc : children.length = 0
    · have hnil : children = [] := List.length_eq_zero.mp hc
      subst hnil
      refine ⟨{ cumulativeTransformsByName := out.cumulativeTransformsByName.map
                  (fun m => m.emplaceIfAbsent name T)
                jointPositions := out.jointPositions.map (fun l => l ++ [worldPosition T offset s])
                jointPositionsByName := out.jointPositionsByName.map
                  (fun m => m.emplaceIfAbsent name (worldPosition T offset s))
                segmentPositions := out.segmentPositions },
        mP.emplaceIfAbsent name (worldPosition T offset s),
        mT.emplaceIfAbsent name T, ?_, ?_, ?_, ?_⟩
      · simp [QuerySkeletalAnimationChildren]
      · simp [hP]
      · simp [hC]
      · intro key
        simp only [SkeletonJoint.preorderWithAncestors, SkeletonJoint.preorderWithAncestorsList,
          firstNamed, List.find?_cons, SkeletonJoint.GetName, emplaceIfAbsent_apply]
        by_cases hk : name = key
        · subst hk
          simp [hhead, hT]
        · simp [hk]
    · obtain ⟨child, rest, hcr⟩ := List.exists_cons_of_ne_nil
        (fun h : children = [] => hc (by simp [h]))
      have hchild : chainTransform jt f T0 (anc ++ [.mk name children offset]) ≠ none :=
        hdef (anc ++ [.mk name children offset], child) (by
          simp only [SkeletonJoint.preorderWithAncestors, List.mem_cons]
          right
          rw [hcr, SkeletonJoint.preorderWithAncestorsList]
          apply List.mem_append_left
          cases child with
          | mk n c o => simp [SkeletonJoint.preorderWithAncestors])
      have hchain : ∃ L, localTransformAt jt f (.mk name children offset) = some L := by
        cases hL : localTransformAt jt f (.mk name children offset) with
        | none => simp [chainTransform_append, hT, hL] at hchild
        | some L => exact ⟨L, rfl⟩
      obtain ⟨L, hL⟩ := hchain
      have hL' : (jt.getVector name)[f]? = some L := hL
      have hnext : chainTransform jt f T0 (anc ++ [.mk name children offset]) = some (T.mul L) := by
        simp [chainTransform_append, hT, hL]
      obtain ⟨out', mP', mT', h1, h2, h3, h4⟩ := QuerySkeletalAnimationChildren_maps jt s f T0
        children (anc ++ [.mk name children offset]) (T.mul L)
        { cumulativeTransformsByName := out.cumulativeTransformsByName.map
            (fun m => m.emplaceIfAbsent name T)
          jointPositions := out.jointPositions.map (fun l => l ++ [worldPosition T offset s])
          jointPositionsByName := out.jointPositionsByName.map
            (fun m => m.emplaceIfAbsent name (worldPosition T offset s))
          segmentPositions := out.segmentPositions }
        (mP.emplaceIfAbsent name (worldPosition T offset s)) (mT.emplaceIfAbsent name T)
        hnext (by simp [hP]) (by simp [hC])
        (fun entry he => hdef entry (by
          simp only [SkeletonJoint.preorderWithAncestors, List.mem_cons]
          exact Or.inr he))
      refine ⟨out', mP', mT', ?_, h2, h3, ?_⟩
      · simp only [hc, if_false, hL', Outcome.ofOption, Outcome.ok_bind, Outcome.pure_eq_ok]
        exact h1
      intro key
      obtain ⟨k1, k2⟩ := h4 key
      rw [k1, k2]
      simp only [SkeletonJoint.preorderWithAncestors, firstNamed, List.find?_cons,
        SkeletonJoint.GetName, emplaceIfAbsent_apply, Option.or_assoc]
      by_cases hk : name = key
      · subst hk
        simp [hhead, hT]
      · simp [hk]
theorem QuerySkeletalAnimationChildren_maps (jt : JointTransforms α) (s : α) (f : Nat)
    (T0 : Transform α) :
    ∀ (children : List (SkeletonJoint α)) (anc : List (SkeletonJoint α)) (T : Transform α)
      (out : QueryOutputs α) (mP : UMap (Vec3 α)) (mT : UMap (Transform α)),
      chainTransform jt f T0 anc = some T →
      out.jointPositionsByName = some mP →
      out.cumulativeTransformsByName = some mT →
      (∀ entry ∈ SkeletonJoint.preorderWithAncestorsList anc children,
        chainTransform jt f T0 entry.1 ≠ none) →
      ∃ out' mP' mT', QuerySkeletalAnimationChildren jt s f children T out = .ok out' ∧
        out'.jointPositionsByName = some mP' ∧ out'.cumulativeTransformsByName = some mT' ∧
        ∀ key,
          mP' key = (mP key).or
            ((firstNamed key (SkeletonJoint.preorderWithAncestorsList anc children)).bind
              (claimedPosition jt f s T0)) ∧
          mT' key = (mT key).or
            ((firstNamed key (SkeletonJoint.preorderWithAncestorsList anc children)).bind
              (fun entry => chainTransform jt f T0 entry.1))
  | [], anc, T, out, mP, mT, hT, hP, hC, hdef => by
    refine ⟨out, mP, mT, ?_, hP, hC, ?_⟩
    · rw [QuerySkeletalAnimationChildren]; rfl
    · intro key
      simp [SkeletonJoint.preorderWithAncestorsList, firstNamed]
  | child :: rest, anc, T, out, mP, mT, hT, hP, hC, hdef => by
    rw [QuerySkeletalAnimationChildren]
    have hd1 : ∀ entry ∈ SkeletonJoint.preorderWithAncestors anc child,
        chainTransform jt f T0 entry.1 ≠ none := fun entry he => hdef entry (by
      rw [SkeletonJoint.preorderWithAncestorsList]
      exact List.mem_append_left _ he)
    obtain ⟨out1, mP1, mT1, h1, h2, h3, h4⟩ := QuerySkeletalAnimationRecursive_maps jt s f T0
      child anc T
      { out with
        segmentPositions := out.segmentPositions.map
          (fun l => l ++ [(T.GetOrigin.scale s, worldPosition T child.GetLocalOffset s)]) }
      mP mT hT hP hC hd1
    obtain ⟨out2, mP2, mT2, k1, k2, k3, k4⟩ := QuerySkeletalAnimationChildren_maps jt s f T0
      rest anc T out1 mP1 mT1 hT h2 h3
      (fun entry he => hdef entry (by
        rw [SkeletonJoint.preorderWithAncestorsList]
        exact List.mem_append_right _ he))
    refine ⟨out2, mP2, mT2, ?_, k2, k3, ?_⟩
    · rw [h1]
      exact k1
    · intro key
      obtain ⟨a1, a2⟩ := h4 key
      obtain ⟨b1, b2⟩ := k4 key
      rw [b1, b2, a1, a2, SkeletonJoint.preorderWithAncestorsList]
      rw [firstNamed_append key _ _ _ (fun e he => by
          simpa [claimedPosition] using hd1 e he),
        firstNamed_append key _ _ _ hd1]
      simp [Option.or_assoc]
end

/-- C11: for a model, a frame `f` and a skeleton `k` that are in range (root `k` and
the start transform exist, and the table holds the local transform at frame `f` of
every ancestor), `QuerySkeletalAnimation` called with two empty name-keyed maps
returns; the keys of both maps are exactly the names of the joints of the skeleton,
and the position (the cumulative transform) stored under a name is that of the
first joint of this name in pre-order. -/
theorem QuerySkeletalAnimation_name_maps_first_visit (model : SkeletalMotion α) (f k : Nat)
    (addRootOffset : Bool) (out0 : QueryOutputs α) (root : SkeletonJoint α) (T0 : Transform α)
    (hP : out0.jointPositionsByName = some UMap.empty)
    (hC : out0.cumulativeTransformsByName = some UMap.empty)
    (hroot : model.m_skeletonRoots[k]? = some root)
    (hT0 : initialTransform model.m_rootTrajectories f k addRootOffset = some T0)
    (hdef : ∀ entry ∈ SkeletonJoint.preorderWithAncestors [] root,
      chainTransform model.m_jointTransforms f T0 entry.1 ≠ none) :
    ∃ out positionsByName transformsByName,
      model.QuerySkeletalAnimation f k addRootOffset out0 = .ok out ∧
      out.jointPositionsByName = some positionsByName ∧
      out.cumulativeTransformsByName = some transformsByName ∧
      ∀ key,
        (positionsByName.find key ≠ none ↔
          ∃ entry ∈ SkeletonJoint.preorderWithAncestors [] root, entry.2.GetName = key) ∧
        (transformsByName.find key ≠ none ↔
          ∃ entry ∈ SkeletonJoint.preorderWithAncestors [] root, entry.2.GetName = key) ∧
        positionsByName.find key =
          (firstNamed key (SkeletonJoint.preorderWithAncestors [] root)).bind
            (claimedPosition model.m_jointTransforms f model.m_skeletonScale T0) ∧
        transformsByName.find key =
          (firstNamed key (SkeletonJoint.preorderWithAncestors [] root)).bind
            (fun entry => chainTransform model.m_jointTransforms f T0 entry.1) := by
  obtain ⟨out, mP, mT, h1, h2, h3, h4⟩ := QuerySkeletalAnimationRecursive_maps
    model.m_jointTransforms model.m_skeletonScale f T0 root [] T0 out0 UMap.empty UMap.empty
    rfl hP hC hdef
  have hquery : model.QuerySkeletalAnimation f k addRootOffset out0 = .ok out := by
    unfold SkeletalMotion.QuerySkeletalAnimation
    rw [if_neg (by simp [hP]), hroot]
    simp only [Outcome.ofOption, Outcome.ok_bind]
    cases addRootOffset with
    | false =>
      simp only [initialTransform, Bool.false_eq_true, if_false, Option.some.injEq] at hT0
      subst hT0
      simpa using h1
    | true =>
      simp only [initialTransform, if_true] at hT0
      cases hrt : model.m_rootTrajectories[f]? with
      | none => simp [hrt] at hT0
      | some trajectory =>
        rw [hrt] at hT0
        cases hk : trajectory[k]? with
        | none => simp [hk] at hT0
        | some origin =>
          simp only [hk, Option.map_some', Option.some.injEq] at hT0
          subst hT0
          simpa [hk] using h1
  have hfind : ∀ key,
      (firstNamed key (SkeletonJoint.preorderWithAncestors [] root) ≠ none ↔
        ∃ entry ∈ SkeletonJoint.preorderWithAncestors [] root, entry.2.GetName = key) := by
    intro key
    unfold firstNamed
    rw [ne_eq, List.find?_eq_none]
    simp
  refine ⟨out, mP, mT, hquery, h2, h3, fun key => ?_⟩
  obtain ⟨k1, k2⟩ := h4 key
  have e1 : mP.find key = (firstNamed key (SkeletonJoint.preorderWithAncestors [] root)).bind
      (claimedPosition model.m_jointTransforms f model.m_skeletonScale T0) := by
    show mP key = _
    rw [k1]; simp [UMap.empty]
  have e2 : mT.find key = (firstNamed key (SkeletonJoint.preorderWithAncestors [] root)).bind
      (fun entry => chainTransform model.m_jointTransforms f T0 entry.1) := by
    show mT key = _
    rw [k2]; simp [UMap.empty]
  refine ⟨?_, ?_, e1, e2⟩
  · rw [← hfind key, e1]
    cases hfn : firstNamed key (SkeletonJoint.preorderWithAncestors [] root) with
    | none => simp
    | some entry =>
      have hmem : entry ∈ SkeletonJoint.preorderWithAncestors [] root :=
        List.mem_of_find?_eq_some hfn
      have := hdef entry hmem
      cases hch : chainTransform model.m_jointTransforms f T0 entry.1 with
      | none => exact absurd hch this
      | some T => simp [claimedPosition, hch]
  · rw [← hfind key, e2]
    cases hfn : firstNamed key (SkeletonJoint.preorderWithAncestors [] root) with
    | none => simp
    | some entry =>
      have hmem : entry ∈ SkeletonJoint.preorderWithAncestors [] root :=
        List.mem_of_find?_eq_some hfn
      have := hdef entry hmem
      simpa using this

end NameMapTheorems

/-- The theorem on the name-keyed maps, at a skeleton whose root and whose child are
both named `Hips`. -/
theorem QuerySkeletalAnimation_name_maps_first_visit_witness :
    ∃ out positionsByName transformsByName,
      modelRepeatedName.QuerySkeletalAnimation 0 0 false
        { jointPositions := none, jointPositionsByName := some UMap.empty,
          segmentPositions := none, cumulativeTransformsByName := some UMap.empty } = .ok out ∧
      out.jointPositionsByName = some positionsByName ∧
      out.cumulativeTransformsByName = some transformsByName ∧
      ∀ key,
        (positionsByName.find key ≠ none ↔
          ∃ entry ∈ SkeletonJoint.preorderWithAncestors [] skeletonRepeatedName,
            entry.2.GetName = key) ∧
        (transformsByName.find key ≠ none ↔
          ∃ entry ∈ SkeletonJoint.preorderWithAncestors [] skeletonRepeatedName,
            entry.2.GetName = key) ∧
        positionsByName.find key =
          (firstNamed key (SkeletonJoint.preorderWithAncestors [] skeletonRepeatedName)).bind
            (claimedPosition modelRepeatedName.m_jointTransforms 0 modelRepeatedName.m_skeletonScale
              Transform.identity) ∧
        transformsByName.find key =
          (firstNamed key (SkeletonJoint.preorderWithAncestors [] skeletonRepeatedName)).bind
            (fun entry => chainTransform modelRepeatedName.m_jointTransforms 0
              Transform.identity entry.1) :=
  QuerySkeletalAnimation_name_maps_first_visit modelRepeatedName 0 0 false _ _ Transform.identity
    rfl rfl rfl rfl (by decide)

/-! ## What a successful parse has read -/

section ReadingTheorems

variable {α : Type}

/-- Storing two lists of entries one after the other. -/
theorem applyEntries_append (ord : ChannelOrderings) (a b : List (String × List Int)) :
    applyEntries ord (a ++ b) = applyEntries (applyEntries ord a) b := by
  simp [applyEntries, List.foldl_append]

/-- A child call of `ParseJoint` that returns `NULL` keeps the loop of the enclosing
call at the same token for ever. -/
theorem ParseJointLoop_null_child_never_returns (lib : Lib α) (tokens : List String) (cur : Nat)
    (hJ : tokens[cur]? = some "JOINT") (fuel0 : Nat) (ord0 ord1 : ChannelOrderings)
    (hnull : ParseJoint lib tokens fuel0 cur ord0 =
      .ok ((none : Option (SkeletonJoint α × Nat)), ord1)) :
    ∀ (fuel start : Nat) (name : String) (offset : Vec3 α) (children : List (SkeletonJoint α))
      (ord : ChannelOrderings) (res : ParseResult α),
      ParseJointLoop lib tokens fuel start name offset cur children ord ≠ .ok res
  | 0, start, name, offset, children, ord, res => by simp [ParseJointLoop]
  | fuel + 1, start, name, offset, children, ord, res => by
    intro h
    rw [ParseJointLoop, tokenAt_eq_ok.mpr hJ] at h
    simp only [Outcome.ok_bind] at h
    rw [if_neg (by decide), if_pos trivial] at h
    obtain ⟨⟨r, o⟩, hr, hcont⟩ := Outcome.bind_eq_ok.mp h
    have hsame := ParseJoint_deterministic lib tokens cur hnull hr
    subst hsame
    exact ParseJointLoop_null_child_never_returns lib tokens cur hJ fuel0 ord0 ord1 hnull
      fuel start name offset children o res hcont

/-- A call of `ParseJoint` that returns a joint has read a joint block, and has
stored the entries of the headers in it. -/
theorem ParseJoint_reads (lib : Lib α) (tokens : List String) (fuel : Nat) :
    (∀ s ord joint e ord', ParseJoint lib tokens fuel s ord = .ok (some (joint, e), ord') →
      ∃ entries sites, ReadsJoint lib tokens s e joint entries sites ∧
        ord' = applyEntries ord entries) ∧
    (∀ start name offset cur children ord joint e ord',
      ParseJointLoop lib tokens fuel start name offset cur children ord =
        .ok (some (joint, e), ord') →
      ∃ more entries sites, ReadsBody lib tokens start name cur e more entries sites ∧
        joint = .mk name (children ++ more) offset ∧ ord' = applyEntries ord entries) := by
  induction fuel with
  | zero =>
    constructor
    · intro s ord joint e ord' h; simp [ParseJoint] at h
    · intro start name offset cur children ord joint e ord' h; simp [ParseJointLoop] at h
  | succ fuel ih =>
    obtain ⟨ihJ, ihL⟩ := ih
    constructor
    · intro s ord joint e ord' h
      rw [ParseJoint] at h
      simp only [Outcome.bind_eq_ok] at h
      obtain ⟨t2, ht2, h⟩ := h
      split_ifs at h with h2
      · simp at h
      simp only [Outcome.bind_eq_ok] at h
      obtain ⟨t3, ht3, h⟩ := h
      split_ifs at h with h3
      · simp at h
      simp only [Outcome.bind_eq_ok] at h
      obtain ⟨name, hname, offset, hoffset, t7, ht7, h⟩ := h
      split_ifs at h with h7
      · simp at h
      simp only [Outcome.bind_eq_ok] at h
      obtain ⟨t8, ht8, h⟩ := h
      simp only [ne_eq, not_not] at h2 h3 h7
      subst h2 h3 h7
      rw [tokenAt_eq_ok] at ht2 ht3 hname ht7 ht8
      split_ifs at h with h83 h86
      · simp only [Outcome.bind_eq_ok] at h
        obtain ⟨c0, hc0, c1, hc1, c2, hc2, h⟩ := h
        rw [tokenAt_eq_ok] at hc0 hc1 hc2
        subst h83
        obtain ⟨more, entries, sites, hb, hj, ho⟩ := ihL _ _ _ _ _ _ _ _ _ h
        refine ⟨(name, _) :: entries, sites, ⟨name, offset, _, s + 12, more, entries,
          ⟨ht2, ht3, hname, hoffset, ht7, Or.inl ⟨c0, c1, c2, ht8, hc0, hc1, hc2, rfl, rfl⟩⟩,
          hb, by simpa using hj, rfl⟩, ?_⟩
        rw [ho]; rfl
      · simp only [Outcome.bind_eq_ok] at h
        obtain ⟨c0, hc0, c1, hc1, c2, hc2, c3, hc3, c4, hc4, c5, hc5, h⟩ := h
        rw [tokenAt_eq_ok] at hc0 hc1 hc2 hc3 hc4 hc5
        subst h86
        obtain ⟨more, entries, sites, hb, hj, ho⟩ := ihL _ _ _ _ _ _ _ _ _ h
        refine ⟨(name, _) :: entries, sites, ⟨name, offset, _, s + 15, more, entries,
          ⟨ht2, ht3, hname, hoffset, ht7,
            Or.inr ⟨c0, c1, c2, c3, c4, c5, ht8, hc0, hc1, hc2, hc3, hc4, hc5, rfl, rfl⟩⟩,
          hb, by simpa using hj, rfl⟩, ?_⟩
        rw [ho]; rfl
      · simp at h
    · intro start name offset cur children ord joint e ord' h
      rw [ParseJointLoop] at h
      simp only [Outcome.bind_eq_ok] at h
      obtain ⟨t, ht, h⟩ := h
      rw [tokenAt_eq_ok] at ht
      split_ifs at h with hclose hjoint hend
      · simp only [Outcome.pure_eq_ok, Outcome.ok.injEq, Prod.mk.injEq, Option.some.injEq] at h
        obtain ⟨⟨rfl, rfl⟩, rfl⟩ := h
        subst hclose
        exact ⟨[], [], 0, ReadsBody.close _ _ _ ht, by simp, rfl⟩
      · subst hjoint
        simp only [Outcome.bind_eq_ok] at h
        obtain ⟨⟨r, o⟩, hr, h⟩ := h
        rcases r with _ | ⟨child, childEnd⟩
        · exact absurd h (ParseJointLoop_null_child_never_returns lib tokens cur ht fuel ord o hr
            fuel start name offset children o _)
        · dsimp only at h
          obtain ⟨childEntries, childSites, ⟨cname, coffset, caxes, body, grand, nested,
            hhead, hbody, hchild, hentries⟩, ho⟩ := ihJ _ _ _ _ _ hr
          obtain ⟨more, entries, sites, hb, hj, ho'⟩ := ihL _ _ _ _ _ _ _ _ _ h
          subst hchild hentries
          refine ⟨_ :: more, (cname, caxes) :: nested ++ entries, childSites + sites,
            ReadsBody.joint _ _ _ _ _ _ _ _ _ _ _ _ _ _ _ ht hhead hbody hb, ?_, ?_⟩
          · rw [hj]; simp
          · rw [ho', ho, ← applyEntries_append]
      · subst hend
        simp only [Outcome.bind_eq_ok] at h
        obtain ⟨t1, ht1, h⟩ := h
        rw [tokenAt_eq_ok] at ht1
        split_ifs at h with hsite
        · subst hsite
          simp only [Outcome.bind_eq_ok] at h
          obtain ⟨s2, hs2, h⟩ := h
          split_ifs at h with h2
          · simp at h
          simp only [Outcome.bind_eq_ok] at h
          obtain ⟨s3, hs3, h⟩ := h
          split_ifs at h with h3
          · simp at h
          simp only [Outcome.bind_eq_ok] at h
          obtain ⟨s7, hs7, h⟩ := h
          split_ifs at h with h7
          · simp at h
          simp only [Outcome.bind_eq_ok] at h
          obtain ⟨endOffset, hoff, h⟩ := h
          simp only [ne_eq, not_not] at h2 h3 h7
          subst h2 h3 h7
          rw [tokenAt_eq_ok] at hs2 hs3 hs7
          obtain ⟨more, entries, sites, hb, hj, ho⟩ := ihL _ _ _ _ _ _ _ _ _ h
          refine ⟨_ :: more, entries, sites + 1,
            ReadsBody.endSite _ _ _ _ _ _ _ _ ht ht1 hs2 hs3 hs7 hoff hb, ?_, ho⟩
          rw [hj]; simp
        · obtain ⟨more, entries, sites, hb, hj, ho⟩ := ihL _ _ _ _ _ _ _ _ _ h
          exact ⟨more, entries, sites,
            ReadsBody.skip _ _ _ _ _ _ _ _ ht (by decide) (by decide)
              (fun _ => ⟨t1, ht1, hsite⟩) hb, hj, ho⟩
      · obtain ⟨more, entries, sites, hb, hj, ho⟩ := ihL _ _ _ _ _ _ _ _ _ h
        exact ⟨more, entries, sites,
          ReadsBody.skip _ _ _ _ _ _ _ _ ht hclose hjoint (fun h => absurd h hend) hb, hj, ho⟩


/-! A joint has a child or has none. -/

mutual
theorem SkeletonJoint.nodeCount_eq : ∀ (joint : SkeletonJoint α),
    joint.nodeCount = joint.animatedCount + joint.leafCount
  | .mk name children offset => by
    simp only [SkeletonJoint.nodeCount, SkeletonJoint.animatedCount, SkeletonJoint.leafCount]
    rw [SkeletonJoint.nodeCountList_eq children]
    by_cases hc : children.length = 0
    · simp [hc]; omega
    · simp [hc]; omega
theorem SkeletonJoint.nodeCountList_eq : ∀ (children : List (SkeletonJoint α)),
    SkeletonJoint.nodeCountList children =
      SkeletonJoint.animatedCountList children + SkeletonJoint.leafCountList children
  | [] => by simp [SkeletonJoint.nodeCountList, SkeletonJoint.animatedCountList,
      SkeletonJoint.leafCountList]
  | child :: rest => by
    simp only [SkeletonJoint.nodeCountList, SkeletonJoint.animatedCountList,
      SkeletonJoint.leafCountList]
    rw [SkeletonJoint.nodeCount_eq child, SkeletonJoint.nodeCountList_eq rest]
    omega
end

/-! `QuerySkeleton` appends one entry for every joint of the tree but its root. -/

mutual
theorem QuerySkeleton_bones : ∀ (joint : SkeletonJoint α) (out : SkeletonOutputs α)
    (l : List (String × String)), out.bonesByJointNames = some l →
    ∃ l', (joint.QuerySkeleton out).bonesByJointNames = some (l ++ l') ∧
      l'.length + 1 = joint.nodeCount
  | .mk name children offset, out, l, hl => by
    rw [SkeletonJoint.QuerySkeleton]
    obtain ⟨l', h1, h2⟩ := QuerySkeletonChildren_bones name children
      { out with
        jointPointersByNames := out.jointPointersByNames.map
          (fun m => m.emplaceIfAbsent name (.mk name children offset)) } l hl
    exact ⟨l', h1, by simp [SkeletonJoint.nodeCount, h2]; omega⟩
theorem QuerySkeletonChildren_bones : ∀ (name : String) (children : List (SkeletonJoint α))
    (out : SkeletonOutputs α) (l : List (String × String)), out.bonesByJointNames = some l →
    ∃ l', (SkeletonJoint.QuerySkeletonChildren name children out).bonesByJointNames =
        some (l ++ l') ∧
      l'.length = SkeletonJoint.nodeCountList children
  | name, [], out, l, hl => by
    rw [SkeletonJoint.QuerySkeletonChildren]
    exact ⟨[], by simpa using hl, by simp [SkeletonJoint.nodeCountList]⟩
  | name, child :: rest, out, l, hl => by
    rw [SkeletonJoint.QuerySkeletonChildren]
    obtain ⟨l1, h1, h2⟩ := QuerySkeleton_bones child
      { out with
        bonesByJointNames := out.bonesByJointNames.map
          (fun bones => bones ++ [(name, child.GetName)]) }
      (l ++ [(name, child.GetName)]) (by simp [hl])
    obtain ⟨l2, k1, k2⟩ := QuerySkeletonChildren_bones name rest _ _ h1
    refine ⟨(name, child.GetName) :: l1 ++ l2, ?_, ?_⟩
    · rw [k1]; simp
    · simp [SkeletonJoint.nodeCountList, k2]; omega
end

/-- The edge lists of all roots hold one entry for every joint that is not a root. -/
theorem boneCount_eq : ∀ (roots : List (SkeletonJoint α)),
    boneCount roots + roots.length = SkeletonJoint.nodeCountList roots
  | [] => by simp [boneCount, SkeletonJoint.nodeCountList]
  | root :: rest => by
    obtain ⟨l', h1, h2⟩ := QuerySkeleton_bones root
      { jointPointersByNames := none, bonesByJointNames := some [] } [] rfl
    have := boneCount_eq rest
    simp only [boneCount, SkeletonJoint.nodeCountList, h1, List.nil_append, Option.getD_some,
      List.length_cons]
    omega

/-- The end of a body that was read is at or after its start and holds the closing brace. -/
theorem readsBody_end_brace {lib : Lib α} {tokens : List String} {start : Nat} {name : String}
    {cur e : Nat} {children : List (SkeletonJoint α)} {entries : List (String × List Int)}
    {sites : Nat} (h : ReadsBody lib tokens start name cur e children entries sites) :
    cur ≤ e ∧ tokens[e]? = some "\x7d" := by
  induction h with
  | close start name cur hc => exact ⟨Nat.le_refl _, hc⟩
  | joint start name cur childName childOffset childAxes body childEnd grandChildren childEntries
      childSites e rest entries sites hj hh hb hr ih1 ih2 =>
    obtain ⟨-, -, -, -, -, hbody⟩ := hh
    have : cur ≤ body := by
      rcases hbody with ⟨_, _, _, _, _, _, _, _, rfl⟩ | ⟨_, _, _, _, _, _, _, _, _, _, _, _, _, _, rfl⟩
      · omega
      · omega
    exact ⟨by omega, ih2.2⟩
  | endSite start name cur offset e rest entries sites _ _ _ _ _ _ _ ih => exact ⟨by omega, ih.2⟩
  | skip start name cur t e rest entries sites _ _ _ _ _ ih => exact ⟨by omega, ih.2⟩

/-- The joints a body yields: as many as it has `JOINT` headers and `End Site` blocks. -/
theorem readsBody_counts {lib : Lib α} {tokens : List String} {start : Nat} {name : String}
    {cur e : Nat} {children : List (SkeletonJoint α)} {entries : List (String × List Int)}
    {sites : Nat} (h : ReadsBody lib tokens start name cur e children entries sites) :
    SkeletonJoint.nodeCountList children = entries.length + sites ∧
    SkeletonJoint.animatedCountList children ≤ entries.length ∧
    sites ≤ SkeletonJoint.leafCountList children := by
  induction h with
  | close start name cur hc =>
    simp [SkeletonJoint.nodeCountList, SkeletonJoint.animatedCountList,
      SkeletonJoint.leafCountList]
  | joint start name cur childName childOffset childAxes body childEnd grandChildren childEntries
      childSites e rest entries sites hj hh hb hr ih1 ih2 =>
    obtain ⟨a1, a2, a3⟩ := ih1
    obtain ⟨b1, b2, b3⟩ := ih2
    simp only [SkeletonJoint.nodeCountList, SkeletonJoint.animatedCountList,
      SkeletonJoint.leafCountList, SkeletonJoint.nodeCount, SkeletonJoint.animatedCount,
      SkeletonJoint.leafCount, List.length_cons, List.length_append]
    refine ⟨by omega, ?_, by omega⟩
    by_cases hc : grandChildren.length = 0
    · simp [hc]; omega
    · simp [hc]; omega
  | endSite start name cur offset e rest entries sites _ _ _ _ _ _ _ ih =>
    obtain ⟨b1, b2, b3⟩ := ih
    simp only [SkeletonJoint.nodeCountList, SkeletonJoint.animatedCountList,
      SkeletonJoint.leafCountList, SkeletonJoint.nodeCount, SkeletonJoint.animatedCount,
      SkeletonJoint.leafCount, List.length_nil, if_true]
    refine ⟨by omega, by omega, by omega⟩
  | skip start name cur t e rest entries sites _ _ _ _ _ ih => exact ih

/-- The joints of a joint block: as many as it has headers and `End Site` blocks. -/
theorem readsJoint_counts {lib : Lib α} {tokens : List String} {s e : Nat}
    {joint : SkeletonJoint α} {entries : List (String × List Int)} {sites : Nat}
    (h : ReadsJoint lib tokens s e joint entries sites) :
    joint.nodeCount = entries.length + sites ∧ joint.animatedCount ≤ entries.length ∧
    sites ≤ joint.leafCount := by
  obtain ⟨name, offset, axes, body, children, nested, -, hb, rfl, rfl⟩ := h
  obtain ⟨b1, b2, b3⟩ := readsBody_counts hb
  simp only [SkeletonJoint.nodeCount, SkeletonJoint.animatedCount, SkeletonJoint.leafCount,
    List.length_cons]
  refine ⟨by omega, ?_, by omega⟩
  by_cases hc : children.length = 0
  · simp [hc]; omega
  · simp [hc]; omega

/-- The joints of a hierarchy block: as many as it has headers and `End Site` blocks. -/
theorem readsHierarchy_counts {lib : Lib α} {tokens : List String} {cur m : Nat}
    {roots : List (SkeletonJoint α)} {entries : List (String × List Int)} {sites : Nat}
    (h : ReadsHierarchy lib tokens cur m roots entries sites) :
    SkeletonJoint.nodeCountList roots = entries.length + sites ∧
    SkeletonJoint.animatedCountList roots ≤ entries.length ∧
    sites ≤ SkeletonJoint.leafCountList roots ∧ roots.length ≤ entries.length := by
  induction h with
  | motion cur hc =>
    simp [SkeletonJoint.nodeCountList, SkeletonJoint.animatedCountList,
      SkeletonJoint.leafCountList]
  | root cur e joint rootEntries rootSites m roots entries sites _ _ hj _ ih =>
    obtain ⟨a1, a2, a3⟩ := readsJoint_counts hj
    obtain ⟨b1, b2, b3, b4⟩ := ih
    have hpos : 1 ≤ rootEntries.length := by
      obtain ⟨_, _, _, _, _, _, _, _, _, rfl⟩ := hj
      simp
    simp only [SkeletonJoint.nodeCountList, SkeletonJoint.animatedCountList,
      SkeletonJoint.leafCountList, List.length_cons, List.length_append]
    refine ⟨by omega, by omega, by omega, by omega⟩
  | skip cur t m roots entries sites _ _ _ _ _ ih => exact ih

/-- A run of the first loop of `BVHImport` that ends at `MOTION` has read a hierarchy
block, and has stored the entries of the headers in it. -/
theorem hierarchyLoop_reads (lib : Lib α) (tokens : List String) :
    ∀ (fuel cur : Nat) (roots : List (SkeletonJoint α)) (ord : ChannelOrderings)
      (m : Nat) (roots' : List (SkeletonJoint α)) (ord' : ChannelOrderings),
      LoopReaches lib tokens cur →
      hierarchyLoop lib tokens fuel cur roots ord = .ok (some (m, roots', ord')) →
      ∃ newRoots entries sites, ReadsHierarchy lib tokens cur m newRoots entries sites ∧
        roots' = roots ++ newRoots ∧ ord' = applyEntries ord entries
  | 0, cur, roots, ord, m, roots', ord', _, h => by simp [hierarchyLoop] at h
  | fuel + 1, cur, roots, ord, m, roots', ord', hreach, h => by
    rw [hierarchyLoop] at h
    simp only [Outcome.bind_eq_ok] at h
    obtain ⟨t, ht, h⟩ := h
    rw [tokenAt_eq_ok] at ht
    split_ifs at h with h1 h2 h3
    · simp only [Outcome.pure_eq_ok, Outcome.ok.injEq, Option.some.injEq, Prod.mk.injEq] at h
      obtain ⟨rfl, rfl, rfl⟩ := h
      subst h1
      exact ⟨[], [], 0, ReadsHierarchy.motion _ ht, by simp, rfl⟩
    · simp at h
    · subst h3
      have hcur : cur ≠ 0 := fun h0 => h2 ⟨h0, by decide⟩
      simp only [Outcome.bind_eq_ok] at h
      obtain ⟨⟨r, o⟩, hr, h⟩ := h
      rcases r with _ | ⟨root, e⟩
      · exact absurd h (hierarchyLoop_never_returns lib tokens cur hreach ht hcur _ _ _ hr
          _ _ _ _)
      · dsimp only at h
        obtain ⟨rootEntries, rootSites, hj, ho⟩ := (ParseJoint_reads lib tokens fuel).1 _ _ _ _ _ hr
        obtain ⟨newRoots, entries, sites, hb, hroots, ho'⟩ :=
          hierarchyLoop_reads lib tokens fuel _ _ _ _ _ _
            (LoopReaches.root cur fuel ord o root e hreach ht hcur hr) h
        refine ⟨root :: newRoots, rootEntries ++ entries, rootSites + sites,
          ReadsHierarchy.root _ _ _ _ _ _ _ _ _ ht hcur hj hb, ?_, ?_⟩
        · rw [hroots]; simp
        · rw [ho', ho, applyEntries_append]
    · obtain ⟨newRoots, entries, sites, hb, hroots, ho'⟩ :=
        hierarchyLoop_reads lib tokens fuel _ _ _ _ _ _
          (LoopReaches.skip cur t hreach ht h1 h2 h3) h
      exact ⟨newRoots, entries, sites,
        ReadsHierarchy.skip _ _ _ _ _ _ ht h1 h3 (fun h0 => by
          by_contra hne
          exact h2 ⟨h0, hne⟩) hb, hroots, ho'⟩


/-- What the table holds under a name after entries were stored: the axes of the
last entry with this name, or what it held before. -/
theorem applyEntries_find : ∀ (entries : List (String × List Int)) (ord : ChannelOrderings)
    (key : String),
    (applyEntries ord entries).find key =
      ((entries.reverse.find? (fun entry => decide (entry.1 = key))).map Prod.snd).or
        (ord.find key)
  | [], ord, key => by simp [applyEntries]
  | entry :: rest, ord, key => by
    have ih := applyEntries_find rest (ord.insert entry.1 entry.2) key
    have hcons : applyEntries ord (entry :: rest) =
        applyEntries (ord.insert entry.1 entry.2) rest := rfl
    rw [hcons, ih, List.reverse_cons, List.find?_append]
    cases hfind : rest.reverse.find? (fun entry => decide (entry.1 = key)) with
    | some found => simp
    | none =>
      by_cases hk : entry.1 = key
      · simp [UMap.find, UMap.insert, hk]
      · have hk' : ¬ key = entry.1 := fun h => hk h.symm
        simp [UMap.find, UMap.insert, hk, hk']

/-- One iteration of the loop of `ParseJoint` at an `End Site` block. -/
theorem ParseJointLoop_at_end_site (lib : Lib α) (tokens : List String) (fuel start : Nat)
    (name : String) (offset : Vec3 α) (cur : Nat) (children : List (SkeletonJoint α))
    (ord : ChannelOrderings)
    (hEnd : tokens[cur]? = some "End") (hSite : tokens[cur + 1]? = some "Site")
    (hOpen : tokens[cur + 2]? = some "\x7b") (hOffset : tokens[cur + 3]? = some "OFFSET")
    (hClose : tokens[cur + 7]? = some "\x7d") :
    ParseJointLoop lib tokens (fuel + 1) start name offset cur children ord =
      (readOffset lib tokens start).bind (fun endOffset =>
        ParseJointLoop lib tokens fuel start name offset (cur + 8)
          (children ++ [.mk (name ++ "_end") [] endOffset]) ord) := by
  rw [ParseJointLoop, tokenAt_eq_ok.mpr hEnd]
  simp only [Outcome.ok_bind]
  rw [if_neg (by decide), if_neg (by decide), if_pos trivial, tokenAt_eq_ok.mpr hSite]
  simp only [Outcome.ok_bind]
  rw [if_pos trivial, tokenAt_eq_ok.mpr hOpen]
  simp only [Outcome.ok_bind]
  rw [if_neg (by simp), tokenAt_eq_ok.mpr hOffset]
  simp only [Outcome.ok_bind]
  rw [if_neg (by simp), tokenAt_eq_ok.mpr hClose]
  simp only [Outcome.ok_bind]
  rw [if_neg (by simp)]
  rfl

/-- C14: in a call of `ParseJoint` for the joint `name` whose loop stands at an
`End Site` block (index `cur`) and goes on to return a joint, the loop goes on behind
the block with one more child, named `name` followed by `_end` and without children,
and with the channel table as it was; the returned joint has this child right
after the children found before, and the final table is the table at `cur` with
only the entries of the `JOINT` headers read behind the block stored in it. -/
theorem ParseJointLoop_end_site_child (lib : Lib α) (tokens : List String) (fuel start : Nat)
    (name : String) (offset : Vec3 α) (cur : Nat) (children : List (SkeletonJoint α))
    (ord : ChannelOrderings) (joint : SkeletonJoint α) (e : Nat) (ord' : ChannelOrderings)
    (hEnd : tokens[cur]? = some "End") (hSite : tokens[cur + 1]? = some "Site")
    (hOpen : tokens[cur + 2]? = some "\x7b") (hOffset : tokens[cur + 3]? = some "OFFSET")
    (hClose : tokens[cur + 7]? = some "\x7d")
    (hrun : ParseJointLoop lib tokens fuel start name offset cur children ord =
      .ok (some (joint, e), ord')) :
    ∃ fuel' endOffset rest entries sites, fuel = fuel' + 1 ∧
      ParseJointLoop lib tokens fuel' start name offset (cur + 8)
        (children ++ [.mk (name ++ "_end") [] endOffset]) ord = .ok (some (joint, e), ord') ∧
      joint = .mk name (children ++ .mk (name ++ "_end") [] endOffset :: rest) offset ∧
      ReadsBody lib tokens start name (cur + 8) e rest entries sites ∧
      ord' = applyEntries ord entries := by
  cases fuel with
  | zero => simp [ParseJointLoop] at hrun
  | succ fuel' =>
    rw [ParseJointLoop_at_end_site lib tokens fuel' start name offset cur children ord
      hEnd hSite hOpen hOffset hClose] at hrun
    cases hoff : readOffset lib tokens start with
    | ok endOffset =>
      rw [hoff] at hrun
      obtain ⟨rest, entries, sites, hb, hj, ho⟩ :=
        (ParseJoint_reads lib tokens fuel').2 _ _ _ _ _ _ _ _ _ hrun
      exact ⟨fuel', endOffset, rest, entries, sites, rfl, hrun, by rw [hj]; simp, hb, ho⟩
    | outOfRange => rw [hoff] at hrun; exact absurd hrun (by simp [Outcome.bind])
    | divByZero => rw [hoff] at hrun; exact absurd hrun (by simp [Outcome.bind])
    | timeout => rw [hoff] at hrun; exact absurd hrun (by simp [Outcome.bind])

/-- A call of `ParseJoint` at or after index `hi`, and the loop of a call whose
offset tokens lie outside `lo..hi-1` once it is at or after `hi`, read no token
of the index range `lo..hi-1`. -/
theorem ParseJoint_ignores (lib : Lib α) (tokens tokens' : List String) (lo hi : Nat)
    (hagree : ∀ i, i < lo ∨ hi ≤ i → tokens'[i]? = tokens[i]?) (fuel : Nat) :
    (∀ s ord, hi ≤ s → ParseJoint lib tokens' fuel s ord = ParseJoint lib tokens fuel s ord) ∧
    (∀ start name offset cur children ord, hi ≤ cur → (start + 6 < lo ∨ hi ≤ start + 4) →
      ParseJointLoop lib tokens' fuel start name offset cur children ord =
        ParseJointLoop lib tokens fuel start name offset cur children ord) := by
  have e : ∀ i, i < lo ∨ hi ≤ i → tokenAt tokens' i = tokenAt tokens i := fun i h => by
    simp [tokenAt, hagree i h]
  have eo : ∀ start, (start + 6 < lo ∨ hi ≤ start + 4) →
      readOffset lib tokens' start = readOffset lib tokens start := fun start h => by
    unfold readOffset
    rw [e (start + 4) (by omega), e (start + 5) (by omega), e (start + 6) (by omega)]
  induction fuel with
  | zero => exact ⟨fun _ _ _ => rfl, fun _ _ _ _ _ _ _ _ => rfl⟩
  | succ fuel ih =>
    obtain ⟨ihJ, ihL⟩ := ih
    constructor
    · intro s ord hs
      rw [ParseJoint, ParseJoint]
      simp only [e (s + 1) (by omega), e (s + 2) (by omega),
        e (s + 3) (by omega), e (s + 7) (by omega), e (s + 8) (by omega), e (s + 9) (by omega),
        e (s + 10) (by omega), e (s + 11) (by omega), e (s + 12) (by omega),
        e (s + 13) (by omega), e (s + 14) (by omega), eo s (by omega)]
      repeat' first
        | with_reducible exact ihL _ _ _ _ _ _ (by omega) (by omega)
        | with_reducible rfl
        | (with_reducible refine Outcome.bind_congr_fun _ ?_; intro _)
        | split_ifs
    · intro start name offset cur children ord hcur hstart
      rw [ParseJointLoop, ParseJointLoop]
      simp only [e cur (by omega), e (cur + 1) (by omega),
        e (cur + 2) (by omega), e (cur + 3) (by omega), e (cur + 7) (by omega), eo start hstart,
        ihJ cur ord hcur]
      refine Outcome.bind_congr_fun _ ?_
      intro t
      split_ifs
      · rfl
      · refine Outcome.bind_congr_ok ?_
        rintro ⟨r, o⟩ hr
        rcases r with _ | ⟨child, childEnd⟩
        · exact ihL _ _ _ _ _ _ hcur hstart
        · obtain ⟨_, _, ⟨_, _, _, body, _, _, hh, hb, _, _⟩, _⟩ :=
            (ParseJoint_reads lib tokens fuel).1 _ _ _ _ _ hr
          have := (readsBody_end_brace hb).1
          have hbody : cur ≤ body := by
            obtain ⟨-, -, -, -, -, hchan⟩ := hh
            rcases hchan with ⟨_, _, _, _, _, _, _, _, rfl⟩ |
              ⟨_, _, _, _, _, _, _, _, _, _, _, _, _, _, rfl⟩
            · omega
            · omega
          exact ihL _ _ _ _ _ _ (by omega) hstart
      · repeat' first
          | with_reducible exact ihL _ _ _ _ _ _ (by omega) hstart
          | with_reducible rfl
          | (with_reducible refine Outcome.bind_congr_fun _ ?_; intro _)
          | split_ifs
      · exact ihL _ _ _ _ _ _ (by omega) hstart

/-- C15: in a call of `ParseJoint` started at index `start` whose loop stands at an
`End Site` block (index `cur`, which is at least `start + 12`) and goes on to return
a joint, the local offset of the leaf made for the block is read from the three
tokens after the `OFFSET` of the enclosing joint, `tokens[start + 4..6]`; and on every
stream that differs at most in the three tokens after the `OFFSET` of the `End Site`,
`tokens[cur + 4..6]`, the loop returns the same joint, end index and table. -/
theorem ParseJointLoop_end_site_offset (lib : Lib α) (tokens : List String) (fuel start : Nat)
    (name : String) (offset : Vec3 α) (cur : Nat) (children : List (SkeletonJoint α))
    (ord : ChannelOrderings) (joint : SkeletonJoint α) (e : Nat) (ord' : ChannelOrderings)
    (hbody : start + 12 ≤ cur)
    (hEnd : tokens[cur]? = some "End") (hSite : tokens[cur + 1]? = some "Site")
    (hOpen : tokens[cur + 2]? = some "\x7b") (hOffset : tokens[cur + 3]? = some "OFFSET")
    (hClose : tokens[cur + 7]? = some "\x7d")
    (hrun : ParseJointLoop lib tokens fuel start name offset cur children ord =
      .ok (some (joint, e), ord')) :
    (∃ px py pz rest, tokens[start + 4]? = some px ∧ tokens[start + 5]? = some py ∧
      tokens[start + 6]? = some pz ∧
      joint = .mk name (children ++
        .mk (name ++ "_end") [] ⟨lib.atof px, lib.atof py, lib.atof pz⟩ :: rest) offset) ∧
    (∀ tokens' : List String,
      (∀ i, i ≠ cur + 4 → i ≠ cur + 5 → i ≠ cur + 6 → tokens'[i]? = tokens[i]?) →
      ParseJointLoop lib tokens' fuel start name offset cur children ord =
        .ok (some (joint, e), ord')) := by
  cases fuel with
  | zero => simp [ParseJointLoop] at hrun
  | succ fuel' =>
    have hstep := ParseJointLoop_at_end_site lib tokens fuel' start name offset cur children ord
      hEnd hSite hOpen hOffset hClose
    constructor
    · rw [hstep] at hrun
      obtain ⟨endOffset, hoff, hrun⟩ := Outcome.bind_eq_ok.mp hrun
      simp only [readOffset, Outcome.bind_eq_ok] at hoff
      obtain ⟨px, hx, py, hy, pz, hz, hoff⟩ := hoff
      simp only [Outcome.pure_eq_ok, Outcome.ok.injEq] at hoff
      subst hoff
      obtain ⟨rest, entries, sites, hb, hj, ho⟩ :=
        (ParseJoint_reads lib tokens fuel').2 _ _ _ _ _ _ _ _ _ hrun
      exact ⟨px, py, pz, rest, tokenAt_eq_ok.mp hx, tokenAt_eq_ok.mp hy, tokenAt_eq_ok.mp hz,
        by rw [hj]; simp⟩
    · intro tokens' hagree
      have hagree' : ∀ i, i < cur + 4 ∨ cur + 7 ≤ i → tokens'[i]? = tokens[i]? :=
        fun i hi => hagree i (by omega) (by omega) (by omega)
      have hig := ParseJoint_ignores lib tokens tokens' (cur + 4) (cur + 7) hagree' fuel'
      rw [ParseJointLoop_at_end_site lib tokens' fuel' start name offset cur children ord
        (by rw [hagree' cur (by omega)]; exact hEnd)
        (by rw [hagree' (cur + 1) (by omega)]; exact hSite)
        (by rw [hagree' (cur + 2) (by omega)]; exact hOpen)
        (by rw [hagree' (cur + 3) (by omega)]; exact hOffset)
        (by rw [hagree' (cur + 7) (by omega)]; exact hClose)]
      rw [hstep] at hrun
      have hoff : readOffset lib tokens' start = readOffset lib tokens start := by
        unfold readOffset
        simp only [tokenAt]
        rw [hagree' (start + 4) (by omega), hagree' (start + 5) (by omega),
          hagree' (start + 6) (by omega)]
      rw [hoff]
      obtain ⟨endOffset, hoff', hrun⟩ := Outcome.bind_eq_ok.mp hrun
      rw [hoff']
      show ParseJointLoop lib tokens' fuel' start name offset (cur + 8) _ ord = _
      rw [hig.2 _ _ _ _ _ _ (by omega) (by omega)]
      exact hrun

/-- C20 (amended): whenever `ParseJoint` started at index `s` returns a joint, the
joint has the name `tokens[s + 1]` and the local offset made of `tokens[s + 4..6]`,
the end index `e` is greater than `s` and `tokens[e]` is the closing brace; the
channel table is the table before the call with the entries of the headers of the
block stored in order, the first being the name of the joint with the axis
indices of its 3 or 6 declared channel tokens, so that the table holds under
every name the axes of the last header of this name; it maps the name of the
joint to the axes of its own channels when no joint nested in the block has the
same name.  `X`, `Y`, `Z` are mapped to 0, 1, 2 for rotation and position channels. -/
theorem ParseJoint_returns_header_and_end (lib : Lib α) (tokens : List String) (fuel s : Nat)
    (ord : ChannelOrderings) (joint : SkeletonJoint α) (e : Nat) (ord' : ChannelOrderings)
    (h : ParseJoint lib tokens fuel s ord = .ok (some (joint, e), ord')) :
    tokens[s + 1]? = some joint.GetName ∧
    (∃ tx ty tz, tokens[s + 4]? = some tx ∧ tokens[s + 5]? = some ty ∧
      tokens[s + 6]? = some tz ∧
      joint.GetLocalOffset = ⟨lib.atof tx, lib.atof ty, lib.atof tz⟩) ∧
    s < e ∧ tokens[e]? = some "\x7d" ∧
    ∃ (declared : List String) (nested : List (String × List Int)) (sites : Nat),
      (tokens[s + 8]? = some "3" ∧ declared.length = 3 ∨
        tokens[s + 8]? = some "6" ∧ declared.length = 6) ∧
      (∀ i, i < declared.length → tokens[s + 9 + i]? = declared[i]?) ∧
      ReadsJoint lib tokens s e joint
        ((joint.GetName, declared.map ChannelOrderToInt) :: nested) sites ∧
      ord' = applyEntries ord ((joint.GetName, declared.map ChannelOrderToInt) :: nested) ∧
      (∀ key, ord'.find key =
        ((((joint.GetName, declared.map ChannelOrderToInt) :: nested).reverse.find?
          (fun entry => decide (entry.1 = key))).map Prod.snd).or (ord.find key)) ∧
      (joint.GetName ∉ nested.map Prod.fst →
        ord'.find joint.GetName = some (declared.map ChannelOrderToInt)) ∧
      ChannelOrderToInt "Xrotation" = 0 ∧ ChannelOrderToInt "Yrotation" = 1 ∧
      ChannelOrderToInt "Zrotation" = 2 ∧ ChannelOrderToInt "Xposition" = 0 ∧
      ChannelOrderToInt "Yposition" = 1 ∧ ChannelOrderToInt "Zposition" = 2 := by
  obtain ⟨entries, sites, hj, ho⟩ := (ParseJoint_reads lib tokens fuel).1 _ _ _ _ _ h
  have hj' := hj
  obtain ⟨name, offset, axes, body, children, nested, hh, hb, rfl, rfl⟩ := hj
  obtain ⟨h2, h3, hname, hoff, h7, hchan⟩ := hh
  obtain ⟨hle, hbrace⟩ := readsBody_end_brace hb
  simp only [readOffset, Outcome.bind_eq_ok] at hoff
  obtain ⟨tx, hx, ty, hy, tz, hz, hoff⟩ := hoff
  simp only [Outcome.pure_eq_ok, Outcome.ok.injEq] at hoff
  have hbody : s < body := by
    rcases hchan with ⟨_, _, _, _, _, _, _, _, rfl⟩ | ⟨_, _, _, _, _, _, _, _, _, _, _, _, _, _, rfl⟩
    · omega
    · omega
  have hdecl : ∃ declared : List String,
      (tokens[s + 8]? = some "3" ∧ declared.length = 3 ∨
        tokens[s + 8]? = some "6" ∧ declared.length = 6) ∧
      (∀ i, i < declared.length → tokens[s + 9 + i]? = declared[i]?) ∧
      axes = declared.map ChannelOrderToInt := by
    rcases hchan with ⟨c0, c1, c2, h8, k0, k1, k2, rfl, -⟩ |
      ⟨c0, c1, c2, c3, c4, c5, h8, k0, k1, k2, k3, k4, k5, rfl, -⟩
    · refine ⟨[c0, c1, c2], Or.inl ⟨h8, rfl⟩, ?_, rfl⟩
      intro i hi
      simp only [List.length_cons, List.length_nil] at hi
      rcases i with _ | _ | _ | i
      · exact k0
      · exact k1
      · exact k2
      · omega
    · refine ⟨[c0, c1, c2, c3, c4, c5], Or.inr ⟨h8, rfl⟩, ?_, rfl⟩
      intro i hi
      simp only [List.length_cons, List.length_nil] at hi
      rcases i with _ | _ | _ | _ | _ | _ | i
      · exact k0
      · exact k1
      · exact k2
      · exact k3
      · exact k4
      · exact k5
      · omega
  obtain ⟨declared, hcount, hdeclared, rfl⟩ := hdecl
  have hfind := fun key => applyEntries_find ((name, declared.map ChannelOrderToInt) :: nested)
    ord key
  refine ⟨hname, ⟨tx, ty, tz, tokenAt_eq_ok.mp hx, tokenAt_eq_ok.mp hy, tokenAt_eq_ok.mp hz,
    hoff.symm⟩, by omega, hbrace, declared, nested, sites, hcount, hdeclared, hj', ho, ?_, ?_,
    rfl, rfl, rfl, rfl, rfl, rfl⟩
  · intro key
    rw [ho]
    exact hfind key
  · intro hnot
    rw [ho, hfind]
    simp only [SkeletonJoint.GetName, List.reverse_cons, List.find?_append]
    have hnone : nested.reverse.find? (fun entry => decide (entry.1 = name)) = none := by
      rw [List.find?_eq_none]
      intro entry hmem
      simp only [decide_eq_true_eq]
      intro heq
      apply hnot
      simp only [SkeletonJoint.GetName, List.mem_map]
      exact ⟨entry, List.mem_reverse.mp hmem, heq⟩
    simp [hnone]

/-- C13 (amended): when the first loop of `BVHImport` ends at `MOTION`, it has read a
hierarchy block; and with `J` the number of headers of `ROOT` or `JOINT` and `E` the
number of blocks `End Site` of a reading of the block that yields the roots, the
resulting trees have `J + E` joints, at most `J` of them with a child and at least `E`
of them without, and the edge lists that `QuerySkeleton` fills on the roots hold
`(J - number of roots) + E` entries in total. -/
theorem hierarchyLoop_node_and_bone_counts (lib : Lib α) (tokens : List String) (fuel m : Nat)
    (roots : List (SkeletonJoint α)) (ord : ChannelOrderings)
    (hh : hierarchyLoop lib tokens fuel 0 [] UMap.empty = .ok (some (m, roots, ord))) :
    (∃ (entries : List (String × List Int)) (sites : Nat),
      ReadsHierarchy lib tokens 0 m roots entries sites) ∧
    ∀ (entries : List (String × List Int)) (sites : Nat),
      ReadsHierarchy lib tokens 0 m roots entries sites →
      SkeletonJoint.animatedCountList roots + SkeletonJoint.leafCountList roots =
        entries.length + sites ∧
      SkeletonJoint.animatedCountList roots ≤ entries.length ∧
      sites ≤ SkeletonJoint.leafCountList roots ∧
      boneCount roots = (entries.length - roots.length) + sites := by
  obtain ⟨newRoots, entries, sites, hr, hroots, -⟩ :=
    hierarchyLoop_reads lib tokens fuel 0 [] UMap.empty m roots ord LoopReaches.start hh
  simp only [List.nil_append] at hroots
  subst hroots
  refine ⟨⟨entries, sites, hr⟩, fun entries' sites' hr' => ?_⟩
  obtain ⟨c1, c2, c3, c4⟩ := readsHierarchy_counts hr'
  have hb := boneCount_eq roots
  have hn := SkeletonJoint.nodeCountList_eq roots
  exact ⟨by omega, c2, c3, by omega⟩

end ReadingTheorems

/-- The theorem on `End Site` children, at the root `Hips` with local offset
`(1, 2, 3)`: the loop of its call stands at the `End Site` at index 16. -/
theorem ParseJointLoop_end_site_child_witness :
    ∃ joint e ord',
      ParseJointLoop rationalLib hierarchyShiftedRoot 5 1 "Hips" ⟨1, 2, 3⟩ 16 [] UMap.empty =
        .ok (some (joint, e), ord') ∧
      ∃ fuel' endOffset rest entries sites, 5 = fuel' + 1 ∧
        ParseJointLoop rationalLib hierarchyShiftedRoot fuel' 1 "Hips" ⟨1, 2, 3⟩ (16 + 8)
          ([] ++ [.mk ("Hips" ++ "_end") [] endOffset]) UMap.empty = .ok (some (joint, e), ord') ∧
        joint = .mk "Hips" ([] ++ .mk ("Hips" ++ "_end") [] endOffset :: rest) ⟨1, 2, 3⟩ ∧
        ReadsBody rationalLib hierarchyShiftedRoot 1 "Hips" (16 + 8) e rest entries sites ∧
        ord' = applyEntries UMap.empty entries :=
  ⟨_, _, _, rfl, ParseJointLoop_end_site_child rationalLib hierarchyShiftedRoot 5 1 "Hips"
    ⟨1, 2, 3⟩ 16 [] UMap.empty _ _ _ rfl rfl rfl rfl rfl rfl⟩

/-- The theorem on the offset of an `End Site` leaf, at the root `Hips` with local
offset `(1, 2, 3)` whose `End Site` gives `(0, 10, 0)`. -/
theorem ParseJointLoop_end_site_offset_witness :
    ∃ joint e ord',
      ParseJointLoop rationalLib hierarchyShiftedRoot 5 1 "Hips" ⟨1, 2, 3⟩ 16 [] UMap.empty =
        .ok (some (joint, e), ord') ∧
      (∃ px py pz rest, hierarchyShiftedRoot[1 + 4]? = some px ∧
        hierarchyShiftedRoot[1 + 5]? = some py ∧ hierarchyShiftedRoot[1 + 6]? = some pz ∧
        joint = .mk "Hips" ([] ++
          .mk ("Hips" ++ "_end") []
            ⟨rationalLib.atof px, rationalLib.atof py, rationalLib.atof pz⟩ :: rest) ⟨1, 2, 3⟩) ∧
      (∀ tokens' : List String,
        (∀ i, i ≠ 16 + 4 → i ≠ 16 + 5 → i ≠ 16 + 6 → tokens'[i]? = hierarchyShiftedRoot[i]?) →
        ParseJointLoop rationalLib tokens' 5 1 "Hips" ⟨1, 2, 3⟩ 16 [] UMap.empty =
          .ok (some (joint, e), ord')) :=
  ⟨_, _, _, rfl, ParseJointLoop_end_site_offset rationalLib hierarchyShiftedRoot 5 1 "Hips"
    ⟨1, 2, 3⟩ 16 [] UMap.empty _ _ _ (by decide) rfl rfl rfl rfl rfl rfl⟩

/-- The root `Hips` at local offset `(1, 2, 3)` with an `End Site` that gives
`(0, 10, 0)`, and the same block with an `End Site` that gives `(7, 8, 9)`, are both
parsed into a root with a leaf `Hips_end` at local offset `(1, 2, 3)`. -/
theorem ParseJoint_shifted_root :
    (ParseJoint rationalLib hierarchyShiftedRoot 5 1 UMap.empty).bind
        (fun r => .ok r.1) =
      .ok (some (.mk "Hips" [.mk "Hips_end" [] ⟨1, 2, 3⟩] ⟨1, 2, 3⟩, 24)) ∧
    (ParseJoint rationalLib hierarchyShiftedRootOtherSite 5 1 UMap.empty).bind
        (fun r => .ok r.1) =
      .ok (some (.mk "Hips" [.mk "Hips_end" [] ⟨1, 2, 3⟩] ⟨1, 2, 3⟩, 24)) :=
  ⟨rfl, rfl⟩

/-- The theorem on the result of `ParseJoint`, at the root `Hips` of the block above. -/
theorem ParseJoint_returns_header_and_end_witness :
    ∃ (joint : SkeletonJoint ℚ) (e : Nat) (ord' : ChannelOrderings),
      ParseJoint rationalLib hierarchyShiftedRoot 5 1 UMap.empty = .ok (some (joint, e), ord') ∧
      hierarchyShiftedRoot[1 + 1]? = some joint.GetName ∧
      (∃ tx ty tz, hierarchyShiftedRoot[1 + 4]? = some tx ∧ hierarchyShiftedRoot[1 + 5]? = some ty ∧
        hierarchyShiftedRoot[1 + 6]? = some tz ∧
        joint.GetLocalOffset = ⟨rationalLib.atof tx, rationalLib.atof ty, rationalLib.atof tz⟩) ∧
      1 < e ∧ hierarchyShiftedRoot[e]? = some "\x7d" ∧
      ∃ (declared : List String) (nested : List (String × List Int)) (sites : Nat),
        (hierarchyShiftedRoot[1 + 8]? = some "3" ∧ declared.length = 3 ∨
          hierarchyShiftedRoot[1 + 8]? = some "6" ∧ declared.length = 6) ∧
        (∀ i, i < declared.length → hierarchyShiftedRoot[1 + 9 + i]? = declared[i]?) ∧
        ReadsJoint rationalLib hierarchyShiftedRoot 1 e joint
          ((joint.GetName, declared.map ChannelOrderToInt) :: nested) sites ∧
        ord' = applyEntries UMap.empty
          ((joint.GetName, declared.map ChannelOrderToInt) :: nested) ∧
        (∀ key, ord'.find key =
          ((((joint.GetName, declared.map ChannelOrderToInt) :: nested).reverse.find?
            (fun entry => decide (entry.1 = key))).map Prod.snd).or
            ((UMap.empty : ChannelOrderings).find key)) ∧
        (joint.GetName ∉ nested.map Prod.fst →
          ord'.find joint.GetName = some (declared.map ChannelOrderToInt)) ∧
        ChannelOrderToInt "Xrotation" = 0 ∧ ChannelOrderToInt "Yrotation" = 1 ∧
        ChannelOrderToInt "Zrotation" = 2 ∧ ChannelOrderToInt "Xposition" = 0 ∧
        ChannelOrderToInt "Yposition" = 1 ∧ ChannelOrderToInt "Zposition" = 2 :=
  ⟨_, _, _, rfl,
    ParseJoint_returns_header_and_end rationalLib hierarchyShiftedRoot 5 1 UMap.empty _ _ _ rfl⟩

/-- Counterexample to C20 as stated: the root `Hips` declares the six channels
`Xposition Yposition Zposition Zrotation Xrotation Yrotation`, with the axes
`0 1 2 2 0 1`, and its child joint is named `Hips` as well and declares
`Yrotation Xrotation Zrotation`; after the call for the root has returned the root,
the table maps `Hips` to the axes `1 0 2` of the child. -/
theorem ParseJoint_nested_name_overwrites_entry :
    ∃ (joint : SkeletonJoint ℚ) (e : Nat) (ord' : ChannelOrderings),
      ParseJoint rationalLib streamNestedSameName 10 1 UMap.empty = .ok (some (joint, e), ord') ∧
      joint.GetName = "Hips" ∧ streamNestedSameName[1 + 8]? = some "6" ∧
      ((streamNestedSameName.drop (1 + 9)).take 6).map ChannelOrderToInt = [0, 1, 2, 2, 0, 1] ∧
      ord'.find "Hips" = some [1, 0, 2] :=
  ⟨_, _, _, rfl, rfl, rfl, rfl, rfl⟩

/-- The theorem on the joints of a hierarchy block, at the hierarchy of a root with
an `End Site`. -/
theorem hierarchyLoop_node_and_bone_counts_witness :
    (∃ (entries : List (String × List Int)) (sites : Nat),
      ReadsHierarchy rationalLib streamTwoFrames 0 25
        ([.mk "Hips" [.mk "Hips_end" [] ⟨0, 0, 0⟩] ⟨0, 0, 0⟩] : List (SkeletonJoint ℚ))
        entries sites) ∧
    ∀ (entries : List (String × List Int)) (sites : Nat),
      ReadsHierarchy rationalLib streamTwoFrames 0 25
        ([.mk "Hips" [.mk "Hips_end" [] ⟨0, 0, 0⟩] ⟨0, 0, 0⟩] : List (SkeletonJoint ℚ))
        entries sites →
      SkeletonJoint.animatedCountList
          ([.mk "Hips" [.mk "Hips_end" [] ⟨0, 0, 0⟩] ⟨0, 0, 0⟩] : List (SkeletonJoint ℚ)) +
        SkeletonJoint.leafCountList
          ([.mk "Hips" [.mk "Hips_end" [] ⟨0, 0, 0⟩] ⟨0, 0, 0⟩] : List (SkeletonJoint ℚ)) =
        entries.length + sites ∧
      SkeletonJoint.animatedCountList
          ([.mk "Hips" [.mk "Hips_end" [] ⟨0, 0, 0⟩] ⟨0, 0, 0⟩] : List (SkeletonJoint ℚ)) ≤
        entries.length ∧
      sites ≤ SkeletonJoint.leafCountList
          ([.mk "Hips" [.mk "Hips_end" [] ⟨0, 0, 0⟩] ⟨0, 0, 0⟩] : List (SkeletonJoint ℚ)) ∧
      boneCount ([.mk "Hips" [.mk "Hips_end" [] ⟨0, 0, 0⟩] ⟨0, 0, 0⟩] : List (SkeletonJoint ℚ)) =
        (entries.length -
          ([.mk "Hips" [.mk "Hips_end" [] ⟨0, 0, 0⟩] ⟨0, 0, 0⟩] : List (SkeletonJoint ℚ)).length) +
          sites :=
  hierarchyLoop_node_and_bone_counts rationalLib streamTwoFrames 10 25 _ _ rfl

/-- Counterexample to C13 as stated: the hierarchy block of the stream holds one
`ROOT` keyword, no `JOINT` keyword and no `End Site`; it is parsed into one root without
children, so the tree has no joint with a child and one joint without. -/
theorem hierarchy_childless_root_is_leaf :
    ∃ ord, hierarchyLoop rationalLib streamNegativeFrames 10 0 [] UMap.empty =
        .ok (some (17, [.mk "Hips" [] ⟨0, 0, 0⟩], ord)) ∧
      (streamNegativeFrames.take 17).count "ROOT" +
        (streamNegativeFrames.take 17).count "JOINT" = 1 ∧
      (streamNegativeFrames.take 17).count "End" = 0 ∧
      SkeletonJoint.animatedCountList ([.mk "Hips" [] ⟨0, 0, 0⟩] : List (SkeletonJoint ℚ)) = 0 ∧
      SkeletonJoint.leafCountList ([.mk "Hips" [] ⟨0, 0, 0⟩] : List (SkeletonJoint ℚ)) = 1 :=
  ⟨_, rfl, by decide, by decide, rfl, rfl⟩

/-! ## The header of the motion block -/

section MotionTheorems

variable {α : Type} [LinearOrderedField α]

end MotionTheorems

section SegmentTheorems

variable {α : Type}

/-- A pair that the position list gives, it gives after more positions were appended. -/
theorem segmentAt_append (l more : List (Vec3 α)) (edge : Nat × Nat) (segment : Vec3 α × Vec3 α)
    (h : SegmentAt l edge segment) : SegmentAt (l ++ more) edge segment := by
  obtain ⟨h1, h2⟩ := h
  have l1 := (List.getElem?_eq_some_iff.mp h1).1
  have l2 := (List.getElem?_eq_some_iff.mp h2).1
  exact ⟨by rw [List.getElem?_append_left l1]; exact h1,
    by rw [List.getElem?_append_left l2]; exact h2⟩

/-! There are as many offsets of joints with a child under a name as such joints. -/

mutual
theorem SkeletonJoint.animatedOffsets_length (key : String) : ∀ (joint : SkeletonJoint α),
    (joint.animatedOffsets key).length = joint.animatedNamed key
  | .mk name children offset => by
    simp only [SkeletonJoint.animatedOffsets, SkeletonJoint.animatedNamed, List.length_append,
      SkeletonJoint.animatedOffsetsList_length key children]
    by_cases h : children.length ≠ 0 ∧ name = key
    · rw [if_pos h, if_pos h]; simp
    · rw [if_neg h, if_neg h]; simp
theorem SkeletonJoint.animatedOffsetsList_length (key : String) :
    ∀ (children : List (SkeletonJoint α)),
      (SkeletonJoint.animatedOffsetsList key children).length =
        SkeletonJoint.animatedNamedList key children
  | [] => by simp [SkeletonJoint.animatedOffsetsList, SkeletonJoint.animatedNamedList]
  | child :: rest => by
    simp only [SkeletonJoint.animatedOffsetsList, SkeletonJoint.animatedNamedList,
      List.length_append, SkeletonJoint.animatedOffsets_length key child,
      SkeletonJoint.animatedOffsetsList_length key rest]
end

/-- The offsets of the joints of a root are among those of all roots. -/
theorem animatedOffsets_mem_roots (key : String) (o : Vec3 α) :
    ∀ (roots : List (SkeletonJoint α)) (root : SkeletonJoint α), root ∈ roots →
      o ∈ root.animatedOffsets key → o ∈ SkeletonJoint.animatedOffsetsList key roots
  | [], root, hmem, _ => by simp at hmem
  | first :: rest, root, hmem, ho => by
    simp only [SkeletonJoint.animatedOffsetsList, List.mem_append]
    rcases List.mem_cons.mp hmem with rfl | hrest
    · exact Or.inl ho
    · exact Or.inr (animatedOffsets_mem_roots key o rest root hrest ho)

/-- The transforms stored under a name after one more was stored. -/
theorem appendTransform_mem (jt : JointTransforms α) (name key : String) (T T' : Transform α)
    (h : T' ∈ (appendTransform jt name T).getVector key) :
    T' ∈ jt.getVector key ∨ (name = key ∧ T' = T) := by
  by_cases hk : name = key
  · subst hk
    rw [appendTransform_getVector_self] at h
    rcases List.mem_append.mp h with h | h
    · exact Or.inl h
    · exact Or.inr ⟨rfl, by simpa using h⟩
  · have hk' : ¬ key = name := fun e => hk e.symm
    have hsame : (appendTransform jt name T).getVector key = jt.getVector key := by
      unfold appendTransform UMap.getVector
      cases hfind : jt.find name <;> simp [UMap.find, UMap.insert, hk']
    rw [hsame] at h
    exact Or.inl h

variable [LinearOrderedField α]

/-- Two lists related element by element, each followed by such lists. -/
theorem forall₂_append_of {β γ : Type} {R : β → γ → Prop} :
    ∀ {a1 : List β} {b1 : List γ} {a2 : List β} {b2 : List γ},
      List.Forall₂ R a1 b1 → List.Forall₂ R a2 b2 → List.Forall₂ R (a1 ++ a2) (b1 ++ b2)
  | _, _, _, _, .nil, h2 => h2
  | _, _, _, _, .cons h hs, h2 => .cons h (forall₂_append_of hs h2)

/-- The origin of the product with a local transform whose fourth column is the local
offset is the position of the joint. -/
theorem GetOrigin_mul_scale (T L : Transform α) (o : Vec3 α) (s : α)
    (hL : L.m_transformMatrix.c3 = ⟨o.x, o.y, o.z, 1⟩) :
    (T.mul L).GetOrigin.scale s = worldPosition T o s := by
  simp [Transform.GetOrigin, Transform.mul, Mat4.mul, Mat4.mulVec, hL, worldPosition,
    Transform.mulVec4, Vec4.scale, Vec4.xyz, Vec3.scale]

/-! The positions and segment pairs appended by the traversal of a subtree. -/

mutual
theorem QuerySkeletalAnimationRecursive_segments (jt : JointTransforms α) (s : α) (f : Nat) :
    ∀ (joint : SkeletonJoint α) (T : Transform α) (out : QueryOutputs α)
      (l : List (Vec3 α)) (sg : List (Vec3 α × Vec3 α)),
      out.jointPositions = some l → out.segmentPositions = some sg →
      StoresOffsets jt f joint →
      ∃ out' l' sg', QuerySkeletalAnimationRecursive jt s f joint T out = .ok out' ∧
        out'.jointPositions = some (l ++ l') ∧ out'.segmentPositions = some (sg ++ sg') ∧
        l'.length = joint.nodeCount ∧ sg'.length + 1 = joint.nodeCount ∧
        l'[0]? = some (worldPosition T joint.GetLocalOffset s) ∧
        List.Forall₂ (SegmentAt (l ++ l')) (joint.edgeIndices l.length) sg'
  | .mk name children offset, T, out, l, sg, hl, hsg, hst => by
    rw [QuerySkeletalAnimationRecursive]
    by_cases hc : children.length = 0
    · have hnil : children = [] := List.length_eq_zero.mp hc
      subst hnil
      refine ⟨{ cumulativeTransformsByName := out.cumulativeTransformsByName.map
                  (fun m => m.emplaceIfAbsent name T)
                jointPositions := out.jointPositions.map (fun l => l ++ [worldPosition T offset s])
                jointPositionsByName := out.jointPositionsByName.map
                  (fun m => m.emplaceIfAbsent name (worldPosition T offset s))
                segmentPositions := out.segmentPositions },
        [worldPosition T offset s], [], ?_, ?_, ?_, ?_, ?_, ?_, ?_⟩
      · simp [QuerySkeletalAnimationChildren]
      · simp [hl]
      · simp [hsg]
      · simp [SkeletonJoint.nodeCount, SkeletonJoint.nodeCountList]
      · simp [SkeletonJoint.nodeCount, SkeletonJoint.nodeCountList]
      · simp [SkeletonJoint.GetLocalOffset]
      · simp [SkeletonJoint.edgeIndices, SkeletonJoint.edgeIndicesList]
    · obtain ⟨L, hL, hc3⟩ := hst name offset (by
        simp [SkeletonJoint.animatedOffsets, hc])
      have hrest : ∀ key, ∀ o ∈ SkeletonJoint.animatedOffsetsList key children,
          ∃ L, (jt.getVector key)[f]? = some L ∧ L.m_transformMatrix.c3 = ⟨o.x, o.y, o.z, 1⟩ :=
        fun key o ho => hst key o (by
          simp only [SkeletonJoint.animatedOffsets, List.mem_append]
          exact Or.inr ho)
      obtain ⟨out', l', sg', h1, h2, h3, h4, h5, h6⟩ := QuerySkeletalAnimationChildren_segments
        jt s f children (T.mul L)
        { cumulativeTransformsByName := out.cumulativeTransformsByName.map
            (fun m => m.emplaceIfAbsent name T)
          jointPositions := out.jointPositions.map (fun l => l ++ [worldPosition T offset s])
          jointPositionsByName := out.jointPositionsByName.map
            (fun m => m.emplaceIfAbsent name (worldPosition T offset s))
          segmentPositions := out.segmentPositions }
        (l ++ [worldPosition T offset s]) sg l.length (by simp [hl]) (by simp [hsg])
        (by simp [GetOrigin_mul_scale T L offset s hc3]) hrest
      refine ⟨out', worldPosition T offset s :: l', sg', ?_, ?_, ?_, ?_, ?_, ?_, ?_⟩
      · simp only [hc, if_false, hL, Outcome.ofOption, Outcome.ok_bind, Outcome.pure_eq_ok]
        exact h1
      · rw [h2]; simp
      · exact h3
      · simp [SkeletonJoint.nodeCount, h4]; omega
      · simp [SkeletonJoint.nodeCount, h5]; omega
      · simp [SkeletonJoint.GetLocalOffset]
      · have : l ++ worldPosition T offset s :: l' = l ++ [worldPosition T offset s] ++ l' := by
          simp
        rw [this, SkeletonJoint.edgeIndices]
        simpa using h6
theorem QuerySkeletalAnimationChildren_segments (jt : JointTransforms α) (s : α) (f : Nat) :
    ∀ (children : List (SkeletonJoint α)) (T : Transform α) (out : QueryOutputs α)
      (l : List (Vec3 α)) (sg : List (Vec3 α × Vec3 α)) (parent : Nat),
      out.jointPositions = some l → out.segmentPositions = some sg →
      l[parent]? = some (T.GetOrigin.scale s) →
      (∀ key, ∀ o ∈ SkeletonJoint.animatedOffsetsList key children,
        ∃ L, (jt.getVector key)[f]? = some L ∧ L.m_transformMatrix.c3 = ⟨o.x, o.y, o.z, 1⟩) →
      ∃ out' l' sg', QuerySkeletalAnimationChildren jt s f children T out = .ok out' ∧
        out'.jointPositions = some (l ++ l') ∧ out'.segmentPositions = some (sg ++ sg') ∧
        l'.length = SkeletonJoint.nodeCountList children ∧
        sg'.length = SkeletonJoint.nodeCountList children ∧
        List.Forall₂ (SegmentAt (l ++ l'))
          (SkeletonJoint.edgeIndicesList parent l.length children) sg'
  | [], T, out, l, sg, parent, hl, hsg, hp, hst => by
    refine ⟨out, [], [], ?_, ?_, ?_, ?_, ?_, ?_⟩
    · rw [QuerySkeletalAnimationChildren]; rfl
    · simp [hl]
    · simp [hsg]
    · simp [SkeletonJoint.nodeCountList]
    · simp [SkeletonJoint.nodeCountList]
    · simp [SkeletonJoint.edgeIndicesList]
  | child :: rest, T, out, l, sg, parent, hl, hsg, hp, hst => by
    rw [QuerySkeletalAnimationChildren]
    obtain ⟨out1, l1, sg1, h1, h2, h3, h4, h5, h6, h7⟩ :=
      QuerySkeletalAnimationRecursive_segments jt s f child T
        { out with
          segmentPositions := out.segmentPositions.map
            (fun l => l ++ [(T.GetOrigin.scale s, worldPosition T child.GetLocalOffset s)]) }
        l (sg ++ [(T.GetOrigin.scale s, worldPosition T child.GetLocalOffset s)]) hl
        (by simp [hsg])
        (fun key o ho => hst key o (by
          simp only [SkeletonJoint.animatedOffsetsList, List.mem_append]
          exact Or.inl ho))
    have hp1 : (l ++ l1)[parent]? = some (T.GetOrigin.scale s) := by
      rw [List.getElem?_append_left (List.getElem?_eq_some_iff.mp hp).1]
      exact hp
    obtain ⟨out2, l2, sg2, k1, k2, k3, k4, k5, k6⟩ :=
      QuerySkeletalAnimationChildren_segments jt s f rest T out1 (l ++ l1) _ parent h2 h3 hp1
        (fun key o ho => hst key o (by
          simp only [SkeletonJoint.animatedOffsetsList, List.mem_append]
          exact Or.inr ho))
    refine ⟨out2, l1 ++ l2,
      (T.GetOrigin.scale s, worldPosition T child.GetLocalOffset s) :: sg1 ++ sg2,
      ?_, ?_, ?_, ?_, ?_, ?_⟩
    · rw [h1]
      exact k1
    · rw [k2, List.append_assoc]
    · rw [k3]; simp
    · simp [SkeletonJoint.nodeCountList, h4, k4]
    · simp [SkeletonJoint.nodeCountList, k5]; omega
    · rw [SkeletonJoint.edgeIndicesList, ← List.append_assoc l l1 l2]
      refine List.Forall₂.cons ⟨?_, ?_⟩ (forall₂_append_of ?_ ?_)
      · exact (segmentAt_append (l ++ l1) l2 (parent, l.length) (_, _) ⟨hp1, by
          rw [List.getElem?_append_right (Nat.le_refl _)]
          simpa using h6⟩).1
      · have : (l ++ l1)[l.length]? = some (worldPosition T child.GetLocalOffset s) := by
          rw [List.getElem?_append_right (Nat.le_refl _)]
          simpa using h6
        show (l ++ l1 ++ l2)[l.length]? = _
        rw [List.getElem?_append_left (List.getElem?_eq_some_iff.mp this).1]
        exact this
      · exact h7.imp (fun edge segment h => segmentAt_append _ _ edge segment h)
      · have hlen : (l ++ l1).length = l.length + child.nodeCount := by simp [h4]
        rw [← hlen]
        exact k6
end


/-! Reading a frame stores only transforms whose fourth column is the local offset of
a joint with a child of the tree that is read. -/

mutual
theorem ReadFrameRecursive_origins (lib : Lib α) (tokens : List String) (ord : ChannelOrderings)
    (Q : String → Vec3 α → Prop) :
    ∀ (joint : SkeletonJoint α) (b : Bool) (jt : JointTransforms α) (cur : Nat)
      (jt' : JointTransforms α) (cur' : Nat),
      (∀ key, ∀ o ∈ joint.animatedOffsets key, Q key o) → OriginsFrom Q jt →
      ReadFrameRecursive lib tokens ord joint b (jt, cur) = .ok (jt', cur') → OriginsFrom Q jt'
  | .mk name children offset, b, jt, cur, jt', cur', hQ, hjt, h => by
    rw [ReadFrameRecursive] at h
    by_cases hc : children.length = 0
    · simp only [hc, if_true, Outcome.pure_eq_ok, Outcome.ok.injEq, Prod.mk.injEq] at h
      obtain ⟨rfl, rfl⟩ := h
      exact hjt
    · simp only [hc, if_false, Outcome.bind_eq_ok] at h
      obtain ⟨g0, h0, g1, h1, g2, h2, h⟩ := h
      refine ReadFrameChildren_origins lib tokens ord Q children _ _ _ _ ?_ ?_ h
      · intro key o ho
        exact hQ key o (by
          simp only [SkeletonJoint.animatedOffsets, List.mem_append]
          exact Or.inr ho)
      · intro key T hT
        rcases appendTransform_mem _ _ _ _ _ hT with hold | ⟨rfl, rfl⟩
        · exact hjt key T hold
        · exact ⟨offset, hQ name offset (by simp [SkeletonJoint.animatedOffsets, hc]),
            by simp [Transform.ofRotationOrigin]⟩
theorem ReadFrameChildren_origins (lib : Lib α) (tokens : List String) (ord : ChannelOrderings)
    (Q : String → Vec3 α → Prop) :
    ∀ (children : List (SkeletonJoint α)) (jt : JointTransforms α) (cur : Nat)
      (jt' : JointTransforms α) (cur' : Nat),
      (∀ key, ∀ o ∈ SkeletonJoint.animatedOffsetsList key children, Q key o) → OriginsFrom Q jt →
      ReadFrameChildren lib tokens ord children (jt, cur) = .ok (jt', cur') → OriginsFrom Q jt'
  | [], jt, cur, jt', cur', hQ, hjt, h => by
    rw [ReadFrameChildren] at h
    simp only [Outcome.pure_eq_ok, Outcome.ok.injEq, Prod.mk.injEq] at h
    obtain ⟨rfl, rfl⟩ := h
    exact hjt
  | child :: rest, jt, cur, jt', cur', hQ, hjt, h => by
    rw [ReadFrameChildren] at h
    simp only [Outcome.bind_eq_ok] at h
    obtain ⟨⟨jt1, cur1⟩, h1, h2⟩ := h
    have hjt1 := ReadFrameRecursive_origins lib tokens ord Q child false jt cur jt1 cur1
      (fun key o ho => hQ key o (by
        simp only [SkeletonJoint.animatedOffsetsList, List.mem_append]
        exact Or.inl ho)) hjt h1
    exact ReadFrameChildren_origins lib tokens ord Q rest jt1 cur1 jt' cur'
      (fun key o ho => hQ key o (by
        simp only [SkeletonJoint.animatedOffsetsList, List.mem_append]
        exact Or.inr ho)) hjt1 h2
end

/-- The loop over the roots stores only such transforms. -/
theorem rootLoop_origins (lib : Lib α) (tokens : List String) (ord : ChannelOrderings)
    (Q : String → Vec3 α → Prop) :
    ∀ (roots : List (SkeletonJoint α)) (rp : List (Vec3 α)) (jt : JointTransforms α) (cur : Nat)
      (rp' : List (Vec3 α)) (jt' : JointTransforms α) (cur' : Nat),
      (∀ key, ∀ o ∈ SkeletonJoint.animatedOffsetsList key roots, Q key o) → OriginsFrom Q jt →
      rootLoop lib tokens ord roots (rp, jt, cur) = .ok (rp', jt', cur') → OriginsFrom Q jt'
  | [], rp, jt, cur, rp', jt', cur', hQ, hjt, h => by
    rw [rootLoop] at h
    simp only [Outcome.pure_eq_ok, Outcome.ok.injEq, Prod.mk.injEq] at h
    obtain ⟨-, rfl, -⟩ := h
    exact hjt
  | root :: rest, rp, jt, cur, rp', jt', cur', hQ, hjt, h => by
    rw [rootLoop] at h
    simp only [Outcome.bind_eq_ok] at h
    obtain ⟨p0, h0, p1, h1, p2, h2, ⟨jt1, cur1⟩, hr, h⟩ := h
    dsimp only at h
    have hjt1 := ReadFrameRecursive_origins lib tokens ord Q root true jt (cur + 3) jt1 cur1
      (fun key o ho => hQ key o (by
        simp only [SkeletonJoint.animatedOffsetsList, List.mem_append]
        exact Or.inl ho)) hjt hr
    exact rootLoop_origins lib tokens ord Q rest _ _ _ _ _ _
      (fun key o ho => hQ key o (by
        simp only [SkeletonJoint.animatedOffsetsList, List.mem_append]
        exact Or.inr ho)) hjt1 h

/-- The loop over the frames stores only such transforms. -/
theorem frameLoop_origins (lib : Lib α) (tokens : List String) (ord : ChannelOrderings)
    (roots : List (SkeletonJoint α)) (Q : String → Vec3 α → Prop)
    (hQ : ∀ key, ∀ o ∈ SkeletonJoint.animatedOffsetsList key roots, Q key o) :
    ∀ (n : Nat) (rt : List (List (Vec3 α))) (jt : JointTransforms α) (cur : Nat)
      (rt' : List (List (Vec3 α))) (jt' : JointTransforms α) (cur' : Nat),
      OriginsFrom Q jt →
      frameLoop lib tokens ord roots n (rt, jt, cur) = .ok (rt', jt', cur') → OriginsFrom Q jt'
  | 0, rt, jt, cur, rt', jt', cur', hjt, h => by
    rw [frameLoop] at h
    simp only [Outcome.pure_eq_ok, Outcome.ok.injEq, Prod.mk.injEq] at h
    obtain ⟨-, rfl, -⟩ := h
    exact hjt
  | n + 1, rt, jt, cur, rt', jt', cur', hjt, h => by
    rw [frameLoop] at h
    simp only [Outcome.bind_eq_ok] at h
    obtain ⟨⟨rp1, jt1, cur1⟩, h1, h⟩ := h
    dsimp only at h
    exact frameLoop_origins lib tokens ord roots Q hQ n _ _ _ _ _ _
      (rootLoop_origins lib tokens ord Q roots _ _ _ _ _ _ hQ hjt h1) h

/-- The sizes of the tables of an imported model. -/
theorem BVHImport_trajectory_sizes (lib : Lib α) (fuel : Nat) (path : String) (tokens : List String)
    (model : SkeletalMotion α) (h : BVHImport lib fuel path tokens = .ok (some model)) :
    model.m_rootTrajectories.length = model.m_frameCount.toNat ∧
    (∀ positions ∈ model.m_rootTrajectories, positions.length = model.m_skeletonRoots.length) ∧
    (∀ key, (model.m_jointTransforms.getVector key).length =
      model.m_frameCount.toNat * SkeletonJoint.animatedNamedList key model.m_skeletonRoots) := by
  obtain ⟨m, ord, t2, t5, rate, hh, -, -, -, -, -, hF, hf, -⟩ := BVHImport_ok h
  obtain ⟨a1, a2, -, a4, a5, -⟩ := frameLoop_effect lib tokens ord _ _ _ _ _ _ _ _ hf
  refine ⟨?_, ?_, ?_⟩
  · rw [a1, hF]; simp
  · intro positions hp
    rcases a2 positions hp with hm | hl
    · simp at hm
    · exact hl
  · intro key
    rw [a4 key, hF]
    simp [UMap.getVector, UMap.find, UMap.empty]


/-- In an imported model whose joints with a child have pairwise distinct names, the
transform stored for such a joint at a frame below the frame count has the
local offset of the joint as its fourth column. -/
theorem BVHImport_storesOffsets (lib : Lib α) (fuel : Nat) (path : String)
    (tokens : List String) (model : SkeletalMotion α)
    (himport : BVHImport lib fuel path tokens = .ok (some model))
    (hdistinct : ∀ key, SkeletonJoint.animatedNamedList key model.m_skeletonRoots ≤ 1)
    (f : Nat) (hf : f < model.m_frameCount.toNat)
    (root : SkeletonJoint α) (hroot : root ∈ model.m_skeletonRoots) :
    StoresOffsets model.m_jointTransforms f root := by
  obtain ⟨m, ord, t2, t5, rate, hh, -, -, -, -, -, hF, hfl, -⟩ := BVHImport_ok himport
  obtain ⟨-, -, -, a4, -, -⟩ := frameLoop_effect lib tokens ord _ _ _ _ _ _ _ _ hfl
  have horig := frameLoop_origins lib tokens ord model.m_skeletonRoots
    (fun key o => o ∈ SkeletonJoint.animatedOffsetsList key model.m_skeletonRoots)
    (fun key o ho => ho) _ _ _ _ _ _ _
    (fun key T hT => by simp [UMap.getVector, UMap.find, UMap.empty] at hT) hfl
  intro key o ho
  have hmem := animatedOffsets_mem_roots key o _ root hroot ho
  have hlen1 : (SkeletonJoint.animatedOffsetsList key model.m_skeletonRoots).length = 1 := by
    have h1 := hdistinct key
    rw [← SkeletonJoint.animatedOffsetsList_length] at h1
    have h2 := List.length_pos_of_mem hmem
    omega
  have hlen : (model.m_jointTransforms.getVector key).length = model.m_frameCount.toNat := by
    rw [a4 key, ← SkeletonJoint.animatedOffsetsList_length, hlen1, ← hF]
    simp [UMap.getVector, UMap.find, UMap.empty]
  have hlt : f < (model.m_jointTransforms.getVector key).length := by omega
  refine ⟨(model.m_jointTransforms.getVector key)[f], List.getElem?_eq_getElem hlt, ?_⟩
  obtain ⟨o', ho', hc3⟩ := horig key _ (List.getElem_mem hlt)
  obtain ⟨x, hx⟩ := List.length_eq_one.mp hlen1
  rw [hx] at hmem ho'
  simp only [List.mem_singleton] at hmem ho'
  rw [hc3, ho', hmem]


/-- C12: for every imported model in which no two joints with a child have the same
name, every frame below the frame count, every skeleton `k` and every scale,
`QuerySkeletalAnimation` called with an empty position list and an empty segment
list returns; the segment list holds one pair less than the tree has joints, one
pair for each parent-child edge, and the pair of an edge is made of the two
positions that the position list of the same query holds for the parent and for
the child (at their pre-order numbers). -/
theorem BVHImport_segments_join_positions (lib : Lib α) (fuel : Nat)
    (path : String) (tokens : List String) (model : SkeletalMotion α) (s : α) (f k : Nat)
    (addRootOffset byName transforms : Bool) (root : SkeletonJoint α)
    (himport : BVHImport lib fuel path tokens = .ok (some model))
    (hdistinct : ∀ key, SkeletonJoint.animatedNamedList key model.m_skeletonRoots ≤ 1)
    (hf : f < model.m_frameCount.toNat) (hroot : model.m_skeletonRoots[k]? = some root) :
    ∃ out positions segments,
      (model.SetScale s).QuerySkeletalAnimation f k addRootOffset
        (QueryOutputs.requested true byName true transforms) = .ok out ∧
      out.jointPositions = some positions ∧ out.segmentPositions = some segments ∧
      positions.length = root.nodeCount ∧ segments.length + 1 = root.nodeCount ∧
      List.Forall₂ (SegmentAt positions) (root.edgeIndices 0) segments := by
  have hmem : root ∈ model.m_skeletonRoots := by
    obtain ⟨hk, hget⟩ := List.getElem?_eq_some_iff.mp hroot
    rw [← hget]
    exact List.getElem_mem hk
  have hst := BVHImport_storesOffsets lib fuel path tokens model himport hdistinct f hf root hmem
  have hrec := fun T0 => QuerySkeletalAnimationRecursive_segments
    model.m_jointTransforms s f root T0 (QueryOutputs.requested true byName true transforms)
    [] [] rfl rfl hst
  have hquery : ∃ T0, (model.SetScale s).QuerySkeletalAnimation f k addRootOffset
        (QueryOutputs.requested true byName true transforms) =
      QuerySkeletalAnimationRecursive model.m_jointTransforms s f root T0
        (QueryOutputs.requested true byName true transforms) := by
    unfold SkeletalMotion.QuerySkeletalAnimation
    rw [if_neg (by simp [QueryOutputs.requested])]
    simp only [SkeletalMotion.SetScale, hroot, Outcome.ofOption, Outcome.ok_bind]
    cases addRootOffset with
    | false => exact ⟨Transform.identity, rfl⟩
    | true =>
      obtain ⟨c1, c2, -⟩ := BVHImport_trajectory_sizes lib fuel path tokens model himport
      have hlt : f < model.m_rootTrajectories.length := by omega
      have hk : k < (model.m_rootTrajectories[f]).length := by
        rw [c2 _ (List.getElem_mem hlt)]
        exact (List.getElem?_eq_some_iff.mp hroot).1
      refine ⟨Transform.identity.SetOrigin ((model.m_rootTrajectories[f])[k]), ?_⟩
      simp only [if_true, List.getElem?_eq_getElem hlt, Outcome.ok_bind,
        List.getElem?_eq_getElem hk]
      rfl
  obtain ⟨T0, hquery⟩ := hquery
  obtain ⟨out, l', sg', h1, h2, h3, h4, h5, -, h7⟩ := hrec T0
  exact ⟨out, l', sg', by rw [hquery]; exact h1, by simpa using h2, by simpa using h3, h4, h5,
    by simpa using h7⟩

end SegmentTheorems

/-- The theorem on segments, at the import of the well-formed stream of two frames,
frame 1, skeleton 0, scale 1 and the root offset added. -/
theorem BVHImport_segments_join_positions_witness :
    ∃ model, BVHImport rationalLib 10 "a.bvh" streamTwoFrames = .ok (some model) ∧
      ∃ out positions segments,
        (model.SetScale 1).QuerySkeletalAnimation 1 0 true
          (QueryOutputs.requested true false true false) = .ok out ∧
        out.jointPositions = some positions ∧ out.segmentPositions = some segments ∧
        positions.length =
          (.mk "Hips" [.mk "Hips_end" [] ⟨0, 0, 0⟩] ⟨0, 0, 0⟩ : SkeletonJoint ℚ).nodeCount ∧
        segments.length + 1 =
          (.mk "Hips" [.mk "Hips_end" [] ⟨0, 0, 0⟩] ⟨0, 0, 0⟩ : SkeletonJoint ℚ).nodeCount ∧
        List.Forall₂ (SegmentAt positions)
          ((.mk "Hips" [.mk "Hips_end" [] ⟨0, 0, 0⟩] ⟨0, 0, 0⟩ : SkeletonJoint ℚ).edgeIndices 0)
          segments :=
  ⟨SkeletalMotion.new "a.bvh" _ _ [.mk "Hips" [.mk "Hips_end" [] ⟨0, 0, 0⟩] ⟨0, 0, 0⟩] _ 2, rfl,
    BVHImport_segments_join_positions rationalLib 10 "a.bvh" streamTwoFrames _ 1 1 0 true false
      false _ rfl
      (fun key => by
        show SkeletonJoint.animatedNamedList key
          [(.mk "Hips" [.mk "Hips_end" [] ⟨0, 0, 0⟩] ⟨0, 0, 0⟩ : SkeletonJoint ℚ)] ≤ 1
        simp only [SkeletonJoint.animatedNamedList, SkeletonJoint.animatedNamed]
        split_ifs <;> simp_all)
      (by decide) rfl⟩

/-! ## The rotations of the stored transforms -/

section RigidTheorems

variable {α : Type} [LinearOrderedField α]

/-- The product of `mat3` is associative. -/
theorem Mat3.mul_assoc_mat (a b c : Mat3 α) : (a.mul b).mul c = a.mul (b.mul c) := by
  simp only [Mat3.mul, Mat3.mulVec, Mat3.mk.injEq, Vec3.mk.injEq]
  refine ⟨⟨?_, ?_, ?_⟩, ⟨?_, ?_, ?_⟩, ⟨?_, ?_, ?_⟩⟩ <;> ring

/-- The transposed matrix of a product is the product of the transposed matrices in
the other order. -/
theorem Mat3.transpose_mul (a b : Mat3 α) :
    (a.mul b).transpose = b.transpose.mul a.transpose := by
  simp only [Mat3.mul, Mat3.mulVec, Mat3.transpose, Mat3.mk.injEq, Vec3.mk.injEq]
  refine ⟨⟨?_, ?_, ?_⟩, ⟨?_, ?_, ?_⟩, ⟨?_, ?_, ?_⟩⟩ <;> ring

/-- The identity is neutral on the right of the product of `mat3`. -/
theorem Mat3.mul_one_right (a : Mat3 α) : a.mul Mat3.one = a := by
  simp [Mat3.mul, Mat3.mulVec, Mat3.one]

/-- The determinant of a product is the product of the determinants. -/
theorem Mat3.det_mul (a b : Mat3 α) : (a.mul b).det = a.det * b.det := by
  simp only [Mat3.mul, Mat3.mulVec, Mat3.det]
  ring

/-- The identity matrix `mat3(1.0f)` is orthonormal of determinant 1. -/
theorem Mat3.isRotation_one : (Mat3.one : Mat3 α).IsRotation := by
  refine ⟨?_, ?_, ?_⟩ <;> simp [Mat3.mul, Mat3.mulVec, Mat3.one, Mat3.transpose, Mat3.det]

/-- A product of two orthonormal matrices of determinant 1 is one. -/
theorem Mat3.isRotation_mul (a b : Mat3 α) (ha : a.IsRotation) (hb : b.IsRotation) :
    (a.mul b).IsRotation := by
  obtain ⟨a1, a2, a3⟩ := ha
  obtain ⟨b1, b2, b3⟩ := hb
  refine ⟨?_, ?_, ?_⟩
  · rw [Mat3.transpose_mul, Mat3.mul_assoc_mat, ← Mat3.mul_assoc_mat b, b1, Mat3.one_mul_left, a1]
  · rw [Mat3.transpose_mul, Mat3.mul_assoc_mat, ← Mat3.mul_assoc_mat a.transpose, a2,
      Mat3.one_mul_left, b2]
  · rw [Mat3.det_mul, a3, b3, mul_one]

/-- With `cos² + sin² = 1`, every branch of `GetRotationMatrix` returns an orthonormal
matrix of determinant 1; the branch of an invalid axis returns the identity. -/
theorem GetRotationMatrix_isRotation (lib : Lib α)
    (hcs : ∀ x, lib.cos x * lib.cos x + lib.sin x * lib.sin x = 1) (axis : Int) (angle : α) :
    (GetRotationMatrix lib axis angle).IsRotation := by
  have h := hcs (angle * (lib.pi / 180))
  unfold GetRotationMatrix
  simp only []
  split_ifs
  all_goals
    refine ⟨?_, ?_, ?_⟩ <;>
      simp only [Mat3.mul, Mat3.mulVec, Mat3.one, Mat3.transpose, Mat3.det, Mat3.ofScalars,
        Mat3.mk.injEq, Vec3.mk.injEq] <;>
      (try refine ⟨⟨?_, ?_, ?_⟩, ⟨?_, ?_, ?_⟩, ⟨?_, ?_, ?_⟩⟩) <;>
      first
        | linear_combination h
        | ring


/-- A rotation that was read is the matrix of an axis and an angle. -/
theorem readRotation_cases {lib : Lib α} {tokens : List String} {ord : ChannelOrderings}
    {name : String} {b : Bool} {cur r : Nat} {g : Mat3 α}
    (h : readRotation lib tokens ord name b cur r = .ok g) :
    ∃ axis angle, g = GetRotationMatrix lib axis angle := by
  simp only [readRotation, Outcome.bind_eq_ok] at h
  obtain ⟨axis, -, t, -, h⟩ := h
  simp only [Outcome.pure_eq_ok, Outcome.ok.injEq] at h
  exact ⟨axis, lib.atof t, h.symm⟩

mutual
/-- Reading the frame data of a joint and of the joints below it keeps a property
that every transform made of three matrices of `GetRotationMatrix` and an offset has. -/
theorem ReadFrameRecursive_stored (lib : Lib α) (tokens : List String) (ord : ChannelOrderings)
    (P : Transform α → Prop)
    (hP : ∀ a0 a1 a2 x0 x1 x2 o, P (Transform.ofRotationOrigin
      (((Mat3.one.mul (GetRotationMatrix lib a0 x0)).mul (GetRotationMatrix lib a1 x1)).mul
        (GetRotationMatrix lib a2 x2)) o)) :
    ∀ (joint : SkeletonJoint α) (b : Bool) (jt : JointTransforms α) (cur : Nat)
      (jt' : JointTransforms α) (cur' : Nat), StoredAll P jt →
      ReadFrameRecursive lib tokens ord joint b (jt, cur) = .ok (jt', cur') → StoredAll P jt'
  | .mk name children offset, b, jt, cur, jt', cur', hjt, h => by
    rw [ReadFrameRecursive] at h
    by_cases hc : children.length = 0
    · simp only [hc, if_true, Outcome.pure_eq_ok, Outcome.ok.injEq, Prod.mk.injEq] at h
      obtain ⟨rfl, rfl⟩ := h
      exact hjt
    · simp only [hc, if_false, Outcome.bind_eq_ok] at h
      obtain ⟨g0, h0, g1, h1, g2, h2, h⟩ := h
      obtain ⟨a0, x0, rfl⟩ := readRotation_cases h0
      obtain ⟨a1, x1, rfl⟩ := readRotation_cases h1
      obtain ⟨a2, x2, rfl⟩ := readRotation_cases h2
      refine ReadFrameChildren_stored lib tokens ord P hP children _ _ _ _ ?_ h
      intro key T hT
      rcases appendTransform_mem _ _ _ _ _ hT with hold | ⟨-, rfl⟩
      · exact hjt key T hold
      · exact hP _ _ _ _ _ _ _
/-- Reading the frame data of a list of children keeps such a property. -/
theorem ReadFrameChildren_stored (lib : Lib α) (tokens : List String) (ord : ChannelOrderings)
    (P : Transform α → Prop)
    (hP : ∀ a0 a1 a2 x0 x1 x2 o, P (Transform.ofRotationOrigin
      (((Mat3.one.mul (GetRotationMatrix lib a0 x0)).mul (GetRotationMatrix lib a1 x1)).mul
        (GetRotationMatrix lib a2 x2)) o)) :
    ∀ (children : List (SkeletonJoint α)) (jt : JointTransforms α) (cur : Nat)
      (jt' : JointTransforms α) (cur' : Nat), StoredAll P jt →
      ReadFrameChildren lib tokens ord children (jt, cur) = .ok (jt', cur') → StoredAll P jt'
  | [], jt, cur, jt', cur', hjt, h => by
    rw [ReadFrameChildren] at h
    simp only [Outcome.pure_eq_ok, Outcome.ok.injEq, Prod.mk.injEq] at h
    obtain ⟨rfl, rfl⟩ := h
    exact hjt
  | child :: rest, jt, cur, jt', cur', hjt, h => by
    rw [ReadFrameChildren] at h
    simp only [Outcome.bind_eq_ok] at h
    obtain ⟨⟨jt1, cur1⟩, h1, h2⟩ := h
    exact ReadFrameChildren_stored lib tokens ord P hP rest jt1 cur1 jt' cur'
      (ReadFrameRecursive_stored lib tokens ord P hP child false jt cur jt1 cur1 hjt h1) h2
end

/-- The loop over the roots stores only such transforms. -/
theorem rootLoop_stored (lib : Lib α) (tokens : List String) (ord : ChannelOrderings)
    (P : Transform α → Prop)
    (hP : ∀ a0 a1 a2 x0 x1 x2 o, P (Transform.ofRotationOrigin
      (((Mat3.one.mul (GetRotationMatrix lib a0 x0)).mul (GetRotationMatrix lib a1 x1)).mul
        (GetRotationMatrix lib a2 x2)) o)) :
    ∀ (roots : List (SkeletonJoint α)) (rp : List (Vec3 α)) (jt : JointTransforms α) (cur : Nat)
      (rp' : List (Vec3 α)) (jt' : JointTransforms α) (cur' : Nat), StoredAll P jt →
      rootLoop lib tokens ord roots (rp, jt, cur) = .ok (rp', jt', cur') → StoredAll P jt'
  | [], rp, jt, cur, rp', jt', cur', hjt, h => by
    rw [rootLoop] at h
    simp only [Outcome.pure_eq_ok, Outcome.ok.injEq, Prod.mk.injEq] at h
    obtain ⟨-, rfl, -⟩ := h
    exact hjt
  | root :: rest, rp, jt, cur, rp', jt', cur', hjt, h => by
    rw [rootLoop] at h
    simp only [Outcome.bind_eq_ok] at h
    obtain ⟨p0, h0, p1, h1, p2, h2, ⟨jt1, cur1⟩, hr, h⟩ := h
    dsimp only at h
    exact rootLoop_stored lib tokens ord P hP rest _ _ _ _ _ _
      (ReadFrameRecursive_stored lib tokens ord P hP root true jt (cur + 3) jt1 cur1 hjt hr) h

/-- The loop over the frames stores only such transforms. -/
theorem frameLoop_stored (lib : Lib α) (tokens : List String) (ord : ChannelOrderings)
    (roots : List (SkeletonJoint α)) (P : Transform α → Prop)
    (hP : ∀ a0 a1 a2 x0 x1 x2 o, P (Transform.ofRotationOrigin
      (((Mat3.one.mul (GetRotationMatrix lib a0 x0)).mul (GetRotationMatrix lib a1 x1)).mul
        (GetRotationMatrix lib a2 x2)) o)) :
    ∀ (n : Nat) (rt : List (List (Vec3 α))) (jt : JointTransforms α) (cur : Nat)
      (rt' : List (List (Vec3 α))) (jt' : JointTransforms α) (cur' : Nat), StoredAll P jt →
      frameLoop lib tokens ord roots n (rt, jt, cur) = .ok (rt', jt', cur') → StoredAll P jt'
  | 0, rt, jt, cur, rt', jt', cur', hjt, h => by
    rw [frameLoop] at h
    simp only [Outcome.pure_eq_ok, Outcome.ok.injEq, Prod.mk.injEq] at h
    obtain ⟨-, rfl, -⟩ := h
    exact hjt
  | n + 1, rt, jt, cur, rt', jt', cur', hjt, h => by
    rw [frameLoop] at h
    simp only [Outcome.bind_eq_ok] at h
    obtain ⟨⟨rp1, jt1, cur1⟩, h1, h⟩ := h
    dsimp only at h
    exact frameLoop_stored lib tokens ord roots P hP n _ _ _ _ _ _
      (rootLoop_stored lib tokens ord P hP roots _ _ _ _ _ _ hjt h1) h

/-- Every transform of the table of an imported model is made of a product of
three matrices of `GetRotationMatrix` and a local offset. -/
theorem BVHImport_stored (lib : Lib α) (fuel : Nat) (path : String) (tokens : List String)
    (model : SkeletalMotion α) (himport : BVHImport lib fuel path tokens = .ok (some model))
    (P : Transform α → Prop)
    (hP : ∀ a0 a1 a2 x0 x1 x2 o, P (Transform.ofRotationOrigin
      (((Mat3.one.mul (GetRotationMatrix lib a0 x0)).mul (GetRotationMatrix lib a1 x1)).mul
        (GetRotationMatrix lib a2 x2)) o)) :
    StoredAll P model.m_jointTransforms := by
  obtain ⟨m, ord, t2, t5, rate, hh, -, -, -, -, -, hF, hfl, -⟩ := BVHImport_ok himport
  exact frameLoop_stored lib tokens ord model.m_skeletonRoots P hP _ _ _ _ _ _ _
    (fun key T hT => by simp [UMap.getVector, UMap.find, UMap.empty] at hT) hfl

/-- C22: over a field in which `cos` and `sin` satisfy `cos² + sin² = 1` (exact real
arithmetic), `GetRotationMatrix` returns, for every axis index, the invalid ones
included, and every angle, an orthonormal matrix of determinant 1; so the product
of three such matrices that `ReadFrameRecursive` uses as the rotation of a joint is
orthonormal of determinant 1 (`R * R transposed` is the identity); and every local
transform in the table `jointTransforms` of an imported model is rigid: its fourth
row is `(0, 0, 0, 1)` and its rotation is orthonormal of determinant 1. -/
theorem stored_transforms_are_rigid (lib : Lib α)
    (hcs : ∀ x, lib.cos x * lib.cos x + lib.sin x * lib.sin x = 1) :
    (∀ (axis : Int) (angle : α), (GetRotationMatrix lib axis angle).IsRotation) ∧
    (∀ (a0 a1 a2 : Int) (x0 x1 x2 : α),
      (((Mat3.one.mul (GetRotationMatrix lib a0 x0)).mul (GetRotationMatrix lib a1 x1)).mul
        (GetRotationMatrix lib a2 x2)).IsRotation) ∧
    (∀ (fuel : Nat) (path : String) (tokens : List String) (model : SkeletalMotion α),
      BVHImport lib fuel path tokens = .ok (some model) →
      ∀ key, ∀ T ∈ model.m_jointTransforms.getVector key,
        T.IsAffine ∧ T.GetRotation.IsRotation) := by
  have hG := GetRotationMatrix_isRotation lib hcs
  have hprod : ∀ (a0 a1 a2 : Int) (x0 x1 x2 : α),
      (((Mat3.one.mul (GetRotationMatrix lib a0 x0)).mul (GetRotationMatrix lib a1 x1)).mul
        (GetRotationMatrix lib a2 x2)).IsRotation := fun a0 a1 a2 x0 x1 x2 =>
    Mat3.isRotation_mul _ _ (Mat3.isRotation_mul _ _
      (Mat3.isRotation_mul _ _ Mat3.isRotation_one (hG a0 x0)) (hG a1 x1)) (hG a2 x2)
  refine ⟨hG, hprod, ?_⟩
  intro fuel path tokens model himport
  exact BVHImport_stored lib fuel path tokens model himport
    (fun T => T.IsAffine ∧ T.GetRotation.IsRotation)
    (fun a0 a1 a2 x0 x1 x2 o => by
      refine ⟨Transform.isAffine_ofRotationOrigin _ _, ?_⟩
      rw [Transform.GetRotation_ofRotationOrigin]
      exact hprod a0 a1 a2 x0 x1 x2)

end RigidTheorems

/-- The theorem on the stored transforms, over the real numbers with the cosine and
the sine of the reals. -/
theorem stored_transforms_are_rigid_witness :
    (∀ (axis : Int) (angle : ℝ),
      (GetRotationMatrix
        ({ atof := fun _ => 0, atoi := fun _ => 0, cos := Real.cos, sin := Real.sin,
           pi := Real.pi } : Lib ℝ) axis angle).IsRotation) ∧
    (∀ (a0 a1 a2 : Int) (x0 x1 x2 : ℝ),
      (((Mat3.one.mul (GetRotationMatrix
          ({ atof := fun _ => 0, atoi := fun _ => 0, cos := Real.cos, sin := Real.sin,
             pi := Real.pi } : Lib ℝ) a0 x0)).mul
        (GetRotationMatrix
          ({ atof := fun _ => 0, atoi := fun _ => 0, cos := Real.cos, sin := Real.sin,
             pi := Real.pi } : Lib ℝ) a1 x1)).mul
        (GetRotationMatrix
          ({ atof := fun _ => 0, atoi := fun _ => 0, cos := Real.cos, sin := Real.sin,
             pi := Real.pi } : Lib ℝ) a2 x2)).IsRotation) ∧
    (∀ (fuel : Nat) (path : String) (tokens : List String) (model : SkeletalMotion ℝ),
      BVHImport
        ({ atof := fun _ => 0, atoi := fun _ => 0, cos := Real.cos, sin := Real.sin,
           pi := Real.pi } : Lib ℝ) fuel path tokens = .ok (some model) →
      ∀ key, ∀ T ∈ model.m_jointTransforms.getVector key,
        T.IsAffine ∧ T.GetRotation.IsRotation) :=
  stored_transforms_are_rigid _ (fun x => by
    show Real.cos x * Real.cos x + Real.sin x * Real.sin x = 1
    rw [← sq, ← sq]
    exact Real.cos_sq_add_sin_sq x)

/-! ## The root offset of a query -/

section RootOffsetTheorems

variable {α : Type} [LinearOrderedField α]

/-- The method `SetOrigin` keeps the rotation of a transform. -/
theorem Transform.GetRotation_SetOrigin (T : Transform α) (o : Vec3 α) :
    (T.SetOrigin o).GetRotation = T.GetRotation := by
  simp [Transform.SetOrigin, Transform.GetRotation]

/-- The product of transforms is associative. -/
theorem Transform.mul_assoc_transform (a b c : Transform α) :
    (a.mul b).mul c = a.mul (b.mul c) := by
  simp only [Transform.mul, Mat4.mul, Mat4.mulVec, Transform.mk.injEq, Mat4.mk.injEq,
    Vec4.mk.injEq]
  refine ⟨⟨?_, ?_, ?_, ?_⟩, ⟨?_, ?_, ?_, ?_⟩, ⟨?_, ?_, ?_, ?_⟩, ⟨?_, ?_, ?_, ?_⟩⟩ <;> ring

/-- The product of a translation with a transform moves the origin and keeps the rotation. -/
theorem Transform.translation_mul (r : Vec3 α) (T : Transform α) (hT : T.IsAffine) :
    ((Transform.identity : Transform α).SetOrigin r).mul T = T.SetOrigin (T.GetOrigin.add r) := by
  obtain ⟨h0, h1, h2, h3⟩ := hT
  simp only [Transform.mul, Mat4.mul, Mat4.mulVec, Transform.SetOrigin, Transform.identity,
    Mat4.one, Transform.GetOrigin, Vec4.xyz, Vec3.add, h0, h1, h2, h3, Transform.mk.injEq,
    Mat4.mk.injEq, Vec4.mk.injEq]
  refine ⟨⟨?_, ?_, ?_, ?_⟩, ⟨?_, ?_, ?_, ?_⟩, ⟨?_, ?_, ?_, ?_⟩, ⟨?_, ?_, ?_, ?_⟩⟩ <;> ring

/-- A translation in front of the cumulative transform moves the world position of a
joint by the translation times the scale. -/
theorem worldPosition_translation (r : Vec3 α) (T : Transform α) (hT : T.IsAffine)
    (p : Vec3 α) (s : α) :
    worldPosition (((Transform.identity : Transform α).SetOrigin r).mul T) p s =
      (worldPosition T p s).add (Vec3.smul s r) := by
  obtain ⟨h0, h1, h2, h3⟩ := hT
  simp only [worldPosition, Transform.mulVec4, Transform.mul, Mat4.mul, Mat4.mulVec,
    Transform.SetOrigin, Transform.identity, Mat4.one, Vec4.scale, Vec4.xyz, Vec3.add, Vec3.smul,
    h0, h1, h2, h3, Vec3.mk.injEq]
  refine ⟨?_, ?_, ?_⟩ <;> ring

/-- A translation in front of the cumulative transform moves its scaled origin by
the translation times the scale. -/
theorem GetOrigin_translation (r : Vec3 α) (T : Transform α) (hT : T.IsAffine) (s : α) :
    (((Transform.identity : Transform α).SetOrigin r).mul T).GetOrigin.scale s =
      (T.GetOrigin.scale s).add (Vec3.smul s r) := by
  obtain ⟨h0, h1, h2, h3⟩ := hT
  simp only [Transform.GetOrigin, Transform.mul, Mat4.mul, Mat4.mulVec,
    Transform.SetOrigin, Transform.identity, Mat4.one, Vec4.xyz, Vec3.add, Vec3.smul, Vec3.scale,
    h0, h1, h2, h3, Vec3.mk.injEq]
  refine ⟨?_, ?_, ?_⟩ <;> ring

/-- The method `emplace` on a map whose values were all changed by `g`. -/
theorem emplaceIfAbsent_map {β : Type} (g : β → β) (m : UMap β) (name : String) (v : β) :
    UMap.emplaceIfAbsent (fun key => (m key).map g) name (g v) =
      (fun key => ((m.emplaceIfAbsent name v) key).map g) := by
  funext key
  cases hm : m name with
  | none =>
    by_cases hk : key = name
    · simp [UMap.emplaceIfAbsent, UMap.find, UMap.insert, hm, hk]
    · simp [UMap.emplaceIfAbsent, UMap.find, UMap.insert, hm, hk]
  | some w => simp [UMap.emplaceIfAbsent, UMap.find, hm]

mutual
/-- The traversal of a joint that starts from a cumulative transform with a
translation in front of it yields the translated outputs. -/
theorem QuerySkeletalAnimationRecursive_translated (jt : JointTransforms α) (s : α) (f : Nat)
    (r : Vec3 α) (hjt : ∀ key, ∀ L ∈ jt.getVector key, L.IsAffine) :
    ∀ (joint : SkeletonJoint α) (T : Transform α) (out : QueryOutputs α), T.IsAffine →
      QuerySkeletalAnimationRecursive jt s f joint
          (((Transform.identity : Transform α).SetOrigin r).mul T)
          (out.translated (Vec3.smul s r) r) =
        (QuerySkeletalAnimationRecursive jt s f joint T out).bind
          (fun out' => .ok (out'.translated (Vec3.smul s r) r))
  | .mk name children offset, T, out, hT => by
    rw [QuerySkeletalAnimationRecursive, QuerySkeletalAnimationRecursive]
    have hout : ({ cumulativeTransformsByName :=
                     (out.translated (Vec3.smul s r) r).cumulativeTransformsByName.map
                       (fun m => m.emplaceIfAbsent name
                         (((Transform.identity : Transform α).SetOrigin r).mul T))
                   jointPositions := (out.translated (Vec3.smul s r) r).jointPositions.map
                     (fun l => l ++ [worldPosition
                       (((Transform.identity : Transform α).SetOrigin r).mul T) offset s])
                   jointPositionsByName :=
                     (out.translated (Vec3.smul s r) r).jointPositionsByName.map
                       (fun m => m.emplaceIfAbsent name (worldPosition
                         (((Transform.identity : Transform α).SetOrigin r).mul T) offset s))
                   segmentPositions := (out.translated (Vec3.smul s r) r).segmentPositions } :
                 QueryOutputs α) =
        QueryOutputs.translated (Vec3.smul s r) r
          { cumulativeTransformsByName := out.cumulativeTransformsByName.map
              (fun m => m.emplaceIfAbsent name T)
            jointPositions := out.jointPositions.map (fun l => l ++ [worldPosition T offset s])
            jointPositionsByName := out.jointPositionsByName.map
              (fun m => m.emplaceIfAbsent name (worldPosition T offset s))
            segmentPositions := out.segmentPositions } := by
      simp only [QueryOutputs.translated, QueryOutputs.mk.injEq, Option.map_map, true_and,
        and_true]
      refine ⟨?_, ?_, ?_⟩
      · cases out.jointPositions with
        | none => rfl
        | some l => simp [worldPosition_translation r T hT offset s]
      · cases out.jointPositionsByName with
        | none => rfl
        | some m =>
          simp only [Option.map_some', Function.comp, Option.some.injEq]
          rw [worldPosition_translation r T hT offset s]
          exact emplaceIfAbsent_map (fun p => p.add (Vec3.smul s r)) m name _
      · cases out.cumulativeTransformsByName with
        | none => rfl
        | some m =>
          simp only [Option.map_some', Function.comp, Option.some.injEq]
          rw [Transform.translation_mul r T hT]
          exact emplaceIfAbsent_map (fun T => T.SetOrigin (T.GetOrigin.add r)) m name _
    by_cases hc : children.length = 0
    · have hnil : children = [] := List.length_eq_zero.mp hc
      subst hnil
      simp only [List.length_nil, if_true, Outcome.pure_eq_ok, Outcome.ok_bind]
      rw [QuerySkeletalAnimationChildren, QuerySkeletalAnimationChildren, hout]
      rfl
    · simp only [hc, if_false]
      cases hL : (jt.getVector name)[f]? with
      | none => rfl
      | some L =>
        have hLa : L.IsAffine := by
          obtain ⟨hlt, hget⟩ := List.getElem?_eq_some_iff.mp hL
          exact hjt name L (hget ▸ List.getElem_mem hlt)
        simp only [Outcome.ofOption, Outcome.ok_bind, Outcome.pure_eq_ok]
        rw [Transform.mul_assoc_transform, hout]
        exact QuerySkeletalAnimationChildren_translated jt s f r hjt children _ _
          (Transform.isAffine_mul _ _ hT hLa)
/-- The traversal of a list of children with a translation in front of the
cumulative transform yields the translated outputs. -/
theorem QuerySkeletalAnimationChildren_translated (jt : JointTransforms α) (s : α) (f : Nat)
    (r : Vec3 α) (hjt : ∀ key, ∀ L ∈ jt.getVector key, L.IsAffine) :
    ∀ (children : List (SkeletonJoint α)) (T : Transform α) (out : QueryOutputs α), T.IsAffine →
      QuerySkeletalAnimationChildren jt s f children
          (((Transform.identity : Transform α).SetOrigin r).mul T)
          (out.translated (Vec3.smul s r) r) =
        (QuerySkeletalAnimationChildren jt s f children T out).bind
          (fun out' => .ok (out'.translated (Vec3.smul s r) r))
  | [], T, out, hT => by
    rw [QuerySkeletalAnimationChildren, QuerySkeletalAnimationChildren]
    rfl
  | child :: rest, T, out, hT => by
    rw [QuerySkeletalAnimationChildren, QuerySkeletalAnimationChildren]
    have hout : ({ out.translated (Vec3.smul s r) r with
          segmentPositions := (out.translated (Vec3.smul s r) r).segmentPositions.map
            (fun l => l ++ [((((Transform.identity : Transform α).SetOrigin r).mul T).GetOrigin.scale s,
              worldPosition (((Transform.identity : Transform α).SetOrigin r).mul T)
                child.GetLocalOffset s)]) } : QueryOutputs α) =
        QueryOutputs.translated (Vec3.smul s r) r
          { out with
            segmentPositions := out.segmentPositions.map
              (fun l => l ++ [(T.GetOrigin.scale s, worldPosition T child.GetLocalOffset s)]) } := by
      simp only [QueryOutputs.translated, QueryOutputs.mk.injEq, Option.map_map, true_and,
        and_true]
      cases out.segmentPositions with
      | none => rfl
      | some l =>
        simp [worldPosition_translation r T hT child.GetLocalOffset s,
          GetOrigin_translation r T hT s]
    rw [hout, QuerySkeletalAnimationRecursive_translated jt s f r hjt child T _ hT]
    cases QuerySkeletalAnimationRecursive jt s f child T _ with
    | ok out1 =>
      simp only [Outcome.ok_bind]
      exact QuerySkeletalAnimationChildren_translated jt s f r hjt rest T out1 hT
    | outOfRange => rfl
    | divByZero => rfl
    | timeout => rfl
end


/-- Empty containers stay empty when they are translated. -/
theorem QueryOutputs.translated_requested (d r : Vec3 α) (a b c e : Bool) :
    (QueryOutputs.requested a b c e : QueryOutputs α).translated d r =
      QueryOutputs.requested a b c e := by
  cases a <;> cases b <;> cases c <;> cases e <;>
    simp [QueryOutputs.translated, QueryOutputs.requested] <;>
    first
      | rfl
      | exact ⟨rfl, rfl⟩

/-- The identity is neutral on the right of the product of transforms. -/
theorem Transform.mul_identity (T : Transform α) : T.mul Transform.identity = T := by
  simp [Transform.mul, Mat4.mul, Mat4.mulVec, Transform.identity, Mat4.one]

/-- C21: for a model whose stored transforms have the fourth row `(0, 0, 0, 1)`, a frame
`f` and a skeleton `k` for which `rootTrajectories[f][k]` exists, `QuerySkeletalAnimation`
with `addRootOffset = true` returns what it returns with `addRootOffset = false`, with
`skeletonScale * rootTrajectories[f][k]` added to every world position (in the list,
in the map by name and at both ends of every segment) and with every cumulative
transform moved by `SetOrigin` to its origin plus `rootTrajectories[f][k]`; and
`SetOrigin` changes no rotation. -/
theorem QuerySkeletalAnimation_root_offset_translates (model : SkeletalMotion α) (f k : Nat)
    (trajectory : List (Vec3 α)) (r : Vec3 α) (positions byName segments transforms : Bool)
    (hf : model.m_rootTrajectories[f]? = some trajectory) (hk : trajectory[k]? = some r)
    (haffine : ∀ key, ∀ L ∈ model.m_jointTransforms.getVector key, L.IsAffine) :
    model.QuerySkeletalAnimation f k true
        (QueryOutputs.requested positions byName segments transforms) =
      (model.QuerySkeletalAnimation f k false
        (QueryOutputs.requested positions byName segments transforms)).bind
        (fun out => .ok
          { jointPositions := out.jointPositions.map
              (fun l => l.map (fun p => p.add (Vec3.smul model.m_skeletonScale r)))
            jointPositionsByName := out.jointPositionsByName.map
              (fun m => (fun key => (m key).map
                (fun p => p.add (Vec3.smul model.m_skeletonScale r)) : UMap (Vec3 α)))
            segmentPositions := out.segmentPositions.map
              (fun l => l.map (fun segment =>
                (segment.1.add (Vec3.smul model.m_skeletonScale r),
                 segment.2.add (Vec3.smul model.m_skeletonScale r))))
            cumulativeTransformsByName := out.cumulativeTransformsByName.map
              (fun m => (fun key => (m key).map (fun T => T.SetOrigin (T.GetOrigin.add r)) :
                UMap (Transform α))) }) ∧
    ∀ (T : Transform α) (o : Vec3 α), (T.SetOrigin o).GetRotation = T.GetRotation := by
  refine ⟨?_, Transform.GetRotation_SetOrigin⟩
  unfold SkeletalMotion.QuerySkeletalAnimation
  by_cases h : (QueryOutputs.requested positions byName segments transforms :
      QueryOutputs α).jointPositions.isNone ∧
      (QueryOutputs.requested positions byName segments transforms :
        QueryOutputs α).jointPositionsByName.isNone ∧
      (QueryOutputs.requested positions byName segments transforms :
        QueryOutputs α).segmentPositions.isNone ∧
      (QueryOutputs.requested positions byName segments transforms :
        QueryOutputs α).cumulativeTransformsByName.isNone
  · rw [if_pos h, if_pos h]
    have := QueryOutputs.translated_requested (Vec3.smul model.m_skeletonScale r) r
      positions byName segments transforms
    simp only [Outcome.pure_eq_ok, Outcome.bind]
    exact congrArg Outcome.ok this.symm
  · rw [if_neg h, if_neg h]
    cases (model.m_skeletonRoots[k]?) with
    | none => rfl
    | some root =>
      simp only [Outcome.ofOption, Outcome.ok_bind, hf, hk, if_true, Bool.false_eq_true,
        if_false, Outcome.pure_eq_ok]
      have hmain := QuerySkeletalAnimationRecursive_translated model.m_jointTransforms
        model.m_skeletonScale f r haffine root Transform.identity
        (QueryOutputs.requested positions byName segments transforms)
        Transform.isAffine_identity
      rw [Transform.mul_identity, QueryOutputs.translated_requested] at hmain
      exact hmain

end RootOffsetTheorems

/-- The theorem on the root offset, at the model of a root `Hips` with one leaf, whose
root stands at `(5, 0, 0)` in frame 0. -/
theorem QuerySkeletalAnimation_root_offset_translates_witness :
    modelHipsLeaf.QuerySkeletalAnimation 0 0 true (QueryOutputs.requested true true true true) =
      (modelHipsLeaf.QuerySkeletalAnimation 0 0 false
        (QueryOutputs.requested true true true true)).bind
        (fun out => .ok
          { jointPositions := out.jointPositions.map
              (fun l => l.map (fun p => p.add (Vec3.smul modelHipsLeaf.m_skeletonScale ⟨5, 0, 0⟩)))
            jointPositionsByName := out.jointPositionsByName.map
              (fun m => (fun key => (m key).map
                (fun p => p.add (Vec3.smul modelHipsLeaf.m_skeletonScale ⟨5, 0, 0⟩)) :
                  UMap (Vec3 ℚ)))
            segmentPositions := out.segmentPositions.map
              (fun l => l.map (fun segment =>
                (segment.1.add (Vec3.smul modelHipsLeaf.m_skeletonScale ⟨5, 0, 0⟩),
                 segment.2.add (Vec3.smul modelHipsLeaf.m_skeletonScale ⟨5, 0, 0⟩))))
            cumulativeTransformsByName := out.cumulativeTransformsByName.map
              (fun m => (fun key => (m key).map
                (fun T => T.SetOrigin (T.GetOrigin.add ⟨5, 0, 0⟩)) : UMap (Transform ℚ))) }) ∧
    ∀ (T : Transform ℚ) (o : Vec3 ℚ), (T.SetOrigin o).GetRotation = T.GetRotation :=
  QuerySkeletalAnimation_root_offset_translates modelHipsLeaf 0 0 [⟨5, 0, 0⟩] ⟨5, 0, 0⟩
    true true true true rfl rfl (fun key L hL => by
      by_cases hkey : key = "Hips"
      · subst hkey
        have : L = Transform.ofRotationOrigin (Mat3.ofScalars 0 1 0 (-1) 0 0 0 0 1) ⟨0, 0, 0⟩ := by
          simpa [modelHipsLeaf, UMap.getVector, UMap.find, UMap.insert] using hL
        rw [this]
        exact Transform.isAffine_ofRotationOrigin _ _
      · simp [modelHipsLeaf, UMap.getVector, UMap.find, UMap.insert, UMap.empty, hkey] at hL)

/-! ## The lookups in the channel table -/

section LookupTheorems

variable {α : Type}

/-- The tokens of a header fix what is read from it. -/
theorem readsHeader_unique {lib : Lib α} {tokens : List String} {s : Nat}
    {name name' : String} {offset offset' : Vec3 α} {axes axes' : List Int} {body body' : Nat}
    (h : ReadsHeader lib tokens s name offset axes body)
    (h' : ReadsHeader lib tokens s name' offset' axes' body') :
    name = name' ∧ offset = offset' ∧ axes = axes' ∧ body = body' := by
  obtain ⟨-, -, hn, ho, -, hc⟩ := h
  obtain ⟨-, -, hn', ho', -, hc'⟩ := h'
  rw [hn] at hn'
  rw [ho] at ho'
  refine ⟨Option.some.inj hn', Outcome.ok.inj ho', ?_⟩
  rcases hc with ⟨c0, c1, c2, h8, k0, k1, k2, rfl, rfl⟩ |
    ⟨c0, c1, c2, c3, c4, c5, h8, k0, k1, k2, k3, k4, k5, rfl, rfl⟩ <;>
  rcases hc' with ⟨d0, d1, d2, h8', l0, l1, l2, rfl, rfl⟩ |
    ⟨d0, d1, d2, d3, d4, d5, h8', l0, l1, l2, l3, l4, l5, rfl, rfl⟩
  · rw [k0] at l0; rw [k1] at l1; rw [k2] at l2
    cases l0; cases l1; cases l2
    exact ⟨rfl, rfl⟩
  · rw [h8] at h8'
    exact absurd (Option.some.inj h8') (by decide)
  · rw [h8] at h8'
    exact absurd (Option.some.inj h8') (by decide)
  · rw [k0] at l0; rw [k1] at l1; rw [k2] at l2; rw [k3] at l3; rw [k4] at l4; rw [k5] at l5
    cases l0; cases l1; cases l2; cases l3; cases l4; cases l5
    exact ⟨rfl, rfl⟩

/-- The tokens of a body fix what is read from it. -/
theorem readsBody_unique {lib : Lib α} {tokens : List String} {start : Nat} {name : String}
    {cur e : Nat} {children : List (SkeletonJoint α)} {entries : List (String × List Int)}
    {sites : Nat} (h : ReadsBody lib tokens start name cur e children entries sites) :
    ∀ (e' : Nat) (children' : List (SkeletonJoint α)) (entries' : List (String × List Int))
      (sites' : Nat), ReadsBody lib tokens start name cur e' children' entries' sites' →
      e = e' ∧ children = children' ∧ entries = entries' ∧ sites = sites' := by
  induction h with
  | close start name cur hc =>
    intro e' children' entries' sites' h'
    cases h' with
    | close _ _ _ _ => exact ⟨rfl, rfl, rfl, rfl⟩
    | joint _ _ _ _ _ _ _ _ _ _ _ _ _ _ _ hj _ _ _ =>
      rw [hc] at hj; exact absurd (Option.some.inj hj) (by decide)
    | endSite _ _ _ _ _ _ _ _ he _ _ _ _ _ _ =>
      rw [hc] at he; exact absurd (Option.some.inj he) (by decide)
    | skip _ _ _ t _ _ _ _ ht hne _ _ _ =>
      rw [hc] at ht; exact absurd (Option.some.inj ht).symm hne
  | joint start name cur childName childOffset childAxes body childEnd grandChildren childEntries
      childSites e rest entries sites hj hh hb hr ih1 ih2 =>
    intro e' children' entries' sites' h'
    cases h' with
    | close _ _ _ hc =>
      rw [hj] at hc; exact absurd (Option.some.inj hc) (by decide)
    | joint _ _ _ cn co ca b ce gc cen cs _ r en si _ hh' hb' hr' =>
      obtain ⟨rfl, rfl, rfl, rfl⟩ := readsHeader_unique hh hh'
      obtain ⟨rfl, rfl, rfl, rfl⟩ := ih1 _ _ _ _ hb'
      obtain ⟨rfl, rfl, rfl, rfl⟩ := ih2 _ _ _ _ hr'
      exact ⟨rfl, rfl, rfl, rfl⟩
    | endSite _ _ _ _ _ _ _ _ he _ _ _ _ _ _ =>
      rw [hj] at he; exact absurd (Option.some.inj he) (by decide)
    | skip _ _ _ t _ _ _ _ ht _ hne _ _ =>
      rw [hj] at ht; exact absurd (Option.some.inj ht).symm hne
  | endSite start name cur offset e rest entries sites he hs h2 h3 h7 ho hb ih =>
    intro e' children' entries' sites' h'
    cases h' with
    | close _ _ _ hc =>
      rw [he] at hc; exact absurd (Option.some.inj hc) (by decide)
    | joint _ _ _ _ _ _ _ _ _ _ _ _ _ _ _ hj _ _ _ =>
      rw [he] at hj; exact absurd (Option.some.inj hj) (by decide)
    | endSite _ _ _ o' _ r en si _ _ _ _ _ ho' hb' =>
      rw [ho] at ho'
      cases Outcome.ok.inj ho'
      obtain ⟨rfl, rfl, rfl, rfl⟩ := ih _ _ _ _ hb'
      exact ⟨rfl, rfl, rfl, rfl⟩
    | skip _ _ _ t _ _ _ _ ht _ _ hnot _ =>
      rw [he] at ht
      cases Option.some.inj ht
      obtain ⟨t1, ht1, hne⟩ := hnot rfl
      rw [hs] at ht1
      exact absurd (Option.some.inj ht1).symm hne
  | skip start name cur t e rest entries sites ht hne1 hne2 hnot hb ih =>
    intro e' children' entries' sites' h'
    cases h' with
    | close _ _ _ hc =>
      rw [ht] at hc; exact absurd (Option.some.inj hc) hne1
    | joint _ _ _ _ _ _ _ _ _ _ _ _ _ _ _ hj _ _ _ =>
      rw [ht] at hj; exact absurd (Option.some.inj hj) hne2
    | endSite _ _ _ _ _ _ _ _ he hs _ _ _ _ _ =>
      rw [ht] at he
      cases Option.some.inj he
      obtain ⟨t1, ht1, hne⟩ := hnot rfl
      rw [hs] at ht1
      exact absurd (Option.some.inj ht1).symm hne
    | skip _ _ _ t' _ _ _ _ _ _ _ _ hb' => exact ih _ _ _ _ hb'

/-- The tokens of a joint block fix what is read from it. -/
theorem readsJoint_unique {lib : Lib α} {tokens : List String} {s e e' : Nat}
    {joint joint' : SkeletonJoint α} {entries entries' : List (String × List Int)}
    {sites sites' : Nat} (h : ReadsJoint lib tokens s e joint entries sites)
    (h' : ReadsJoint lib tokens s e' joint' entries' sites') :
    e = e' ∧ joint = joint' ∧ entries = entries' ∧ sites = sites' := by
  obtain ⟨name, offset, axes, body, children, nested, hh, hb, rfl, rfl⟩ := h
  obtain ⟨name', offset', axes', body', children', nested', hh', hb', rfl, rfl⟩ := h'
  obtain ⟨rfl, rfl, rfl, rfl⟩ := readsHeader_unique hh hh'
  obtain ⟨rfl, rfl, rfl, rfl⟩ := readsBody_unique hb _ _ _ _ hb'
  exact ⟨rfl, rfl, rfl, rfl⟩

/-- The tokens of a hierarchy block fix what is read from it. -/
theorem readsHierarchy_unique {lib : Lib α} {tokens : List String} {cur m : Nat}
    {roots : List (SkeletonJoint α)} {entries : List (String × List Int)} {sites : Nat}
    (h : ReadsHierarchy lib tokens cur m roots entries sites) :
    ∀ (m' : Nat) (roots' : List (SkeletonJoint α)) (entries' : List (String × List Int))
      (sites' : Nat), ReadsHierarchy lib tokens cur m' roots' entries' sites' →
      m = m' ∧ roots = roots' ∧ entries = entries' ∧ sites = sites' := by
  induction h with
  | motion cur hc =>
    intro m' roots' entries' sites' h'
    cases h' with
    | motion _ _ => exact ⟨rfl, rfl, rfl, rfl⟩
    | root _ _ _ _ _ _ _ _ _ hr _ _ _ =>
      rw [hc] at hr; exact absurd (Option.some.inj hr) (by decide)
    | skip _ t _ _ _ _ ht hne _ _ _ =>
      rw [hc] at ht; exact absurd (Option.some.inj ht).symm hne
  | root cur e joint rootEntries rootSites m roots entries sites hr hcur hj hrest ih =>
    intro m' roots' entries' sites' h'
    cases h' with
    | motion _ hc =>
      rw [hr] at hc; exact absurd (Option.some.inj hc) (by decide)
    | root _ e' j' re' rs' _ r' en' si' _ _ hj' hrest' =>
      obtain ⟨rfl, rfl, rfl, rfl⟩ := readsJoint_unique hj hj'
      obtain ⟨rfl, rfl, rfl, rfl⟩ := ih _ _ _ _ hrest'
      exact ⟨rfl, rfl, rfl, rfl⟩
    | skip _ t _ _ _ _ ht _ hne _ _ =>
      rw [hr] at ht; exact absurd (Option.some.inj ht).symm hne
  | skip cur t m roots entries sites ht hne1 hne2 h0 hrest ih =>
    intro m' roots' entries' sites' h'
    cases h' with
    | motion _ hc =>
      rw [ht] at hc; exact absurd (Option.some.inj hc) hne1
    | root _ _ _ _ _ _ _ _ _ hr _ _ _ =>
      rw [ht] at hr; exact absurd (Option.some.inj hr) hne2
    | skip _ t' _ _ _ _ _ _ _ _ hrest' => exact ih _ _ _ _ hrest'

/-- The values of `ChannelOrderToInt` are `-1`, `0`, `1` and `2`. -/
theorem ChannelOrderToInt_range (str : String) :
    ChannelOrderToInt str = -1 ∨ ChannelOrderToInt str = 0 ∨ ChannelOrderToInt str = 1 ∨
      ChannelOrderToInt str = 2 := by
  unfold ChannelOrderToInt
  split_ifs <;> simp

/-- The entry of a header holds 3 or 6 values of `ChannelOrderToInt`. -/
theorem readsHeader_entry {lib : Lib α} {tokens : List String} {s : Nat} {name : String}
    {offset : Vec3 α} {axes : List Int} {body : Nat}
    (h : ReadsHeader lib tokens s name offset axes body) : HeaderEntry (name, axes) := by
  obtain ⟨-, -, -, -, -, hchan⟩ := h
  rcases hchan with ⟨c0, c1, c2, -, -, -, -, rfl, -⟩ |
    ⟨c0, c1, c2, c3, c4, c5, -, -, -, -, -, -, -, rfl, -⟩
  · refine ⟨Or.inl rfl, ?_⟩
    intro a ha
    simp only [List.mem_cons, List.mem_singleton, List.not_mem_nil, or_false] at ha
    rcases ha with rfl | rfl | rfl <;> exact ChannelOrderToInt_range _
  · refine ⟨Or.inr rfl, ?_⟩
    intro a ha
    simp only [List.mem_cons, List.mem_singleton, List.not_mem_nil, or_false] at ha
    rcases ha with rfl | rfl | rfl | rfl | rfl | rfl <;> exact ChannelOrderToInt_range _

/-- The entries read in a body are entries of headers, and every joint with a child
that the body yields has an entry under its name. -/
theorem readsBody_entries {lib : Lib α} {tokens : List String} {start : Nat} {name : String}
    {cur e : Nat} {children : List (SkeletonJoint α)} {entries : List (String × List Int)}
    {sites : Nat} (h : ReadsBody lib tokens start name cur e children entries sites) :
    (∀ entry ∈ entries, HeaderEntry entry) ∧
    ∀ key, SkeletonJoint.animatedNamedList key children ≠ 0 → ∃ axes, (key, axes) ∈ entries := by
  induction h with
  | close start name cur hc =>
    exact ⟨fun entry he => by simp at he, fun key hk => by
      simp [SkeletonJoint.animatedNamedList] at hk⟩
  | joint start name cur childName childOffset childAxes body childEnd grandChildren childEntries
      childSites e rest entries sites hj hh hb hr ih1 ih2 =>
    constructor
    · intro entry he
      rcases List.mem_cons.mp he with rfl | he
      · exact readsHeader_entry hh
      · rcases List.mem_append.mp he with he | he
        · exact ih1.1 entry he
        · exact ih2.1 entry he
    · intro key hk
      simp only [SkeletonJoint.animatedNamedList, SkeletonJoint.animatedNamed] at hk
      by_cases h1 : grandChildren.length ≠ 0 ∧ childName = key
      · exact ⟨childAxes, by rw [← h1.2]; exact List.mem_cons_self _ _⟩
      · rw [if_neg h1] at hk
        by_cases h2 : SkeletonJoint.animatedNamedList key grandChildren ≠ 0
        · obtain ⟨axes, hax⟩ := ih1.2 key h2
          exact ⟨axes, List.mem_cons_of_mem _ (List.mem_append_left _ hax)⟩
        · have h3 : SkeletonJoint.animatedNamedList key rest ≠ 0 := by
            simp only [ne_eq, not_not] at h2
            omega
          obtain ⟨axes, hax⟩ := ih2.2 key h3
          exact ⟨axes, List.mem_cons_of_mem _ (List.mem_append_right _ hax)⟩
  | endSite start name cur offset e rest entries sites _ _ _ _ _ _ _ ih =>
    refine ⟨ih.1, fun key hk => ih.2 key ?_⟩
    simpa [SkeletonJoint.animatedNamedList, SkeletonJoint.animatedNamed] using hk
  | skip start name cur t e rest entries sites _ _ _ _ _ ih => exact ih

/-- The entries read in a joint block are entries of headers; the joint has an entry
under its name, and so has every joint with a child below it. -/
theorem readsJoint_entries {lib : Lib α} {tokens : List String} {s e : Nat}
    {joint : SkeletonJoint α} {entries : List (String × List Int)} {sites : Nat}
    (h : ReadsJoint lib tokens s e joint entries sites) :
    (∀ entry ∈ entries, HeaderEntry entry) ∧
    (∃ axes, (joint.GetName, axes) ∈ entries) ∧
    ∀ key, joint.animatedNamed key ≠ 0 → ∃ axes, (key, axes) ∈ entries := by
  obtain ⟨name, offset, axes, body, children, nested, hh, hb, rfl, rfl⟩ := h
  obtain ⟨b1, b2⟩ := readsBody_entries hb
  refine ⟨?_, ⟨axes, List.mem_cons_self _ _⟩, ?_⟩
  · intro entry he
    rcases List.mem_cons.mp he with rfl | he
    · exact readsHeader_entry hh
    · exact b1 entry he
  · intro key hk
    simp only [SkeletonJoint.animatedNamed] at hk
    by_cases h1 : children.length ≠ 0 ∧ name = key
    · exact ⟨axes, by rw [← h1.2]; exact List.mem_cons_self _ _⟩
    · rw [if_neg h1] at hk
      obtain ⟨ax, hax⟩ := b2 key (by omega)
      exact ⟨ax, List.mem_cons_of_mem _ hax⟩

/-- The entries read in a hierarchy block are entries of headers; every root has an
entry under its name, and so has every joint with a child. -/
theorem readsHierarchy_entries {lib : Lib α} {tokens : List String} {cur m : Nat}
    {roots : List (SkeletonJoint α)} {entries : List (String × List Int)} {sites : Nat}
    (h : ReadsHierarchy lib tokens cur m roots entries sites) :
    (∀ entry ∈ entries, HeaderEntry entry) ∧
    (∀ root ∈ roots, ∃ axes, (root.GetName, axes) ∈ entries) ∧
    ∀ key, SkeletonJoint.animatedNamedList key roots ≠ 0 → ∃ axes, (key, axes) ∈ entries := by
  induction h with
  | motion cur hc =>
    exact ⟨fun entry he => by simp at he, fun root hr => by simp at hr, fun key hk => by
      simp [SkeletonJoint.animatedNamedList] at hk⟩
  | root cur e joint rootEntries rootSites m roots entries sites _ _ hj _ ih =>
    obtain ⟨a1, ⟨ax, a2⟩, a3⟩ := readsJoint_entries hj
    obtain ⟨b1, b2, b3⟩ := ih
    refine ⟨?_, ?_, ?_⟩
    · intro entry he
      rcases List.mem_append.mp he with he | he
      · exact a1 entry he
      · exact b1 entry he
    · intro root hr
      rcases List.mem_cons.mp hr with rfl | hr
      · exact ⟨ax, List.mem_append_left _ a2⟩
      · obtain ⟨axes, hax⟩ := b2 root hr
        exact ⟨axes, List.mem_append_right _ hax⟩
    · intro key hk
      simp only [SkeletonJoint.animatedNamedList] at hk
      by_cases h1 : joint.animatedNamed key ≠ 0
      · obtain ⟨axes, hax⟩ := a3 key h1
        exact ⟨axes, List.mem_append_left _ hax⟩
      · obtain ⟨axes, hax⟩ := b3 key (by simp only [ne_eq, not_not] at h1; omega)
        exact ⟨axes, List.mem_append_right _ hax⟩
  | skip cur t m roots entries sites _ _ _ _ _ ih => exact ih

/-- Under a name that a header carries, the table holds the axes of a header of
this name. -/
theorem applyEntries_getVector (entries : List (String × List Int)) (key : String)
    (h : ∃ axes, (key, axes) ∈ entries) :
    ∃ entry ∈ entries, entry.1 = key ∧
      (applyEntries UMap.empty entries).getVector key = entry.2 := by
  obtain ⟨axes, hax⟩ := h
  have hfind := applyEntries_find entries UMap.empty key
  cases hf : entries.reverse.find? (fun entry => decide (entry.1 = key)) with
  | none =>
    rw [List.find?_eq_none] at hf
    have := hf (key, axes) (List.mem_reverse.mpr hax)
    simp at this
  | some entry =>
    have hmem : entry ∈ entries := List.mem_reverse.mp (List.mem_of_find?_eq_some hf)
    have hname : entry.1 = key := by
      have := List.find?_some hf
      simpa using this
    refine ⟨entry, hmem, hname, ?_⟩
    unfold UMap.getVector
    rw [hfind, hf]
    simp

/-- The lookups of one frame: for every root the entries `0..5` under its name, and for
every joint with a child the entries `0..2` under its name. -/
theorem applyEntries_axes (roots : List (SkeletonJoint α)) (entries : List (String × List Int))
    (hentries : ∀ entry ∈ entries, HeaderEntry entry)
    (hroots : ∀ root ∈ roots, ∃ axes, (root.GetName, axes) ∈ entries)
    (hnames : ∀ key, SkeletonJoint.animatedNamedList key roots ≠ 0 →
      ∃ axes, (key, axes) ∈ entries)
    (hvalid : ∀ entry ∈ entries, ∀ a ∈ entry.2, a ≠ -1)
    (hsix : ∀ root ∈ roots, ∀ entry ∈ entries, entry.1 = root.GetName → entry.2.length = 6) :
    (∀ root ∈ roots, ∀ i, i < 6 → AxisAt (applyEntries UMap.empty entries) root.GetName i) ∧
    (∀ key, SkeletonJoint.animatedNamedList key roots ≠ 0 →
      ∀ r, r < 3 → AxisAt (applyEntries UMap.empty entries) key r) := by
  have haxis : ∀ entry ∈ entries, ∀ i, i < entry.2.length →
      ∃ a, entry.2[i]? = some a ∧ (a = 0 ∨ a = 1 ∨ a = 2) := by
    intro entry he i hi
    refine ⟨entry.2[i], List.getElem?_eq_getElem hi, ?_⟩
    have hmem : entry.2[i] ∈ entry.2 := List.getElem_mem hi
    rcases (hentries entry he).2 _ hmem with h | h
    · exact absurd h (hvalid entry he _ hmem)
    · exact h
  constructor
  · intro root hr i hi
    obtain ⟨entry, he, hname, hget⟩ := applyEntries_getVector entries root.GetName (hroots root hr)
    have hlen := hsix root hr entry he hname
    unfold AxisAt
    rw [hget]
    exact haxis entry he i (by omega)
  · intro key hk r hr
    obtain ⟨entry, he, hname, hget⟩ := applyEntries_getVector entries key (hnames key hk)
    have hlen := (hentries entry he).1
    unfold AxisAt
    rw [hget]
    exact haxis entry he r (by omega)

variable [LinearOrderedField α]

mutual
/-- With the lookups of a joint and of the joints below it in range and their tokens
in the stream, `ReadFrameRecursive` returns, three tokens further for every joint
with a child. -/
theorem ReadFrameRecursive_returns (lib : Lib α) (tokens : List String) (ord : ChannelOrderings) :
    ∀ (joint : SkeletonJoint α) (b : Bool) (jt : JointTransforms α) (cur : Nat),
      (∀ i, i < 6 → b = true → AxisAt ord joint.GetName i) →
      (∀ key, joint.animatedNamed key ≠ 0 → ∀ r, r < 3 → AxisAt ord key r) →
      cur + 3 * joint.animatedCount ≤ tokens.length →
      ∃ jt', ReadFrameRecursive lib tokens ord joint b (jt, cur) =
        .ok (jt', cur + 3 * joint.animatedCount)
  | .mk name children offset, b, jt, cur, hroot, hnames, htok => by
    rw [ReadFrameRecursive]
    by_cases hc : children.length = 0
    · refine ⟨jt, ?_⟩
      have hnil : children = [] := List.length_eq_zero.mp hc
      subst hnil
      simp [SkeletonJoint.animatedCount, SkeletonJoint.animatedCountList]
    · simp only [SkeletonJoint.animatedCount, hc, if_false] at htok ⊢
      have hself : ∀ r, r < 3 → AxisAt ord name ((if b then 3 else 0) + r) := by
        intro r hr
        cases b with
        | true => exact hroot (3 + r) (by omega) rfl
        | false =>
          simp only [Bool.false_eq_true, if_false, Nat.zero_add]
          exact hnames name (by simp [SkeletonJoint.animatedNamed, hc]) r hr
      have hread : ∀ r, r < 3 → ∃ g, readRotation lib tokens ord name b cur r = .ok g := by
        intro r hr
        obtain ⟨a, ha, -⟩ := hself r hr
        have hlt : cur + r < tokens.length := by omega
        exact ⟨_, readRotation_eq lib tokens ord name b cur r a tokens[cur + r] ha
          (List.getElem?_eq_getElem hlt)⟩
      obtain ⟨g0, h0⟩ := hread 0 (by omega)
      obtain ⟨g1, h1⟩ := hread 1 (by omega)
      obtain ⟨g2, h2⟩ := hread 2 (by omega)
      obtain ⟨jt', h⟩ := ReadFrameChildren_returns lib tokens ord children
        (appendTransform jt name
          (Transform.ofRotationOrigin (((Mat3.one.mul g0).mul g1).mul g2) offset)) (cur + 3)
        (fun key hk r hr => hnames key (by
          simp only [SkeletonJoint.animatedNamed]
          omega) r hr)
        (by omega)
      refine ⟨jt', ?_⟩
      simp only [h0, h1, h2, Outcome.ok_bind]
      rw [h]
      congr 2
      omega
/-- With the lookups in range and the tokens in the stream, the loop over the
children returns. -/
theorem ReadFrameChildren_returns (lib : Lib α) (tokens : List String) (ord : ChannelOrderings) :
    ∀ (children : List (SkeletonJoint α)) (jt : JointTransforms α) (cur : Nat),
      (∀ key, SkeletonJoint.animatedNamedList key children ≠ 0 → ∀ r, r < 3 → AxisAt ord key r) →
      cur + 3 * SkeletonJoint.animatedCountList children ≤ tokens.length →
      ∃ jt', ReadFrameChildren lib tokens ord children (jt, cur) =
        .ok (jt', cur + 3 * SkeletonJoint.animatedCountList children)
  | [], jt, cur, hnames, htok => by
    refine ⟨jt, ?_⟩
    rw [ReadFrameChildren]
    simp [SkeletonJoint.animatedCountList]
  | child :: rest, jt, cur, hnames, htok => by
    rw [ReadFrameChildren]
    simp only [SkeletonJoint.animatedCountList] at htok ⊢
    obtain ⟨jt1, h1⟩ := ReadFrameRecursive_returns lib tokens ord child false jt cur
      (fun i _ hb => by simp at hb)
      (fun key hk r hr => hnames key (by
        simp only [SkeletonJoint.animatedNamedList]
        omega) r hr)
      (by omega)
    obtain ⟨jt2, h2⟩ := ReadFrameChildren_returns lib tokens ord rest jt1
      (cur + 3 * child.animatedCount)
      (fun key hk r hr => hnames key (by
        simp only [SkeletonJoint.animatedNamedList]
        omega) r hr)
      (by omega)
    refine ⟨jt2, ?_⟩
    simp only [h1, Outcome.ok_bind]
    rw [h2]
    congr 2
    omega
end

/-- With the lookups in range and the tokens of the frame in the stream, the loop
over the roots returns. -/
theorem rootLoop_returns (lib : Lib α) (tokens : List String) (ord : ChannelOrderings) :
    ∀ (roots : List (SkeletonJoint α)) (rp : List (Vec3 α)) (jt : JointTransforms α) (cur : Nat),
      (∀ root ∈ roots, ∀ i, i < 6 → AxisAt ord root.GetName i) →
      (∀ key, SkeletonJoint.animatedNamedList key roots ≠ 0 → ∀ r, r < 3 → AxisAt ord key r) →
      cur + frameTokens roots ≤ tokens.length →
      ∃ rp' jt', rootLoop lib tokens ord roots (rp, jt, cur) =
        .ok (rp', jt', cur + frameTokens roots)
  | [], rp, jt, cur, hroots, hnames, htok => by
    refine ⟨rp, jt, ?_⟩
    rw [rootLoop]
    simp [frameTokens]
  | root :: rest, rp, jt, cur, hroots, hnames, htok => by
    rw [rootLoop]
    simp only [frameTokens] at htok ⊢
    have hcomp : ∀ i, i < 3 → ∀ v : Vec3 α, ∃ v',
        readRootComponent lib tokens ord root.GetName cur i v = .ok v' := by
      intro i hi v
      obtain ⟨a, ha, hrange⟩ := hroots root (List.mem_cons_self _ _) i (by omega)
      have hlt : cur + i < tokens.length := by omega
      unfold readRootComponent
      rw [ha, tokenAt_eq_ok.mpr (List.getElem?_eq_getElem hlt)]
      simp only [Outcome.ofOption, Outcome.ok_bind, Vec3.setComponent]
      rcases hrange with rfl | rfl | rfl
      · exact ⟨{ v with x := lib.atof tokens[cur + i] }, by simp⟩
      · exact ⟨{ v with y := lib.atof tokens[cur + i] }, by simp⟩
      · exact ⟨{ v with z := lib.atof tokens[cur + i] }, by simp⟩
    obtain ⟨p0, h0⟩ := hcomp 0 (by omega) ⟨0, 0, 0⟩
    obtain ⟨p1, h1⟩ := hcomp 1 (by omega) p0
    obtain ⟨p2, h2⟩ := hcomp 2 (by omega) p1
    obtain ⟨jt1, hr⟩ := ReadFrameRecursive_returns lib tokens ord root true jt (cur + 3)
      (fun i hi _ => hroots root (List.mem_cons_self _ _) i hi)
      (fun key hk r hr => hnames key (by
        simp only [SkeletonJoint.animatedNamedList]
        omega) r hr)
      (by omega)
    obtain ⟨rp', jt', hrest⟩ := rootLoop_returns lib tokens ord rest (rp ++ [p2]) jt1
      (cur + 3 + 3 * root.animatedCount)
      (fun root' hr' => hroots root' (List.mem_cons_of_mem _ hr'))
      (fun key hk r hr => hnames key (by
        simp only [SkeletonJoint.animatedNamedList]
        omega) r hr)
      (by omega)
    refine ⟨rp', jt', ?_⟩
    simp only [h0, h1, h2, hr, Outcome.ok_bind]
    rw [hrest]
    congr 3
    omega

/-- C23 (amended): when the first loop of `BVHImport` ends at `MOTION`, the channel table is
the table of the headers that a reading of the hierarchy block finds, in their
order. If no channel token of these headers is mapped to `-1` and every header that
carries the name of a root declares 6 channels, then every lookup made while
reading frame data is in range and yields an axis index in `0..2`: the indices
`0..5` under the name of a root, and the indices `0..2` under the name of a joint
with a child; and reading one frame returns whenever the tokens of the frame are
in the stream. -/
theorem hierarchyLoop_channel_lookups (lib : Lib α) (tokens : List String) (fuel m : Nat)
    (roots : List (SkeletonJoint α)) (ord : ChannelOrderings)
    (entries : List (String × List Int)) (sites : Nat)
    (hh : hierarchyLoop lib tokens fuel 0 [] UMap.empty = .ok (some (m, roots, ord)))
    (hr : ReadsHierarchy lib tokens 0 m roots entries sites)
    (hvalid : ∀ entry ∈ entries, ∀ a ∈ entry.2, a ≠ -1)
    (hsix : ∀ root ∈ roots, ∀ entry ∈ entries, entry.1 = root.GetName → entry.2.length = 6) :
    ord = applyEntries UMap.empty entries ∧
    (∀ root ∈ roots, ∀ i, i < 6 → AxisAt ord root.GetName i) ∧
    (∀ key, SkeletonJoint.animatedNamedList key roots ≠ 0 → ∀ r, r < 3 → AxisAt ord key r) ∧
    (∀ (rootPositions : List (Vec3 α)) (jt : JointTransforms α) (cur : Nat),
      cur + frameTokens roots ≤ tokens.length →
      ∃ rootPositions' jt', rootLoop lib tokens ord roots (rootPositions, jt, cur) =
        .ok (rootPositions', jt', cur + frameTokens roots)) := by
  obtain ⟨newRoots, entries0, sites0, hr0, hroots, hord⟩ :=
    hierarchyLoop_reads lib tokens fuel 0 [] UMap.empty m roots ord LoopReaches.start hh
  simp only [List.nil_append] at hroots
  subst hroots
  obtain ⟨-, -, rfl, -⟩ := readsHierarchy_unique hr _ _ _ _ hr0
  obtain ⟨e1, e2, e3⟩ := readsHierarchy_entries hr
  obtain ⟨s1, s2⟩ := applyEntries_axes roots entries e1 e2 e3 hvalid hsix
  rw [hord]
  exact ⟨rfl, s1, s2, fun rp jt cur htok => rootLoop_returns lib tokens _ roots rp jt cur s1 s2 htok⟩

end LookupTheorems

/-- The theorem on the channel lookups, at the well-formed stream of two frames: its
hierarchy block holds the header of `Hips` with six channels and one `End Site`. -/
theorem hierarchyLoop_channel_lookups_witness :
    (UMap.empty : ChannelOrderings).insert "Hips" [0, 1, 2, 2, 0, 1] =
      applyEntries UMap.empty [("Hips", [0, 1, 2, 2, 0, 1])] ∧
    (∀ root ∈ ([.mk "Hips" [.mk "Hips_end" [] ⟨0, 0, 0⟩] ⟨0, 0, 0⟩] : List (SkeletonJoint ℚ)),
      ∀ i, i < 6 →
        AxisAt ((UMap.empty : ChannelOrderings).insert "Hips" [0, 1, 2, 2, 0, 1]) root.GetName i) ∧
    (∀ key, SkeletonJoint.animatedNamedList key
        ([.mk "Hips" [.mk "Hips_end" [] ⟨0, 0, 0⟩] ⟨0, 0, 0⟩] : List (SkeletonJoint ℚ)) ≠ 0 →
      ∀ r, r < 3 →
        AxisAt ((UMap.empty : ChannelOrderings).insert "Hips" [0, 1, 2, 2, 0, 1]) key r) ∧
    (∀ (rootPositions : List (Vec3 ℚ)) (jt : JointTransforms ℚ) (cur : Nat),
      cur + frameTokens
          ([.mk "Hips" [.mk "Hips_end" [] ⟨0, 0, 0⟩] ⟨0, 0, 0⟩] : List (SkeletonJoint ℚ)) ≤
        streamTwoFrames.length →
      ∃ rootPositions' jt', rootLoop rationalLib streamTwoFrames
          ((UMap.empty : ChannelOrderings).insert "Hips" [0, 1, 2, 2, 0, 1])
          [.mk "Hips" [.mk "Hips_end" [] ⟨0, 0, 0⟩] ⟨0, 0, 0⟩] (rootPositions, jt, cur) =
        .ok (rootPositions', jt', cur + frameTokens
          ([.mk "Hips" [.mk "Hips_end" [] ⟨0, 0, 0⟩] ⟨0, 0, 0⟩] : List (SkeletonJoint ℚ)))) :=
  hierarchyLoop_channel_lookups rationalLib streamTwoFrames 10 25
    [.mk "Hips" [.mk "Hips_end" [] ⟨0, 0, 0⟩] ⟨0, 0, 0⟩]
    ((UMap.empty : ChannelOrderings).insert "Hips" [0, 1, 2, 2, 0, 1])
    [("Hips", [0, 1, 2, 2, 0, 1])] 1 rfl
    (ReadsHierarchy.skip 0 "HIERARCHY" 25 _ _ _ rfl (by decide) (by decide) (fun _ => rfl)
      (ReadsHierarchy.root 1 24 (.mk "Hips" [.mk "Hips_end" [] ⟨0, 0, 0⟩] ⟨0, 0, 0⟩)
        [("Hips", [0, 1, 2, 2, 0, 1])] 1 25 [] [] 0 rfl (by decide)
        ⟨"Hips", ⟨0, 0, 0⟩, [0, 1, 2, 2, 0, 1], 16, [.mk "Hips_end" [] ⟨0, 0, 0⟩], [],
          ⟨rfl, rfl, rfl, rfl, rfl, Or.inr ⟨"Xposition", "Yposition", "Zposition", "Zrotation",
            "Xrotation", "Yrotation", rfl, rfl, rfl, rfl, rfl, rfl, rfl, rfl, rfl⟩⟩,
          ReadsBody.endSite 1 "Hips" 16 ⟨0, 0, 0⟩ 24 [] [] 0 rfl rfl rfl rfl rfl rfl
            (ReadsBody.close 1 "Hips" 24 rfl),
          rfl, rfl⟩
        (ReadsHierarchy.motion 25 rfl)))
    (by decide) (by decide)

/-- Counterexample to C23 as stated: the hierarchy block of a root that declares
`CHANNELS 3` is accepted, the table holds three values under the name of the root, the
lookup at index 3 is out of range, and the import fails on it; and the hierarchy
block of a root whose sixth channel is `Wrotation` is accepted, the table holds `-1`
at index 5 under the name of the root, and the import returns a model. -/
theorem accepted_short_root_and_unknown_channel :
    (∃ ord, hierarchyLoop rationalLib streamRootThreeChannels 10 0 [] UMap.empty =
        .ok (some (22, [.mk "Hips" [.mk "Hips_end" [] ⟨0, 0, 0⟩] ⟨0, 0, 0⟩], ord)) ∧
      ord.getVector "Hips" = [2, 0, 1] ∧ (ord.getVector "Hips")[3]? = none ∧
      BVHImport rationalLib 10 "a.bvh" streamRootThreeChannels = .outOfRange) ∧
    (∃ ord, hierarchyLoop rationalLib streamUnknownChannel 10 0 [] UMap.empty =
        .ok (some (25, [.mk "Hips" [.mk "Hips_end" [] ⟨0, 0, 0⟩] ⟨0, 0, 0⟩], ord)) ∧
      ChannelOrderToInt "Wrotation" = -1 ∧
      (ord.getVector "Hips")[5]? = some (-1) ∧
      ∃ model, BVHImport rationalLib 10 "a.bvh" streamUnknownChannel = .ok (some model)) :=
  ⟨⟨_, rfl, rfl, rfl, rfl⟩, ⟨_, rfl, rfl, rfl, _, rfl⟩⟩

/-! ## The rotation of a stored transform and the channel table -/

section TableRotationTheorems

variable {α : Type} [LinearOrderedField α]

/-- C7 (amended): the channel table of a hierarchy block holds under a name the axes of
the last header that carries the name.  For a joint with at least one child, with
`a1, a2, a3` the axes that the table holds under the name of the joint at the
entries 0..2 (at the entries 3..5 for a root), and with the three frame tokens
`v1, v2, v3`, `ReadFrameRecursive` appends under the joint name a transform `T` whose
rotation is
`GetRotationMatrix(a1, v1) * GetRotationMatrix(a2, v2) * GetRotationMatrix(a3, v3)`
and whose origin is the local offset of the joint: the call continues with the
children from the table extended by `T`, it returns when the reading of the
children does, and in the table it returns `T` follows the entries that were
stored under the name before. -/
theorem ReadFrameRecursive_rotation_in_declared_order (lib : Lib α) (tokens : List String)
    (ord : ChannelOrderings) (name : String) (children : List (SkeletonJoint α))
    (offset : Vec3 α) (bIsRoot : Bool) (jt : JointTransforms α) (cur : Nat)
    (a1 a2 a3 : Int) (v1 v2 v3 : String)
    (hchildren : children ≠ [])
    (ha1 : (ord.getVector name)[(if bIsRoot then 3 else 0) + 0]? = some a1)
    (ha2 : (ord.getVector name)[(if bIsRoot then 3 else 0) + 1]? = some a2)
    (ha3 : (ord.getVector name)[(if bIsRoot then 3 else 0) + 2]? = some a3)
    (hv1 : tokens[cur + 0]? = some v1) (hv2 : tokens[cur + 1]? = some v2)
    (hv3 : tokens[cur + 2]? = some v3) :
    (∀ (entries : List (String × List Int)) (axes : List Int),
      ord = applyEntries UMap.empty entries →
      entries.reverse.find? (fun entry => decide (entry.1 = name)) = some (name, axes) →
      ord.getVector name = axes) ∧
    ∃ T : Transform α,
      T.GetRotation = ((GetRotationMatrix lib a1 (lib.atof v1)).mul
        (GetRotationMatrix lib a2 (lib.atof v2))).mul (GetRotationMatrix lib a3 (lib.atof v3)) ∧
      T.GetOrigin = offset ∧
      ReadFrameRecursive lib tokens ord (.mk name children offset) bIsRoot (jt, cur) =
        ReadFrameChildren lib tokens ord children (appendTransform jt name T, cur + 3) ∧
      ∀ jt' cur', ReadFrameChildren lib tokens ord children (appendTransform jt name T, cur + 3) =
          .ok (jt', cur') →
        ReadFrameRecursive lib tokens ord (.mk name children offset) bIsRoot (jt, cur) =
          .ok (jt', cur') ∧
        ∃ rest, jt'.getVector name = jt.getVector name ++ T :: rest := by
  have hc : ¬ children.length = 0 := fun h => hchildren (List.length_eq_zero.mp h)
  have hrec : ReadFrameRecursive lib tokens ord (.mk name children offset) bIsRoot (jt, cur) =
      ReadFrameChildren lib tokens ord children
        (appendTransform jt name (Transform.ofRotationOrigin
          (((GetRotationMatrix lib a1 (lib.atof v1)).mul
            (GetRotationMatrix lib a2 (lib.atof v2))).mul
              (GetRotationMatrix lib a3 (lib.atof v3))) offset), cur + 3) := by
    rw [ReadFrameRecursive, if_neg hc,
      readRotation_eq lib tokens ord name bIsRoot cur 0 a1 v1 ha1 hv1,
      readRotation_eq lib tokens ord name bIsRoot cur 1 a2 v2 ha2 hv2,
      readRotation_eq lib tokens ord name bIsRoot cur 2 a3 v3 ha3 hv3]
    simp only [Outcome.ok_bind, Mat3.one_mul_left]
  refine ⟨?_, _, Transform.GetRotation_ofRotationOrigin _ _,
    Transform.GetOrigin_ofRotationOrigin _ _, hrec, ?_⟩
  · intro entries axes hord hlast
    rw [hord]
    unfold UMap.getVector
    rw [applyEntries_find, hlast]
    rfl
  · intro jt' cur' h
    refine ⟨hrec.trans h, ?_⟩
    obtain ⟨rest, e⟩ := ReadFrameChildren_keeps_entries lib tokens ord children _ _ _ _ h name
    exact ⟨rest, by rw [e, appendTransform_getVector_self, List.append_assoc]; rfl⟩

end TableRotationTheorems

/-- The theorem on the stored transform, at the first joint `Leg` of the stream with two
joints of this name and at its frame tokens `90 0 0`: the table holds under `Leg` the
axes 0, 1, 2 of `Xrotation Yrotation Zrotation`, the channels of the last header that
carries the name, and the call returns, three tokens further, a table that holds
under `Leg` the quarter turn about the axis 0. -/
theorem ReadFrameRecursive_rotation_in_declared_order_witness :
    ((∀ (entries : List (String × List Int)) (axes : List Int),
      (applyEntries UMap.empty
          [("Hips", [0, 1, 2, 2, 0, 1]), ("Leg", [2, 0, 1]), ("Leg", [0, 1, 2])] :
            ChannelOrderings) = applyEntries UMap.empty entries →
      entries.reverse.find? (fun entry => decide (entry.1 = "Leg")) = some ("Leg", axes) →
      (applyEntries UMap.empty
          [("Hips", [0, 1, 2, 2, 0, 1]), ("Leg", [2, 0, 1]), ("Leg", [0, 1, 2])] :
            ChannelOrderings).getVector "Leg" = axes) ∧
    ∃ T : Transform ℚ,
      T.GetRotation = ((GetRotationMatrix quarterTurnLib 0 (quarterTurnLib.atof "90")).mul
        (GetRotationMatrix quarterTurnLib 1 (quarterTurnLib.atof "0"))).mul
          (GetRotationMatrix quarterTurnLib 2 (quarterTurnLib.atof "0")) ∧
      T.GetOrigin = ⟨1, 0, 0⟩ ∧
      ReadFrameRecursive quarterTurnLib streamTwoLegsOrders
          (applyEntries UMap.empty
            [("Hips", [0, 1, 2, 2, 0, 1]), ("Leg", [2, 0, 1]), ("Leg", [0, 1, 2])])
          (.mk "Leg" [.mk "Leg_end" [] ⟨1, 0, 0⟩] ⟨1, 0, 0⟩) false (UMap.empty, 71) =
        ReadFrameChildren quarterTurnLib streamTwoLegsOrders
          (applyEntries UMap.empty
            [("Hips", [0, 1, 2, 2, 0, 1]), ("Leg", [2, 0, 1]), ("Leg", [0, 1, 2])])
          [.mk "Leg_end" [] ⟨1, 0, 0⟩] (appendTransform UMap.empty "Leg" T, 71 + 3) ∧
      ∀ jt' cur', ReadFrameChildren quarterTurnLib streamTwoLegsOrders
          (applyEntries UMap.empty
            [("Hips", [0, 1, 2, 2, 0, 1]), ("Leg", [2, 0, 1]), ("Leg", [0, 1, 2])])
          [.mk "Leg_end" [] ⟨1, 0, 0⟩] (appendTransform UMap.empty "Leg" T, 71 + 3) =
            .ok (jt', cur') →
        ReadFrameRecursive quarterTurnLib streamTwoLegsOrders
            (applyEntries UMap.empty
              [("Hips", [0, 1, 2, 2, 0, 1]), ("Leg", [2, 0, 1]), ("Leg", [0, 1, 2])])
            (.mk "Leg" [.mk "Leg_end" [] ⟨1, 0, 0⟩] ⟨1, 0, 0⟩) false (UMap.empty, 71) =
          .ok (jt', cur') ∧
        ∃ rest, jt'.getVector "Leg" =
          (UMap.empty : JointTransforms ℚ).getVector "Leg" ++ T :: rest) ∧
    ReadFrameRecursive quarterTurnLib streamTwoLegsOrders
        (applyEntries UMap.empty
          [("Hips", [0, 1, 2, 2, 0, 1]), ("Leg", [2, 0, 1]), ("Leg", [0, 1, 2])])
        (.mk "Leg" [.mk "Leg_end" [] ⟨1, 0, 0⟩] ⟨1, 0, 0⟩) false (UMap.empty, 71) =
      .ok (appendTransform UMap.empty "Leg"
        (Transform.ofRotationOrigin
          (((Mat3.one.mul (GetRotationMatrix quarterTurnLib 0 90)).mul
            (GetRotationMatrix quarterTurnLib 1 0)).mul (GetRotationMatrix quarterTurnLib 2 0))
          ⟨1, 0, 0⟩), 74) ∧
    ((Mat3.one.mul (GetRotationMatrix quarterTurnLib 0 90)).mul
        (GetRotationMatrix quarterTurnLib 1 0)).mul (GetRotationMatrix quarterTurnLib 2 0) =
      Mat3.ofScalars 1 0 0 0 0 (-1) 0 1 0 :=
  ⟨ReadFrameRecursive_rotation_in_declared_order quarterTurnLib streamTwoLegsOrders
      (applyEntries UMap.empty
        [("Hips", [0, 1, 2, 2, 0, 1]), ("Leg", [2, 0, 1]), ("Leg", [0, 1, 2])]) "Leg"
      [.mk "Leg_end" [] ⟨1, 0, 0⟩] ⟨1, 0, 0⟩ false UMap.empty 71 0 1 2 "90" "0" "0"
      (by simp) rfl rfl rfl rfl rfl rfl,
    rfl,
    by norm_num [GetRotationMatrix, quarterTurnLib, Mat3.mul, Mat3.mulVec, Mat3.one,
      Mat3.ofScalars]⟩

/-- Counterexample to C7 as stated: in the stream with two joints named `Leg`, the first
`Leg` declares `CHANNELS 3 Zrotation Xrotation Yrotation` and has the frame values `90 0 0`.
The import returns a model whose first transform under `Leg`, the one with the
local offset `(1, 0, 0)` of the first `Leg`, has the rotation
`GetRotationMatrix(0, 90) * GetRotationMatrix(1, 0) * GetRotationMatrix(2, 0)`, the
quarter turn about the axis 0, by the channels `Xrotation Yrotation Zrotation` of the
second `Leg`; the product in the declared order, the quarter turn about the axis 2,
is another matrix. -/
theorem import_rotation_by_later_header :
    ChannelOrderToInt "Zrotation" = 2 ∧ ChannelOrderToInt "Xrotation" = 0 ∧
    ChannelOrderToInt "Yrotation" = 1 ∧
    (streamTwoLegsOrders.drop 23).take 5 =
      ["CHANNELS", "3", "Zrotation", "Xrotation", "Yrotation"] ∧
    (streamTwoLegsOrders.drop 71).take 3 = ["90", "0", "0"] ∧
    (∃ model, BVHImport quarterTurnLib 20 "a.bvh" streamTwoLegsOrders = .ok (some model) ∧
      model.m_skeletonRoots =
        [.mk "Hips" [.mk "Leg" [.mk "Leg_end" [] ⟨1, 0, 0⟩] ⟨1, 0, 0⟩,
                     .mk "Leg" [.mk "Leg_end" [] ⟨-1, 0, 0⟩] ⟨-1, 0, 0⟩] ⟨0, 0, 0⟩] ∧
      (model.m_jointTransforms.getVector "Leg")[0]? =
        some (Transform.ofRotationOrigin
          (((Mat3.one.mul (GetRotationMatrix quarterTurnLib 0 90)).mul
            (GetRotationMatrix quarterTurnLib 1 0)).mul (GetRotationMatrix quarterTurnLib 2 0))
          ⟨1, 0, 0⟩)) ∧
    ((Mat3.one.mul (GetRotationMatrix quarterTurnLib 0 90)).mul
        (GetRotationMatrix quarterTurnLib 1 0)).mul (GetRotationMatrix quarterTurnLib 2 0) =
      Mat3.ofScalars 1 0 0 0 0 (-1) 0 1 0 ∧
    ((GetRotationMatrix quarterTurnLib 2 90).mul
        (GetRotationMatrix quarterTurnLib 0 0)).mul (GetRotationMatrix quarterTurnLib 1 0) =
      Mat3.ofScalars 0 (-1) 0 1 0 0 0 0 1 ∧
    (Mat3.ofScalars 1 0 0 0 0 (-1) 0 1 0 : Mat3 ℚ) ≠ Mat3.ofScalars 0 (-1) 0 1 0 0 0 0 1 :=
  ⟨rfl, rfl, rfl, rfl, rfl, ⟨_, rfl, rfl, rfl⟩,
    by norm_num [GetRotationMatrix, quarterTurnLib, Mat3.mul, Mat3.mulVec, Mat3.one,
      Mat3.ofScalars],
    by norm_num [GetRotationMatrix, quarterTurnLib, Mat3.mul, Mat3.mulVec, Mat3.one,
      Mat3.ofScalars],
    by simp [Mat3.ofScalars]⟩

/-! ## The root positions of an imported model -/

section RootPositionTheorems

variable {α : Type} [LinearOrderedField α]

/-- The three assignments to `rootPosition`, with the axes of a permutation of
`0, 1, 2`: component `a_i` of the vector is `atof` of the token `i`. -/
theorem readRootComponent_thrice (lib : Lib α) (tokens : List String) (ord : ChannelOrderings)
    (name : String) (cur : Nat) (a0 a1 a2 : Int) (p0 p1 p : Vec3 α)
    (h0 : (ord.getVector name)[0]? = some a0) (h1 : (ord.getVector name)[1]? = some a1)
    (h2 : (ord.getVector name)[2]? = some a2) (hperm : [a0, a1, a2].Perm [0, 1, 2])
    (r0 : readRootComponent lib tokens ord name cur 0 ⟨0, 0, 0⟩ = .ok p0)
    (r1 : readRootComponent lib tokens ord name cur 1 p0 = .ok p1)
    (r2 : readRootComponent lib tokens ord name cur 2 p1 = .ok p) :
    ∃ t0 t1 t2, tokens[cur]? = some t0 ∧ tokens[cur + 1]? = some t1 ∧
      tokens[cur + 2]? = some t2 ∧ p.component a0 = some (lib.atof t0) ∧
      p.component a1 = some (lib.atof t1) ∧ p.component a2 = some (lib.atof t2) := by
  have hm0 : a0 ∈ [(0 : Int), 1, 2] := hperm.subset (by simp)
  have hm1 : a1 ∈ [(0 : Int), 1, 2] := hperm.subset (by simp)
  have hm2 : a2 ∈ [(0 : Int), 1, 2] := hperm.subset (by simp)
  have hnd : [a0, a1, a2].Nodup := hperm.nodup_iff.mpr (by decide)
  simp only [List.mem_cons, List.mem_singleton, List.not_mem_nil, or_false] at hm0 hm1 hm2
  simp only [List.nodup_cons, List.mem_cons, List.mem_singleton, List.not_mem_nil, or_false,
    not_or, not_false_eq_true, List.nodup_nil, and_true] at hnd
  obtain ⟨⟨n01, n02⟩, n12⟩ := hnd
  simp only [readRootComponent, h0, h1, h2, Outcome.ofOption, Outcome.ok_bind,
    Outcome.bind_eq_ok, tokenAt_eq_ok] at r0 r1 r2
  obtain ⟨t0, k0, r0⟩ := r0
  obtain ⟨t1, k1, r1⟩ := r1
  obtain ⟨t2, k2, r2⟩ := r2
  refine ⟨t0, t1, t2, by simpa using k0, k1, k2, ?_⟩
  rcases hm0 with rfl | rfl | rfl <;> rcases hm1 with rfl | rfl | rfl <;>
    rcases hm2 with rfl | rfl | rfl <;>
    first
    | exact absurd rfl n01
    | exact absurd rfl n02
    | exact absurd rfl n12
    | (simp [Vec3.setComponent] at r0 r1 r2
       subst r0 r1 r2
       simp [Vec3.component])

/-- The loop over the roots appends one vector for every root, in the order of the
roots; the vector of root `k` is made by the three assignments from the tokens that
follow the tokens of the roots before it. -/
theorem rootLoop_positions (lib : Lib α) (tokens : List String) (ord : ChannelOrderings) :
    ∀ (roots : List (SkeletonJoint α)) (rp : List (Vec3 α)) (jt : JointTransforms α) (cur : Nat)
      (rp' : List (Vec3 α)) (jt' : JointTransforms α) (cur' : Nat),
      rootLoop lib tokens ord roots (rp, jt, cur) = .ok (rp', jt', cur') →
      ∃ ps, rp' = rp ++ ps ∧ ∀ k root, roots[k]? = some root →
        ∃ p p0 p1, ps[k]? = some p ∧
          readRootComponent lib tokens ord root.GetName (cur + frameTokens (roots.take k)) 0
            ⟨0, 0, 0⟩ = .ok p0 ∧
          readRootComponent lib tokens ord root.GetName (cur + frameTokens (roots.take k)) 1
            p0 = .ok p1 ∧
          readRootComponent lib tokens ord root.GetName (cur + frameTokens (roots.take k)) 2
            p1 = .ok p
  | [], rp, jt, cur, rp', jt', cur', h => by
    rw [rootLoop] at h
    simp only [Outcome.pure_eq_ok, Outcome.ok.injEq, Prod.mk.injEq] at h
    obtain ⟨rfl, -, -⟩ := h
    exact ⟨[], by simp, fun k root hk => by simp at hk⟩
  | root :: rest, rp, jt, cur, rp', jt', cur', h => by
    rw [rootLoop] at h
    simp only [Outcome.bind_eq_ok] at h
    obtain ⟨p0, h0, p1, h1, p2, h2, ⟨jt1, cur1⟩, hr, h⟩ := h
    dsimp only at h
    obtain ⟨e1, -⟩ := ReadFrameRecursive_effect lib tokens ord root true jt (cur + 3) jt1 cur1 hr
    obtain ⟨ps, hps, hrest⟩ := rootLoop_positions lib tokens ord rest _ _ _ _ _ _ h
    refine ⟨p2 :: ps, by rw [hps]; simp, ?_⟩
    intro k root' hk
    cases k with
    | zero =>
      simp only [List.getElem?_cons_zero, Option.some.injEq] at hk
      subst hk
      exact ⟨p2, p0, p1, by simp, by simpa [frameTokens] using h0,
        by simpa [frameTokens] using h1, by simpa [frameTokens] using h2⟩
    | succ k =>
      simp only [List.getElem?_cons_succ] at hk
      obtain ⟨p, q0, q1, hp, g0, g1, g2⟩ := hrest k root' hk
      have hidx : cur + frameTokens ((root :: rest).take (k + 1)) =
          cur1 + frameTokens (rest.take k) := by
        simp only [List.take_succ_cons, frameTokens]
        omega
      rw [hidx]
      exact ⟨p, q0, q1, by simpa using hp, g0, g1, g2⟩

/-- The loop over the frames appends one list for every frame; the vector of root `k`
in frame `f` is made from the tokens that follow the tokens of the frames before
`f` and of the roots before `k`. -/
theorem frameLoop_positions (lib : Lib α) (tokens : List String) (ord : ChannelOrderings)
    (roots : List (SkeletonJoint α)) :
    ∀ (n : Nat) (rt : List (List (Vec3 α))) (jt : JointTransforms α) (cur : Nat)
      (rt' : List (List (Vec3 α))) (jt' : JointTransforms α) (cur' : Nat),
      frameLoop lib tokens ord roots n (rt, jt, cur) = .ok (rt', jt', cur') →
      ∃ fs, rt' = rt ++ fs ∧ ∀ f, f < n → ∃ ps, fs[f]? = some ps ∧
        ∀ k root, roots[k]? = some root →
          ∃ p p0 p1, ps[k]? = some p ∧
            readRootComponent lib tokens ord root.GetName
              (cur + f * frameTokens roots + frameTokens (roots.take k)) 0 ⟨0, 0, 0⟩ = .ok p0 ∧
            readRootComponent lib tokens ord root.GetName
              (cur + f * frameTokens roots + frameTokens (roots.take k)) 1 p0 = .ok p1 ∧
            readRootComponent lib tokens ord root.GetName
              (cur + f * frameTokens roots + frameTokens (roots.take k)) 2 p1 = .ok p
  | 0, rt, jt, cur, rt', jt', cur', h => by
    rw [frameLoop] at h
    simp only [Outcome.pure_eq_ok, Outcome.ok.injEq, Prod.mk.injEq] at h
    obtain ⟨rfl, -, -⟩ := h
    exact ⟨[], by simp, fun f hf => absurd hf (Nat.not_lt_zero f)⟩
  | n + 1, rt, jt, cur, rt', jt', cur', h => by
    rw [frameLoop] at h
    simp only [Outcome.bind_eq_ok] at h
    obtain ⟨⟨rp1, jt1, cur1⟩, h1, h⟩ := h
    dsimp only at h
    obtain ⟨-, e2, -⟩ := rootLoop_effect lib tokens ord roots _ _ _ _ _ _ h1
    obtain ⟨ps, hps, hroot⟩ := rootLoop_positions lib tokens ord roots _ _ _ _ _ _ h1
    obtain ⟨fs, hfs, hrest⟩ := frameLoop_positions lib tokens ord roots n _ _ _ _ _ _ h
    simp only [List.nil_append] at hps
    subst hps
    refine ⟨rp1 :: fs, by rw [hfs]; simp, ?_⟩
    intro f hf
    cases f with
    | zero =>
      refine ⟨rp1, by simp, ?_⟩
      intro k root hk
      simpa using hroot k root hk
    | succ f =>
      obtain ⟨ps, hps, hk⟩ := hrest f (by omega)
      refine ⟨ps, by simpa using hps, ?_⟩
      intro k root hroot'
      have hidx : cur + (f + 1) * frameTokens roots + frameTokens (roots.take k) =
          cur1 + f * frameTokens roots + frameTokens (roots.take k) := by
        rw [e2, Nat.add_mul]
        omega
      rw [hidx]
      exact hk k root hroot'

/-- C19 (amended): for a model that the import returns, a frame `f` below the frame
count and the root `k`, with `a0, a1, a2` the axes that the channel table of the
hierarchy block holds at the entries 0..2 under the name of the root, a permutation
of `0, 1, 2`: the entry `f` of the root trajectories holds at index `k` a vector whose
component `a_i` is `atof` of the position token `i` of the root in the frame, for
`i = 0, 1, 2`.  The position tokens of root `k` in frame `f` follow the `MOTION` token
at index `m`, the five tokens of the header, the tokens of the frames before `f` and
the tokens of the roots before `k`. -/
theorem BVHImport_root_position_by_axis (lib : Lib α) (fuel : Nat) (path : String)
    (tokens : List String) (model : SkeletalMotion α) (m : Nat) (ord : ChannelOrderings)
    (himport : BVHImport lib fuel path tokens = .ok (some model))
    (hh : hierarchyLoop lib tokens fuel 0 [] UMap.empty =
      .ok (some (m, model.m_skeletonRoots, ord)))
    (f k : Nat) (root : SkeletonJoint α) (hf : (f : Int) < model.m_frameCount)
    (hk : model.m_skeletonRoots[k]? = some root) (a0 a1 a2 : Int)
    (h0 : (ord.getVector root.GetName)[0]? = some a0)
    (h1 : (ord.getVector root.GetName)[1]? = some a1)
    (h2 : (ord.getVector root.GetName)[2]? = some a2)
    (hperm : [a0, a1, a2].Perm [0, 1, 2]) :
    ∃ (trajectory : List (Vec3 α)) (p : Vec3 α) (t0 t1 t2 : String),
      model.m_rootTrajectories[f]? = some trajectory ∧ trajectory[k]? = some p ∧
      tokens[m + 6 + f * frameTokens model.m_skeletonRoots +
        frameTokens (model.m_skeletonRoots.take k)]? = some t0 ∧
      tokens[m + 6 + f * frameTokens model.m_skeletonRoots +
        frameTokens (model.m_skeletonRoots.take k) + 1]? = some t1 ∧
      tokens[m + 6 + f * frameTokens model.m_skeletonRoots +
        frameTokens (model.m_skeletonRoots.take k) + 2]? = some t2 ∧
      p.component a0 = some (lib.atof t0) ∧ p.component a1 = some (lib.atof t1) ∧
      p.component a2 = some (lib.atof t2) := by
  obtain ⟨m', ord', t2, t5, rate, hh', -, -, -, -, -, hcount, hfl, -⟩ := BVHImport_ok himport
  rw [hh] at hh'
  simp only [Outcome.ok.injEq, Option.some.injEq, Prod.mk.injEq, true_and] at hh'
  obtain ⟨rfl, rfl⟩ := hh'
  obtain ⟨fs, hfs, hframes⟩ := frameLoop_positions lib tokens ord model.m_skeletonRoots _ _ _ _ _ _ _ hfl
  simp only [List.nil_append] at hfs
  have hlt : f < (lib.atoi t2).toNat := by
    rw [hcount] at hf
    omega
  obtain ⟨ps, hps, hroots⟩ := hframes f hlt
  obtain ⟨p, p0, p1, hp, r0, r1, r2⟩ := hroots k root hk
  obtain ⟨t0, t1, t2, k0, k1, k2, c0, c1, c2⟩ :=
    readRootComponent_thrice lib tokens ord root.GetName _ a0 a1 a2 p0 p1 p h0 h1 h2 hperm r0 r1 r2
  exact ⟨ps, p, t0, t1, t2, by rw [hfs]; exact hps, hp, k0, k1, k2, c0, c1, c2⟩

end RootPositionTheorems

/-- The theorem on root positions, at the root `Hips` declared with the position channels
`Zposition Xposition Yposition` (axes 2, 0, 1) and the second frame, with the position
tokens `4 5 6`: the import returns a model whose root trajectories are
`[[(8, 9, 7)], [(5, 6, 4)]]`. -/
theorem BVHImport_root_position_by_axis_witness :
    ∃ model : SkeletalMotion ℚ,
      BVHImport rationalLib 10 "a.bvh" streamRootZXY = .ok (some model) ∧
      model.m_rootTrajectories = [[⟨8, 9, 7⟩], [⟨5, 6, 4⟩]] ∧
      (streamRootZXY.drop 37).take 3 = ["4", "5", "6"] ∧
      ∃ (trajectory : List (Vec3 ℚ)) (p : Vec3 ℚ) (t0 t1 t2 : String),
        model.m_rootTrajectories[1]? = some trajectory ∧ trajectory[0]? = some p ∧
        streamRootZXY[25 + 6 + 1 * frameTokens model.m_skeletonRoots +
          frameTokens (model.m_skeletonRoots.take 0)]? = some t0 ∧
        streamRootZXY[25 + 6 + 1 * frameTokens model.m_skeletonRoots +
          frameTokens (model.m_skeletonRoots.take 0) + 1]? = some t1 ∧
        streamRootZXY[25 + 6 + 1 * frameTokens model.m_skeletonRoots +
          frameTokens (model.m_skeletonRoots.take 0) + 2]? = some t2 ∧
        p.component 2 = some (rationalLib.atof t0) ∧ p.component 0 = some (rationalLib.atof t1) ∧
        p.component 1 = some (rationalLib.atof t2) := by
  refine ⟨_, rfl, by decide, rfl, ?_⟩
  refine BVHImport_root_position_by_axis rationalLib 10 "a.bvh" streamRootZXY _ 25
    ((UMap.empty : ChannelOrderings).insert "Hips" [2, 0, 1, 2, 0, 1]) ?_ ?_ 1 0
    (.mk "Hips" [.mk "Hips_end" [] ⟨0, 0, 0⟩] ⟨0, 0, 0⟩) ?_ ?_ 2 0 1 ?_ ?_ ?_ ?_
  · rfl
  · rfl
  · decide
  · rfl
  · rfl
  · rfl
  · rfl
  · decide

/-- Counterexample to C19 as stated: in the stream with two roots named `Hips`, the first
root declares `CHANNELS 6 Xposition Yposition Zposition ...` (axes 0, 1, 2) and has the
position values `7 8 9`.  The import returns a model whose root trajectories hold for
the first root the vector `(8, 9, 7)` and not `(7, 8, 9)`: the values were placed by
the channels `Zposition Xposition Yposition` of the second root, whose header is the
last one that carries the name. -/
theorem import_root_position_by_later_header :
    (streamTwoRootsOrders.drop 8).take 5 =
      ["CHANNELS", "6", "Xposition", "Yposition", "Zposition"] ∧
    ChannelOrderToInt "Xposition" = 0 ∧ ChannelOrderToInt "Yposition" = 1 ∧
    ChannelOrderToInt "Zposition" = 2 ∧
    (streamTwoRootsOrders.drop 55).take 3 = ["7", "8", "9"] ∧
    ∃ model, BVHImport rationalLib 20 "a.bvh" streamTwoRootsOrders = .ok (some model) ∧
      model.m_rootTrajectories = [[⟨8, 9, 7⟩, ⟨2, 3, 1⟩]] ∧
      (⟨8, 9, 7⟩ : Vec3 ℚ) ≠ ⟨7, 8, 9⟩ :=
  ⟨rfl, rfl, rfl, rfl, rfl, _, rfl, by decide, by decide⟩

end CBVH
